import Mathlib

/-!
SimplePipes: a shallow embedding of `src/main.c`

The C program keeps its state in global variables and calls `rand()`.  The
embedding threads one record, `World`, through every function:

* `int` values are `Int`; the only arithmetic the program does on them is
  `+ 1`, `- 1`, `+ 3`, a subtraction of two paddings and `%`, and signed
  overflow is undefined in C, so no wrap-around is modelled;
* `%` is the truncating remainder of C, `Int.tmod`; a remainder by zero is a
  fault, and a function that can reach one returns `Option`;
* `screen[y][x]` and `color_map[y][x]` are functions of the two indices
  (row first, as in the source); `NULL` is `none`; only the indices
  `0 ≤ y < MAX_HEIGHT`, `0 ≤ x < MAX_WIDTH` exist in the C arrays, and the
  source never clamps `term_width` and `term_height` to them: in a viewport
  larger than the arrays a guarded access `screen[y][x]` falls outside its
  row or outside the array, which is undefined in C, so the functions of
  the two indices stand for the arrays only when
  `term_width ≤ MAX_WIDTH` and `term_height ≤ MAX_HEIGHT`;
* `rand()` reads the next element of a fixed sequence of results
  (`rand_seq`, each a natural number as `rand()` never returns a negative
  value) and advances a cursor (`rand_pos`);
* a `for` loop is a recursion on the number of iterations left.
-/

namespace SimplePipes

/-! ## Constants (lines 8-12, 30-41) -/

def MAX_WIDTH : Int := 512
def MAX_HEIGHT : Int := 256
def MAX_PIPES : Int := 16
def TURN_DELAY : Int := 3
def BORDER_PADDING : Int := 2

/-- The palette `colors[]` of lines 30-39. -/
def colors : List String :=
  ["\x1b[31m", "\x1b[32m", "\x1b[33m", "\x1b[34m",
   "\x1b[35m", "\x1b[36m", "\x1b[37m", "\x1b[90m"]

/-- The constant `color_count = sizeof(colors) / sizeof(colors[0])`. -/
def color_count : Int := (colors.length : Int)

/-- The string `reset` of line 41. -/
def reset : String := "\x1b[0m"

/-! ## Data model (lines 14-28, 43-48) -/

/-- The struct `Point`. -/
structure Point where
  x : Int
  y : Int
deriving DecidableEq

/-- The struct `Pipe`; the field `from` is spelled `from_`. -/
structure Pipe where
  pos : Point
  from_ : Point
  dir : Int
  prev_dir : Int
  steps_since_turn : Int
  first_move : Int
  color_id : Int
deriving DecidableEq

/-- The global variables of the program together with the state of `rand()`.
The fields `screen` and `color_map` are defined at every pair of indices;
they stand for the arrays `screen[MAX_HEIGHT][MAX_WIDTH]` and
`color_map[MAX_HEIGHT][MAX_WIDTH]` as long as every access is below
`MAX_HEIGHT` and `MAX_WIDTH`, which the bounds tests of the source ensure
only when `term_width ≤ MAX_WIDTH` and `term_height ≤ MAX_HEIGHT`. -/
structure World where
  term_width : Int
  term_height : Int
  screen : Int → Int → Option String
  color_map : Int → Int → Int
  rainbow_mode : Int
  flicker_mode : Int
  base_color_index : Int
  pipe_count : Int
  rand_seq : Nat → Nat
  rand_pos : Nat

/-- The value the next call of `rand()` returns. -/
def rand_val (w : World) : Int := (w.rand_seq w.rand_pos : Int)

/-- The state after one call of `rand()`. -/
def rand_adv (w : World) : World := { w with rand_pos := w.rand_pos + 1 }

/-- Assignment to one element of a two-dimensional array, `a[y][x] = v`. -/
def set2 {α : Type} (a : Int → Int → α) (y x : Int) (v : α) : Int → Int → α :=
  fun y' x' => if y' = y ∧ x' = x then v else a y' x'

/-! ## Frame buffer (lines 95-109) -/

/-- Inner loop of `reset_screen`, `for (x = ..; x < MAX_WIDTH; ++x)`, with
`n` iterations left. -/
def reset_screen_row (w : World) (y : Int) : Int → Nat → World
  | _, 0 => w
  | x, n + 1 =>
    reset_screen_row
      { w with screen := set2 w.screen y x none, color_map := set2 w.color_map y x (-1) }
      y (x + 1) n

/-- Outer loop of `reset_screen`, `for (y = ..; y < MAX_HEIGHT; ++y)`, with
`n` iterations left. -/
def reset_screen_rows (w : World) : Int → Nat → World
  | _, 0 => w
  | y, n + 1 => reset_screen_rows (reset_screen_row w y 0 MAX_WIDTH.toNat) (y + 1) n

/-- The function `reset_screen` (lines 95-101). -/
def reset_screen (w : World) : World := reset_screen_rows w 0 MAX_HEIGHT.toNat

/-- Inner loop of `screen_filled` on row `y` from column `x`, `n` iterations
left: `false` when the loop returns 0 early, `true` when it runs to its end. -/
def screen_filled_row (w : World) (y : Int) : Int → Nat → Bool
  | _, 0 => true
  | x, n + 1 => if w.screen y x = none then false else screen_filled_row w y (x + 1) n

/-- Outer loop of `screen_filled` from row `y`, `n` iterations left. -/
def screen_filled_rows (w : World) : Int → Nat → Int
  | _, 0 => 1
  | y, n + 1 =>
    if screen_filled_row w y 0 w.term_width.toNat then screen_filled_rows w (y + 1) n else 0

/-- The function `screen_filled` (lines 103-109). -/
def screen_filled (w : World) : Int := screen_filled_rows w 0 w.term_height.toNat

/-! ## Spawning and glyphs (lines 115-144) -/

/-- The function `get_random_start` (lines 115-127): the point returned, the
value stored through `dir`, and the state after the three calls of `rand()`;
`none` when one of the two remainders divides by zero. -/
def get_random_start (w : World) : Option (Point × Int × World) :=
  let dir := Int.tmod (rand_val w) 4
  let w1 := rand_adv w
  let min_x := BORDER_PADDING
  let max_x := w.term_width - BORDER_PADDING
  let min_y := BORDER_PADDING
  let max_y := w.term_height - BORDER_PADDING
  if max_x - min_x = 0 then none
  else
    let px := Int.tmod (rand_val w1) (max_x - min_x) + min_x
    let w2 := rand_adv w1
    if max_y - min_y = 0 then none
    else
      let py := Int.tmod (rand_val w2) (max_y - min_y) + min_y
      some ({ x := px, y := py }, dir, rand_adv w2)

/-- The function `get_pipe_char` (lines 129-144). -/
def get_pipe_char (from_dir to_dir : Int) : String :=
  if from_dir = to_dir then
    (if to_dir = 0 ∨ to_dir = 2 then "─" else "│")
  else if from_dir = 0 ∧ to_dir = 1 then "┐"
  else if from_dir = 0 ∧ to_dir = 3 then "┘"
  else if from_dir = 1 ∧ to_dir = 0 then "┌"
  else if from_dir = 1 ∧ to_dir = 2 then "┐"
  else if from_dir = 2 ∧ to_dir = 1 then "┌"
  else if from_dir = 2 ∧ to_dir = 3 then "└"
  else if from_dir = 3 ∧ to_dir = 0 then "└"
  else if from_dir = 3 ∧ to_dir = 2 then "┘"
  else "*"

/-! ## The pipe stepper (lines 146-194) -/

/-- The two assignments `screen[y][x] = ch; color_map[y][x] = rainbow_mode ?
rand() % color_count : p->color_id;` of lines 153-154 and 169-170. -/
def put_cell (w : World) (y x : Int) (ch : String) (color_id : Int) : World :=
  let w1 : World := { w with screen := set2 w.screen y x (some ch) }
  if w1.rainbow_mode ≠ 0 then
    { rand_adv w1 with color_map := set2 w1.color_map y x (Int.tmod (rand_val w1) color_count) }
  else
    { w1 with color_map := set2 w1.color_map y x color_id }

/-- Lines 147-155 of `update_pipe`: the write at the previous position. -/
def commit_trailing (w : World) (p : Pipe) : World :=
  if p.first_move = 0 ∧ p.prev_dir ≠ p.dir ∧
      0 ≤ p.from_.x ∧ p.from_.x < w.term_width ∧
      0 ≤ p.from_.y ∧ p.from_.y < w.term_height ∧
      w.screen p.from_.y p.from_.x = none then
    put_cell w p.from_.y p.from_.x (get_pipe_char p.prev_dir p.dir) p.color_id
  else w

/-- Lines 157-162 of `update_pipe`: the `switch` on `p->dir`. -/
def advance (p : Pipe) : Pipe :=
  if p.dir = 0 then { p with pos := { p.pos with x := p.pos.x + 1 } }
  else if p.dir = 1 then { p with pos := { p.pos with y := p.pos.y + 1 } }
  else if p.dir = 2 then { p with pos := { p.pos with x := p.pos.x - 1 } }
  else if p.dir = 3 then { p with pos := { p.pos with y := p.pos.y - 1 } }
  else p

/-- Lines 164-171 of `update_pipe`: the write at the new position. -/
def commit_leading (w : World) (p : Pipe) : World :=
  if 0 ≤ p.pos.x ∧ p.pos.x < w.term_width ∧
      0 ≤ p.pos.y ∧ p.pos.y < w.term_height ∧
      w.screen p.pos.y p.pos.x = none then
    put_cell w p.pos.y p.pos.x (get_pipe_char p.dir p.dir) p.color_id
  else w

/-- Lines 173-175 of `update_pipe`. -/
def update_anchor (p : Pipe) : Pipe :=
  { p with from_ := p.pos, prev_dir := p.dir, first_move := 0 }

/-- Lines 177-184 of `update_pipe`: the turn roll. -/
def turn_decision (w : World) (p : Pipe) : World × Pipe :=
  if TURN_DELAY ≤ p.steps_since_turn then
    let t := Int.tmod (rand_val w) 6
    let w1 := rand_adv w
    if t = 0 then (w1, { p with dir := Int.tmod (p.dir + 1) 4, steps_since_turn := 0 })
    else if t = 1 then (w1, { p with dir := Int.tmod (p.dir + 3) 4, steps_since_turn := 0 })
    else (w1, { p with steps_since_turn := p.steps_since_turn + 1 })
  else (w, { p with steps_since_turn := p.steps_since_turn + 1 })

/-- The condition of lines 186-187: the position is within the border
margin of an edge. -/
def at_border (w : World) (pos : Point) : Prop :=
  pos.x < BORDER_PADDING ∨ pos.x ≥ w.term_width - BORDER_PADDING ∨
  pos.y < BORDER_PADDING ∨ pos.y ≥ w.term_height - BORDER_PADDING

instance (w : World) (pos : Point) : Decidable (at_border w pos) := by
  unfold at_border; exact inferInstance

/-- Lines 186-193 of `update_pipe`: the respawn at the border. -/
def respawn_check (w : World) (p : Pipe) : Option (World × Pipe) :=
  if at_border w p.pos then
    match get_random_start w with
    | none => none
    | some (pt, d, w1) =>
      some (w1, { p with pos := pt, dir := d, from_ := pt, prev_dir := d,
                         steps_since_turn := 0, first_move := 1 })
  else some (w, p)

/-- The function `update_pipe` (lines 146-194): the new globals and the new
contents of `*p`; `none` when the respawn divides by zero. -/
def update_pipe (w : World) (p : Pipe) : Option (World × Pipe) :=
  let w1 := commit_trailing w p
  let p1 := advance p
  let w2 := commit_leading w1 p1
  let p2 := update_anchor p1
  let r := turn_decision w2 p2
  respawn_check r.1 r.2

/-! ## Rendering (lines 74-93) -/

/-- Inner loop of `draw_screen` on row `y` from column `x`, `n` iterations
left; `out` is the text printed so far.  `none` when `colors[color]` is
read outside the palette. -/
def draw_screen_row (y : Int) : World → String → Int → Nat → Option (World × String)
  | w, out, _, 0 => some (w, out)
  | w, out, x, n + 1 =>
    match w.screen y x with
    | some g =>
      let color := if w.flicker_mode ≠ 0 then Int.tmod (rand_val w) color_count else w.color_map y x
      let w1 := if w.flicker_mode ≠ 0 then rand_adv w else w
      if 0 ≤ color ∧ color < color_count then
        draw_screen_row y w1 (out ++ colors.getD color.toNat "" ++ g) (x + 1) n
      else none
    | none => draw_screen_row y w (out ++ " ") (x + 1) n

/-- Outer loop of `draw_screen` from row `y`, `n` iterations left. -/
def draw_screen_rows : World → String → Int → Nat → Option (World × String)
  | w, out, _, 0 => some (w, out)
  | w, out, y, n + 1 =>
    match draw_screen_row y w out 0 w.term_width.toNat with
    | none => none
    | some (w1, out1) => draw_screen_rows w1 (out1 ++ "\n") (y + 1) n

/-- The function `draw_screen` (lines 78-93), `clear_screen` included: the
state after its calls of `rand()` and the text it prints. -/
def draw_screen (w : World) : Option (World × String) :=
  match draw_screen_rows w "\x1b[2J\x1b[H" 0 w.term_height.toNat with
  | none => none
  | some (w1, out) => some (w1, out ++ reset)

/-! ## The simulation loop (lines 243-275) -/

/-- The six assignments to `pipes[i]` of lines 248-253 and 264-269. -/
def init_pipe (w : World) : Option (World × Pipe) :=
  match get_random_start w with
  | none => none
  | some (pt, d, w1) =>
    if w1.rainbow_mode ≠ 0 then
      some (rand_adv w1,
        { pos := pt, from_ := pt, dir := d, prev_dir := d, steps_since_turn := 0,
          first_move := 1, color_id := Int.tmod (rand_val w1) color_count })
    else
      some (w1,
        { pos := pt, from_ := pt, dir := d, prev_dir := d, steps_since_turn := 0,
          first_move := 1, color_id := w1.base_color_index })

/-- The loop `for (i = ..; i < pipe_count; i++)` of lines 247-254 and
263-270 from index `i`, `n` iterations left. -/
def init_pipes : World → (Nat → Pipe) → Nat → Nat → Option (World × (Nat → Pipe))
  | w, pipes, _, 0 => some (w, pipes)
  | w, pipes, i, n + 1 =>
    match init_pipe w with
    | none => none
    | some (w1, p) => init_pipes w1 (Function.update pipes i p) (i + 1) n

/-- The loop of lines 257-259, `update_pipe(&pipes[i])` for every pipe, from
index `i`, `n` iterations left. -/
def update_pipes : World → (Nat → Pipe) → Nat → Nat → Option (World × (Nat → Pipe))
  | w, pipes, _, 0 => some (w, pipes)
  | w, pipes, i, n + 1 =>
    match update_pipe w (pipes i) with
    | none => none
    | some (w1, p) => update_pipes w1 (Function.update pipes i p) (i + 1) n

/-- Lines 244-254 of `main`: `reset_screen()` and the initialisation of the
pipes.  `w` is the state after `parse_args` and `get_terminal_size`, `pipes`
the uninitialised array. -/
def main_init (w : World) (pipes : Nat → Pipe) : Option (World × (Nat → Pipe)) :=
  init_pipes (reset_screen w) pipes 0 w.pipe_count.toNat

/-- Lines 257-271 of `main`: one iteration of the loop up to, and not
including, `draw_screen()`. -/
def loop_step (w : World) (pipes : Nat → Pipe) : Option (World × (Nat → Pipe)) :=
  match update_pipes w pipes 0 w.pipe_count.toNat with
  | none => none
  | some (w1, pipes1) =>
    if screen_filled w1 ≠ 0 then
      init_pipes (reset_screen w1) pipes1 0 w1.pipe_count.toNat
    else some (w1, pipes1)

/-- Lines 257-274 of `main`: one whole iteration of the loop (`sleep_ms`
changes nothing of the state). -/
def loop_iteration (w : World) (pipes : Nat → Pipe) : Option (World × (Nat → Pipe)) :=
  match loop_step w pipes with
  | none => none
  | some (w1, pipes1) =>
    match draw_screen w1 with
    | none => none
    | some (w2, _) => some (w2, pipes1)

/-- The state after `n` iterations of the loop of `main`. -/
def loop_iterations : Nat → World → (Nat → Pipe) → Option (World × (Nat → Pipe))
  | 0, w, pipes => some (w, pipes)
  | n + 1, w, pipes =>
    match loop_iteration w pipes with
    | none => none
    | some (w1, pipes1) => loop_iterations n w1 pipes1

/-- The state after `n` successive calls of `update_pipe` on one pipe. -/
def update_pipe_n : Nat → World → Pipe → Option (World × Pipe)
  | 0, w, p => some (w, p)
  | n + 1, w, p =>
    match update_pipe w p with
    | none => none
    | some (w1, p1) => update_pipe_n n w1 p1


/-! ## Statements of the specification, in its own words -/

/-- The eight valid turn pairs: both directions in 0..3 and `t` one quarter
turn to the right or to the left of `f`. -/
def valid_turn (f t : Int) : Prop :=
  0 ≤ f ∧ f ≤ 3 ∧ 0 ≤ t ∧ t ≤ 3 ∧ (t = (f + 1) % 4 ∨ t = (f + 3) % 4)

instance (f t : Int) : Decidable (valid_turn f t) := by
  unfold valid_turn; exact inferInstance

/-- The box-drawing corner whose two arms point to the sides `a` and `b` of
the cell (0 east, 1 south, 2 west, 3 north): `┌` south+east, `┐` south+west,
`└` north+east, `┘` north+west. -/
def spec_corner_with_arms (a b : Int) : Option String :=
  if (a = 1 ∧ b = 0) ∨ (a = 0 ∧ b = 1) then some "┌"
  else if (a = 1 ∧ b = 2) ∨ (a = 2 ∧ b = 1) then some "┐"
  else if (a = 3 ∧ b = 0) ∨ (a = 0 ∧ b = 3) then some "└"
  else if (a = 3 ∧ b = 2) ∨ (a = 2 ∧ b = 3) then some "┘"
  else none

/-- The corner the specification asks for when a pipe enters a cell
travelling in direction `f` and leaves it in direction `t`: one arm to the
side it came in by, opposite to `f`, and one to the side `t`. -/
def spec_corner (f t : Int) : Option String :=
  spec_corner_with_arms ((f + 2) % 4) t


/-! ## Vocabulary for statements about several ticks -/

/-- The call `update_pipe` on `p` in state `w` makes a turn roll and the roll
turns the pipe: the timer has reached `TURN_DELAY` and `rand() % 6` is 0 or 1. -/
def turns (w : World) (p : Pipe) : Prop :=
  TURN_DELAY ≤ p.steps_since_turn ∧
  (Int.tmod (rand_val (commit_leading (commit_trailing w p) (advance p))) 6 = 0 ∨
   Int.tmod (rand_val (commit_leading (commit_trailing w p) (advance p))) 6 = 1)

instance (w : World) (p : Pipe) : Decidable (turns w p) := by
  unfold turns; exact inferInstance

/-- None of the next `n` calls of `update_pipe` takes the respawn branch of
lines 186-193: each advanced position is outside the border margin. -/
def no_respawn : Nat → World → Pipe → Bool
  | 0, _, _ => true
  | n + 1, w, p =>
    decide (¬ at_border w (advance p).pos) &&
    match update_pipe w p with
    | none => false
    | some (w1, p1) => no_respawn n w1 p1

/-- The state `w'` has the settings of `w`: the viewport size, the mode
flags, the base colour, the number of pipes and the sequence `rand()` reads. -/
def same_config (w w' : World) : Prop :=
  w'.term_width = w.term_width ∧ w'.term_height = w.term_height ∧
  w'.rainbow_mode = w.rainbow_mode ∧ w'.flicker_mode = w.flicker_mode ∧
  w'.base_color_index = w.base_color_index ∧ w'.pipe_count = w.pipe_count ∧
  w'.rand_seq = w.rand_seq

/-- The state of a pipe right after the six assignments of lines 248-253:
anchored at its own position, timer 0, first move pending, and a colour
that is the base colour, or with rainbow mode on a palette index. -/
def fresh_pipe (w : World) (p : Pipe) : Prop :=
  p.from_ = p.pos ∧ p.prev_dir = p.dir ∧ p.steps_since_turn = 0 ∧ p.first_move = 1 ∧
  (w.rainbow_mode = 0 → p.color_id = w.base_color_index) ∧
  (w.rainbow_mode ≠ 0 → 0 ≤ p.color_id ∧ p.color_id ≤ 7)

/-- The states of the main loop in a 2 x 2 viewport with one pipe: no cell
of the viewport holds a glyph, and the pipe is anchored at its position, at
column 2 or further and row 2 or further. -/
def tiny_inv (w : World) (pipes : Nat → Pipe) : Prop :=
  w.term_width = 2 ∧ w.term_height = 2 ∧ w.pipe_count = 1 ∧
  (∀ y x : Int, 0 ≤ x → x < 2 → 0 ≤ y → y < 2 → w.screen y x = none) ∧
  2 ≤ (pipes 0).pos.x ∧ 2 ≤ (pipes 0).pos.y ∧ (pipes 0).from_ = (pipes 0).pos

/-! ## Concrete states, for the closed instances of the theorems -/

/-- A 10 x 5 viewport with an empty buffer, one pipe, rainbow mode off; the
first result of `rand()` is 5 and every later one is 2. -/
def world_10x5 : World :=
  { term_width := 10
    term_height := 5
    screen := fun _ _ => none
    color_map := fun _ _ => -1
    rainbow_mode := 0
    flicker_mode := 0
    base_color_index := 0
    pipe_count := 1
    rand_seq := fun n => if n = 0 then 5 else 2
    rand_pos := 0 }

/-- The state `world_10x5` with the cell of row 2, column 5 occupied. -/
def world_occupied : World :=
  { world_10x5 with
    screen := set2 world_10x5.screen 2 5 (some "│")
    color_map := set2 world_10x5.color_map 2 5 3 }

/-- A pipe at column 4 of row 2 that travels East. -/
def pipe_east : Pipe :=
  { pos := { x := 4, y := 2 }
    from_ := { x := 4, y := 2 }
    dir := 0
    prev_dir := 0
    steps_since_turn := 0
    first_move := 0
    color_id := 1 }

/-- A 20 x 20 viewport with an empty buffer; the first result of `rand()` is
0 and every later one is 2. -/
def world_20x20 : World :=
  { world_10x5 with
    term_width := 20
    term_height := 20
    rand_seq := fun n => if n = 0 then 0 else 2 }

/-- The state `world_10x5` with 0 as the first result of `rand()`. -/
def world_turn : World :=
  { world_10x5 with rand_seq := fun n => if n = 0 then 0 else 2 }

/-- A pipe at column 6 of row 2 that travels East and whose timer has
reached `TURN_DELAY`. -/
def pipe_ready : Pipe :=
  { pipe_east with
    pos := { x := 6, y := 2 }
    from_ := { x := 6, y := 2 }
    steps_since_turn := 3 }

/-- A pipe at column 6 of row 6 that travels East and whose timer has
reached `TURN_DELAY`. -/
def pipe_ready_mid : Pipe :=
  { pipe_east with
    pos := { x := 6, y := 6 }
    from_ := { x := 6, y := 6 }
    steps_since_turn := 3 }

/-- The state after the call `update_pipe` on `pipe_ready_mid` in `world_20x20`. -/
def after_turn : World × Pipe :=
  (update_pipe world_20x20 pipe_ready_mid).getD (world_20x20, pipe_ready_mid)

/-- The state and the pipe `init_pipe` produces in `world_turn`: the pipe is
at column 4 of row 2 and travels East. -/
def spawned_east : World × Pipe :=
  (init_pipe world_turn).getD (world_turn, pipe_east)

/-- The state and the pipe `init_pipe` produces in `world_10x5`: the pipe is
at column 4 of row 2 and travels South. -/
def spawned_south : World × Pipe :=
  (init_pipe world_10x5).getD (world_10x5, pipe_east)

/-- A 2 x 2 viewport with an empty buffer and one pipe; every result of
`rand()` is 2, a "go straight" roll. -/
def world_2x2 : World :=
  { world_10x5 with
    term_width := 2
    term_height := 2
    rand_seq := fun _ => 2 }

/-- An array of pipes, every element of which is `pipe_east`. -/
def pipes_east : Nat → Pipe := fun _ => pipe_east

/-- A 2 x 2 viewport all four cells of which are occupied. -/
def world_full : World :=
  { world_2x2 with
    screen := fun _ _ => some "─"
    color_map := fun _ _ => 0 }

/-- The state after the pipes of `world_full` were stepped. -/
def after_step_full : World × (Nat → Pipe) :=
  (update_pipes world_full pipes_east 0 world_full.pipe_count.toNat).getD (world_full, pipes_east)


/-! ## Buffer accesses of the stepper -/

/-- The indices `(y, x)` at which lines 147-155 of `update_pipe` access
`screen` or `color_map`, in order.  The operands of `&&` are evaluated from
left to right up to the first false one, so `screen[p->from.y][p->from.x]`
is read only after the six operands before it were true; the two writes
follow when it is `NULL`. -/
def commit_trailing_accesses (w : World) (p : Pipe) : List (Int × Int) :=
  if p.first_move = 0 ∧ p.prev_dir ≠ p.dir ∧
      0 ≤ p.from_.x ∧ p.from_.x < w.term_width ∧
      0 ≤ p.from_.y ∧ p.from_.y < w.term_height then
    if w.screen p.from_.y p.from_.x = none then
      [(p.from_.y, p.from_.x), (p.from_.y, p.from_.x), (p.from_.y, p.from_.x)]
    else [(p.from_.y, p.from_.x)]
  else []

/-- The indices `(y, x)` at which lines 164-171 of `update_pipe` access
`screen` or `color_map`, in order. -/
def commit_leading_accesses (w : World) (p : Pipe) : List (Int × Int) :=
  if 0 ≤ p.pos.x ∧ p.pos.x < w.term_width ∧
      0 ≤ p.pos.y ∧ p.pos.y < w.term_height then
    if w.screen p.pos.y p.pos.x = none then
      [(p.pos.y, p.pos.x), (p.pos.y, p.pos.x), (p.pos.y, p.pos.x)]
    else [(p.pos.y, p.pos.x)]
  else []

/-- The indices `(y, x)` at which a call of `update_pipe` accesses `screen`
or `color_map`; lines 173-193 access neither. -/
def update_pipe_accesses (w : World) (p : Pipe) : List (Int × Int) :=
  commit_trailing_accesses w p ++ commit_leading_accesses (commit_trailing w p) (advance p)

/-- The two assignments of lines 153-154 and 169-170 with the indices they
write, `screen[y][x]` and then `color_map[y][x]`. -/
def put_cell_traced (w : World) (y x : Int) (ch : String) (color_id : Int) :
    World × List (Int × Int) :=
  (put_cell w y x ch color_id, [(y, x), (y, x)])

/-- Lines 147-155 of `update_pipe`, returning the state together with the
indices `(y, x)` of the accesses to `screen` and `color_map` made on the
way: the read of `screen[p->from.y][p->from.x]`, the last operand of the
condition, is reached only when the six operands before it are true, and
the two writes follow when it finds `NULL`. -/
def commit_trailing_traced (w : World) (p : Pipe) : World × List (Int × Int) :=
  if p.first_move = 0 ∧ p.prev_dir ≠ p.dir ∧
      0 ≤ p.from_.x ∧ p.from_.x < w.term_width ∧
      0 ≤ p.from_.y ∧ p.from_.y < w.term_height then
    if w.screen p.from_.y p.from_.x = none then
      ((put_cell_traced w p.from_.y p.from_.x (get_pipe_char p.prev_dir p.dir) p.color_id).1,
        (p.from_.y, p.from_.x) ::
          (put_cell_traced w p.from_.y p.from_.x (get_pipe_char p.prev_dir p.dir)
            p.color_id).2)
    else (w, [(p.from_.y, p.from_.x)])
  else (w, [])

/-- Lines 164-171 of `update_pipe`, returning the state together with the
indices `(y, x)` of the accesses to `screen` and `color_map` made on the way. -/
def commit_leading_traced (w : World) (p : Pipe) : World × List (Int × Int) :=
  if 0 ≤ p.pos.x ∧ p.pos.x < w.term_width ∧
      0 ≤ p.pos.y ∧ p.pos.y < w.term_height then
    if w.screen p.pos.y p.pos.x = none then
      ((put_cell_traced w p.pos.y p.pos.x (get_pipe_char p.dir p.dir) p.color_id).1,
        (p.pos.y, p.pos.x) ::
          (put_cell_traced w p.pos.y p.pos.x (get_pipe_char p.dir p.dir) p.color_id).2)
    else (w, [(p.pos.y, p.pos.x)])
  else (w, [])

/-- The function `update_pipe` (lines 146-194) returning, next to its
result, the indices `(y, x)` of all its accesses to `screen` and
`color_map`, in order; lines 157-162 and 173-193 access neither. -/
def update_pipe_traced (w : World) (p : Pipe) :
    Option (World × Pipe) × List (Int × Int) :=
  let t := commit_trailing_traced w p
  let p1 := advance p
  let l := commit_leading_traced t.1 p1
  let p2 := update_anchor p1
  let r := turn_decision l.1 p2
  (respawn_check r.1 r.2, t.2 ++ l.2)

/-- The condition `update_pipe` tests at lines 186-187, on the state and
the pipe it has at that line: the call takes the respawn branch. -/
def respawns (w : World) (p : Pipe) : Prop :=
  at_border
    (turn_decision (commit_leading (commit_trailing w p) (advance p))
      (update_anchor (advance p))).1
    (turn_decision (commit_leading (commit_trailing w p) (advance p))
      (update_anchor (advance p))).2.pos

instance (w : World) (p : Pipe) : Decidable (respawns w p) := by
  unfold respawns; exact inferInstance

/-! ## The states a run goes through -/

/-- The states of a run of `main` that starts, after `parse_args` and
`get_terminal_size`, in the state `ws`: the state after the initialisation
of lines 244-254, and from a state of the run the state after a call of
`update_pipe` on one of the pipes below `pipe_count`, after the reset and
reinitialisation of lines 262-270, and after `draw_screen`.  The loop of
`main` makes these steps in a fixed order and the reset only when
`screen_filled` returns non-zero. -/
inductive Reachable (ws : World) : World → (Nat → Pipe) → Prop
  | init (pipes0 : Nat → Pipe) (w : World) (pipes : Nat → Pipe) :
      main_init ws pipes0 = some (w, pipes) → Reachable ws w pipes
  | step (w : World) (pipes : Nat → Pipe) (i : Nat) (w1 : World) (p1 : Pipe) :
      Reachable ws w pipes → (i : Int) < w.pipe_count →
      update_pipe w (pipes i) = some (w1, p1) →
      Reachable ws w1 (Function.update pipes i p1)
  | refill (w : World) (pipes : Nat → Pipe) (w1 : World) (pipes1 : Nat → Pipe) :
      Reachable ws w pipes →
      init_pipes (reset_screen w) pipes 0 w.pipe_count.toNat = some (w1, pipes1) →
      Reachable ws w1 pipes1
  | draw (w : World) (pipes : Nat → Pipe) (w1 : World) (out : String) :
      Reachable ws w pipes → draw_screen w = some (w1, out) → Reachable ws w1 pipes

/-- The cell `(y, x)` is one of the cells of the arrays `screen` and
`color_map`. -/
def in_buffer (y x : Int) : Prop :=
  0 ≤ y ∧ y < MAX_HEIGHT ∧ 0 ≤ x ∧ x < MAX_WIDTH

/-- The cell `(y, x)` is inside the active viewport of `w`. -/
def in_viewport (w : World) (y x : Int) : Prop :=
  0 ≤ x ∧ x < w.term_width ∧ 0 ≤ y ∧ y < w.term_height

instance (w : World) (y x : Int) : Decidable (in_viewport w y x) := by
  unfold in_viewport; exact inferInstance

/-! ## Properties of the pipes of a run -/

/-- The directions of a pipe are in 0..3 and the direction is not the
opposite of the previous direction. -/
def dirs_ok (p : Pipe) : Prop :=
  (0 ≤ p.dir ∧ p.dir ≤ 3) ∧ (0 ≤ p.prev_dir ∧ p.prev_dir ≤ 3) ∧
  p.dir ≠ (p.prev_dir + 2) % 4

/-- The position is inside the border margin of the viewport of `ws`. -/
def in_interior (ws : World) (p : Pipe) : Prop :=
  BORDER_PADDING ≤ p.pos.x ∧ p.pos.x < ws.term_width - BORDER_PADDING ∧
  BORDER_PADDING ≤ p.pos.y ∧ p.pos.y < ws.term_height - BORDER_PADDING

/-- The colour of the pipe is an index of the palette. -/
def color_id_ok (p : Pipe) : Prop := 0 ≤ p.color_id ∧ p.color_id ≤ 7

/-- In each cell of the arrays the colour is -1 exactly when there is no
glyph, and the colour of a glyph is an index of the palette. -/
def buffer_colours_ok (w : World) : Prop :=
  ∀ y x : Int, in_buffer y x →
    (w.color_map y x = -1 ↔ w.screen y x = none) ∧
    (w.screen y x ≠ none → 0 ≤ w.color_map y x ∧ w.color_map y x ≤ color_count - 1)

/-- The cell at the previous position of each pipe that has moved since it
was spawned holds a glyph, when that position is inside the viewport. -/
def anchors_occupied (w : World) (pipes : Nat → Pipe) : Prop :=
  ∀ i : Nat, (i : Int) < w.pipe_count → (pipes i).first_move = 0 →
    in_viewport w (pipes i).from_.y (pipes i).from_.x →
    w.screen (pipes i).from_.y (pipes i).from_.x ≠ none

/-- Each glyph of the arrays is one of the two straight glyphs. -/
def glyphs_straight (w : World) : Prop :=
  ∀ y x : Int, in_buffer y x → w.screen y x ≠ none →
    w.screen y x = some "─" ∨ w.screen y x = some "│"

/-- Each glyph of the arrays is at least one cell away from the edges of the
viewport of `ws`. -/
def glyphs_inside (ws w : World) : Prop :=
  ∀ y x : Int, in_buffer y x → w.screen y x ≠ none →
    1 ≤ x ∧ x ≤ ws.term_width - 2 ∧ 1 ≤ y ∧ y ≤ ws.term_height - 2

/-! ## More concrete states -/

/-- The state after the call `update_pipe` on `pipe_east` in `world_10x5`. -/
def after_east : World × Pipe :=
  (update_pipe world_10x5 pipe_east).getD (world_10x5, pipe_east)

/-- A pipe at column 7 of row 2 that travels East, one cell from the border
margin of the 10 x 5 viewport. -/
def pipe_at_margin : Pipe :=
  { pipe_east with
    pos := { x := 7, y := 2 }
    from_ := { x := 7, y := 2 } }

/-- The state after the call `update_pipe` on `pipe_at_margin` in `world_10x5`. -/
def after_margin : World × Pipe :=
  (update_pipe world_10x5 pipe_at_margin).getD (world_10x5, pipe_at_margin)

/-- The state after the call `update_pipe` on `pipe_ready` in `world_turn`. -/
def after_ready : World × Pipe :=
  (update_pipe world_turn pipe_ready).getD (world_turn, pipe_ready)

/-- A pipe right of the 10 x 5 viewport, at column 10 of row 2, that travels
East and has turned from South, its previous position left of the viewport. -/
def pipe_outside : Pipe :=
  { pipe_east with
    pos := { x := 10, y := 2 }
    from_ := { x := -1, y := 2 }
    prev_dir := 1 }
/-! ## Which globals each function leaves alone -/

@[simp] theorem rand_adv_term_width (w : World) : (rand_adv w).term_width = w.term_width := by
  rfl

@[simp] theorem put_cell_term_width (w : World) (y x : Int) (ch : String) (c : Int) :
    (put_cell w y x ch c).term_width = w.term_width := by
  simp only [put_cell]; split <;> rfl

@[simp] theorem commit_trailing_term_width (w : World) (p : Pipe) :
    (commit_trailing w p).term_width = w.term_width := by
  unfold commit_trailing; split <;> simp

@[simp] theorem commit_leading_term_width (w : World) (p : Pipe) :
    (commit_leading w p).term_width = w.term_width := by
  unfold commit_leading; split <;> simp

@[simp] theorem turn_decision_term_width (w : World) (p : Pipe) :
    (turn_decision w p).1.term_width = w.term_width := by
  simp only [turn_decision]; split_ifs <;> rfl

@[simp] theorem rand_adv_term_height (w : World) : (rand_adv w).term_height = w.term_height := by
  rfl

@[simp] theorem put_cell_term_height (w : World) (y x : Int) (ch : String) (c : Int) :
    (put_cell w y x ch c).term_height = w.term_height := by
  simp only [put_cell]; split <;> rfl

@[simp] theorem commit_trailing_term_height (w : World) (p : Pipe) :
    (commit_trailing w p).term_height = w.term_height := by
  unfold commit_trailing; split <;> simp

@[simp] theorem commit_leading_term_height (w : World) (p : Pipe) :
    (commit_leading w p).term_height = w.term_height := by
  unfold commit_leading; split <;> simp

@[simp] theorem turn_decision_term_height (w : World) (p : Pipe) :
    (turn_decision w p).1.term_height = w.term_height := by
  simp only [turn_decision]; split_ifs <;> rfl

@[simp] theorem rand_adv_rainbow_mode (w : World) : (rand_adv w).rainbow_mode = w.rainbow_mode := by
  rfl

@[simp] theorem put_cell_rainbow_mode (w : World) (y x : Int) (ch : String) (c : Int) :
    (put_cell w y x ch c).rainbow_mode = w.rainbow_mode := by
  simp only [put_cell]; split <;> rfl

@[simp] theorem commit_trailing_rainbow_mode (w : World) (p : Pipe) :
    (commit_trailing w p).rainbow_mode = w.rainbow_mode := by
  unfold commit_trailing; split <;> simp

@[simp] theorem commit_leading_rainbow_mode (w : World) (p : Pipe) :
    (commit_leading w p).rainbow_mode = w.rainbow_mode := by
  unfold commit_leading; split <;> simp

@[simp] theorem turn_decision_rainbow_mode (w : World) (p : Pipe) :
    (turn_decision w p).1.rainbow_mode = w.rainbow_mode := by
  simp only [turn_decision]; split_ifs <;> rfl

@[simp] theorem rand_adv_flicker_mode (w : World) : (rand_adv w).flicker_mode = w.flicker_mode := by
  rfl

@[simp] theorem put_cell_flicker_mode (w : World) (y x : Int) (ch : String) (c : Int) :
    (put_cell w y x ch c).flicker_mode = w.flicker_mode := by
  simp only [put_cell]; split <;> rfl

@[simp] theorem commit_trailing_flicker_mode (w : World) (p : Pipe) :
    (commit_trailing w p).flicker_mode = w.flicker_mode := by
  unfold commit_trailing; split <;> simp

@[simp] theorem commit_leading_flicker_mode (w : World) (p : Pipe) :
    (commit_leading w p).flicker_mode = w.flicker_mode := by
  unfold commit_leading; split <;> simp

@[simp] theorem turn_decision_flicker_mode (w : World) (p : Pipe) :
    (turn_decision w p).1.flicker_mode = w.flicker_mode := by
  simp only [turn_decision]; split_ifs <;> rfl

@[simp] theorem rand_adv_base_color_index (w : World) : (rand_adv w).base_color_index = w.base_color_index := by
  rfl

@[simp] theorem put_cell_base_color_index (w : World) (y x : Int) (ch : String) (c : Int) :
    (put_cell w y x ch c).base_color_index = w.base_color_index := by
  simp only [put_cell]; split <;> rfl

@[simp] theorem commit_trailing_base_color_index (w : World) (p : Pipe) :
    (commit_trailing w p).base_color_index = w.base_color_index := by
  unfold commit_trailing; split <;> simp

@[simp] theorem commit_leading_base_color_index (w : World) (p : Pipe) :
    (commit_leading w p).base_color_index = w.base_color_index := by
  unfold commit_leading; split <;> simp

@[simp] theorem turn_decision_base_color_index (w : World) (p : Pipe) :
    (turn_decision w p).1.base_color_index = w.base_color_index := by
  simp only [turn_decision]; split_ifs <;> rfl

@[simp] theorem rand_adv_pipe_count (w : World) : (rand_adv w).pipe_count = w.pipe_count := by
  rfl

@[simp] theorem put_cell_pipe_count (w : World) (y x : Int) (ch : String) (c : Int) :
    (put_cell w y x ch c).pipe_count = w.pipe_count := by
  simp only [put_cell]; split <;> rfl

@[simp] theorem commit_trailing_pipe_count (w : World) (p : Pipe) :
    (commit_trailing w p).pipe_count = w.pipe_count := by
  unfold commit_trailing; split <;> simp

@[simp] theorem commit_leading_pipe_count (w : World) (p : Pipe) :
    (commit_leading w p).pipe_count = w.pipe_count := by
  unfold commit_leading; split <;> simp

@[simp] theorem turn_decision_pipe_count (w : World) (p : Pipe) :
    (turn_decision w p).1.pipe_count = w.pipe_count := by
  simp only [turn_decision]; split_ifs <;> rfl

@[simp] theorem rand_adv_rand_seq (w : World) : (rand_adv w).rand_seq = w.rand_seq := by
  rfl

@[simp] theorem put_cell_rand_seq (w : World) (y x : Int) (ch : String) (c : Int) :
    (put_cell w y x ch c).rand_seq = w.rand_seq := by
  simp only [put_cell]; split <;> rfl

@[simp] theorem commit_trailing_rand_seq (w : World) (p : Pipe) :
    (commit_trailing w p).rand_seq = w.rand_seq := by
  unfold commit_trailing; split <;> simp

@[simp] theorem commit_leading_rand_seq (w : World) (p : Pipe) :
    (commit_leading w p).rand_seq = w.rand_seq := by
  unfold commit_leading; split <;> simp

@[simp] theorem turn_decision_rand_seq (w : World) (p : Pipe) :
    (turn_decision w p).1.rand_seq = w.rand_seq := by
  simp only [turn_decision]; split_ifs <;> rfl

@[simp] theorem rand_adv_screen (w : World) : (rand_adv w).screen = w.screen := by
  rfl

@[simp] theorem turn_decision_screen (w : World) (p : Pipe) :
    (turn_decision w p).1.screen = w.screen := by
  simp only [turn_decision]; split_ifs <;> rfl

@[simp] theorem rand_adv_color_map (w : World) : (rand_adv w).color_map = w.color_map := by
  rfl

@[simp] theorem turn_decision_color_map (w : World) (p : Pipe) :
    (turn_decision w p).1.color_map = w.color_map := by
  simp only [turn_decision]; split_ifs <;> rfl

/-! ## The buffer after a write -/

theorem put_cell_screen (w : World) (y x : Int) (ch : String) (c : Int) :
    (put_cell w y x ch c).screen = set2 w.screen y x (some ch) := by
  simp only [put_cell]; split <;> rfl

theorem put_cell_color_map (w : World) (y x : Int) (ch : String) (c : Int) :
    (put_cell w y x ch c).color_map =
      set2 w.color_map y x
        (if w.rainbow_mode ≠ 0 then Int.tmod (rand_val w) color_count else c) := by
  simp only [put_cell]; split <;> rfl

theorem set2_same {α : Type} (a : Int → Int → α) (y x : Int) (v : α) :
    set2 a y x v y x = v := by
  simp [set2]

theorem set2_other {α : Type} (a : Int → Int → α) (y x : Int) (v : α) (y' x' : Int)
    (h : ¬ (y' = y ∧ x' = x)) : set2 a y x v y' x' = a y' x' := by
  simp [set2, h]

/-- A write by `commit_trailing` leaves an occupied cell as it was. -/
theorem commit_trailing_occupied (w : World) (p : Pipe) (y x : Int)
    (h : w.screen y x ≠ none) :
    (commit_trailing w p).screen y x = w.screen y x ∧
    (commit_trailing w p).color_map y x = w.color_map y x := by
  unfold commit_trailing
  split
  · rename_i hc
    have hne : ¬ (y = p.from_.y ∧ x = p.from_.x) := by
      rintro ⟨rfl, rfl⟩; exact h hc.2.2.2.2.2.2
    rw [put_cell_screen, put_cell_color_map, set2_other _ _ _ _ _ _ hne,
      set2_other _ _ _ _ _ _ hne]
    exact ⟨rfl, rfl⟩
  · exact ⟨rfl, rfl⟩

/-- A write by `commit_leading` leaves an occupied cell as it was. -/
theorem commit_leading_occupied (w : World) (p : Pipe) (y x : Int)
    (h : w.screen y x ≠ none) :
    (commit_leading w p).screen y x = w.screen y x ∧
    (commit_leading w p).color_map y x = w.color_map y x := by
  unfold commit_leading
  split
  · rename_i hc
    have hne : ¬ (y = p.pos.y ∧ x = p.pos.x) := by
      rintro ⟨rfl, rfl⟩; exact h hc.2.2.2.2
    rw [put_cell_screen, put_cell_color_map, set2_other _ _ _ _ _ _ hne,
      set2_other _ _ _ _ _ _ hne]
    exact ⟨rfl, rfl⟩
  · exact ⟨rfl, rfl⟩

/-! ## `get_random_start` and the respawn -/

theorem tmod_nat_bounds (r : Nat) (m : Int) (hm : 0 < m) :
    0 ≤ Int.tmod (r : Int) m ∧ Int.tmod (r : Int) m < m := by
  have h0 : (0 : Int) ≤ (r : Int) := Int.ofNat_nonneg r
  rw [Int.tmod_eq_emod h0 (le_of_lt hm)]
  exact ⟨Int.emod_nonneg _ (ne_of_gt hm), Int.emod_lt_of_pos _ hm⟩

/-- What `get_random_start` returns when neither remainder divides by zero. -/
theorem get_random_start_eq (w : World) (hw : w.term_width ≠ 4) (hh : w.term_height ≠ 4) :
    get_random_start w =
      some ({ x := Int.tmod (rand_val (rand_adv w)) (w.term_width - 4) + 2,
              y := Int.tmod (rand_val (rand_adv (rand_adv w))) (w.term_height - 4) + 2 },
            Int.tmod (rand_val w) 4, rand_adv (rand_adv (rand_adv w))) := by
  have h1 : ¬ (w.term_width - 4 = 0) := by omega
  have h2 : ¬ (w.term_height - 4 = 0) := by omega
  have e1 : w.term_width - BORDER_PADDING - BORDER_PADDING = w.term_width - 4 := by
    simp only [BORDER_PADDING]; omega
  have e2 : w.term_height - BORDER_PADDING - BORDER_PADDING = w.term_height - 4 := by
    simp only [BORDER_PADDING]; omega
  simp only [get_random_start, h1, h2, if_false, e1, e2]
  rfl

theorem get_random_start_isSome (w : World) (hw : w.term_width ≠ 4) (hh : w.term_height ≠ 4) :
    (get_random_start w).isSome = true := by
  rw [get_random_start_eq w hw hh]; rfl

/-- The function `get_random_start` changes nothing but the cursor of `rand()`. -/
theorem get_random_start_world (w : World) (pt : Point) (d : Int) (w1 : World)
    (h : get_random_start w = some (pt, d, w1)) :
    w1 = { w with rand_pos := w.rand_pos + 3 } := by
  unfold get_random_start at h
  simp only at h
  split at h
  · exact absurd h (by simp)
  · split at h
    · exact absurd h (by simp)
    · simp only [Option.some.injEq, Prod.mk.injEq] at h
      rw [← h.2.2]; rfl

theorem respawn_check_buffer (w : World) (p : Pipe) (w' : World) (p' : Pipe)
    (h : respawn_check w p = some (w', p')) :
    w'.screen = w.screen ∧ w'.color_map = w.color_map := by
  unfold respawn_check at h
  split at h
  · split at h
    · exact absurd h (by simp)
    · rename_i pt d w1 hg
      simp only [Option.some.injEq, Prod.mk.injEq] at h
      rw [← h.1, get_random_start_world w pt d w1 hg]
      exact ⟨rfl, rfl⟩
  · simp only [Option.some.injEq, Prod.mk.injEq] at h
    rw [← h.1]; exact ⟨rfl, rfl⟩

theorem respawn_check_isSome (w : World) (p : Pipe)
    (hw : w.term_width ≠ 4) (hh : w.term_height ≠ 4) :
    (respawn_check w p).isSome = true := by
  unfold respawn_check
  split
  · rw [get_random_start_eq w hw hh]; rfl
  · rfl

/-- The point and the direction `get_random_start` returns in a viewport
larger than twice the border padding in both dimensions. -/
theorem get_random_start_bounds (w : World)
    (hw : w.term_width > 2 * BORDER_PADDING) (hh : w.term_height > 2 * BORDER_PADDING) :
    0 < (w.term_width - BORDER_PADDING) - BORDER_PADDING ∧
    0 < (w.term_height - BORDER_PADDING) - BORDER_PADDING ∧
    ∃ (pt : Point) (d : Int) (w' : World), get_random_start w = some (pt, d, w') ∧
      BORDER_PADDING ≤ pt.x ∧ pt.x < w.term_width - BORDER_PADDING ∧
      BORDER_PADDING ≤ pt.y ∧ pt.y < w.term_height - BORDER_PADDING ∧
      0 ≤ d ∧ d ≤ 3 := by
  simp only [BORDER_PADDING] at hw hh ⊢
  refine ⟨by omega, by omega, _, _, _, get_random_start_eq w (by omega) (by omega), ?_⟩
  have hx := tmod_nat_bounds ((rand_adv w).rand_seq (rand_adv w).rand_pos)
    (w.term_width - 4) (by omega)
  have hy := tmod_nat_bounds ((rand_adv (rand_adv w)).rand_seq (rand_adv (rand_adv w)).rand_pos)
    (w.term_height - 4) (by omega)
  have hd := tmod_nat_bounds (w.rand_seq w.rand_pos) 4 (by omega)
  simp only [rand_val]
  omega

/-! ## Glyph resolver -/

/-- C3: on the four same-direction pairs `get_pipe_char` returns the
horizontal glyph for East and West and the vertical glyph for South and
North, and these are two different glyphs. -/
theorem get_pipe_char_straight :
    get_pipe_char 0 0 = "─" ∧ get_pipe_char 2 2 = "─" ∧
    get_pipe_char 1 1 = "│" ∧ get_pipe_char 3 3 = "│" ∧
    get_pipe_char 0 0 ≠ get_pipe_char 1 1 := by
  decide

/-- On a valid turn pair `get_pipe_char` returns one of the four corner
glyphs. -/
theorem turn_glyph_is_corner (f t : Int) (h : valid_turn f t) :
    get_pipe_char f t ∈ ["┌", "┐", "└", "┘"] := by
  obtain ⟨h1, h2, h3, h4, h5⟩ := h
  interval_cases f <;> interval_cases t <;> first | omega | decide

/-- C4, as stated, fails: the eight valid turn pairs are mapped into the four
corner glyphs, so two different pairs return the same glyph and
`get_pipe_char` is not injective on them. -/
theorem get_pipe_char_not_injective :
    ¬ ∀ f t f' t' : Int, valid_turn f t → valid_turn f' t' →
        get_pipe_char f t = get_pipe_char f' t' → f = f' ∧ t = t' := by
  intro h
  have hv : ∀ p ∈ ({(0, 1), (0, 3), (1, 0), (1, 2), (2, 1), (2, 3), (3, 0), (3, 2)} :
      Finset (Int × Int)), valid_turn p.1 p.2 := by decide
  have hmap : ∀ p ∈ ({(0, 1), (0, 3), (1, 0), (1, 2), (2, 1), (2, 3), (3, 0), (3, 2)} :
      Finset (Int × Int)),
      get_pipe_char p.1 p.2 ∈ ({"┌", "┐", "└", "┘"} : Finset String) := by
    intro p hp
    have := turn_glyph_is_corner p.1 p.2 (hv p hp)
    simpa using this
  have hcard : ({"┌", "┐", "└", "┘"} : Finset String).card <
      ({(0, 1), (0, 3), (1, 0), (1, 2), (2, 1), (2, 3), (3, 0), (3, 2)} :
        Finset (Int × Int)).card := by decide
  obtain ⟨x, hx, y, hy, hne, he⟩ := Finset.exists_ne_map_eq_of_card_lt_of_maps_to hcard hmap
  have hxy := h x.1 x.2 y.1 y.2 (hv x hx) (hv y hy) he
  exact hne (Prod.ext hxy.1 hxy.2)

/-- C4, amended: on a valid turn pair `get_pipe_char` returns one of the four
corner glyphs, each of the four is returned for some valid turn pair, and
two valid turn pairs that have the same first direction or the same second
direction and return the same glyph are the same pair. -/
theorem get_pipe_char_turn_corners (f t f' t' : Int)
    (h : valid_turn f t) (h' : valid_turn f' t') :
    get_pipe_char f t ∈ ["┌", "┐", "└", "┘"] ∧
    (∀ g : String, g ∈ ["┌", "┐", "└", "┘"] →
      ∃ a b : Int, valid_turn a b ∧ get_pipe_char a b = g) ∧
    ((f = f' ∨ t = t') → get_pipe_char f t = get_pipe_char f' t' → f = f' ∧ t = t') := by
  refine ⟨turn_glyph_is_corner f t h, ?_, ?_⟩
  · intro g hg
    simp only [List.mem_cons, List.mem_singleton, List.mem_nil_iff, or_false] at hg
    rcases hg with rfl | rfl | rfl | rfl
    · exact ⟨2, 1, by decide, by decide⟩
    · exact ⟨0, 1, by decide, by decide⟩
    · exact ⟨2, 3, by decide, by decide⟩
    · exact ⟨0, 3, by decide, by decide⟩
  · obtain ⟨h1, h2, h3, h4, h5⟩ := h
    obtain ⟨k1, k2, k3, k4, k5⟩ := h'
    intro hs he
    interval_cases f <;> interval_cases t <;>
      first
      | (exfalso; omega)
      | (interval_cases f' <;> interval_cases t' <;>
          first
          | (exfalso; omega)
          | exact ⟨rfl, rfl⟩
          | exact absurd he (by decide))

/-- Witness of `get_pipe_char_turn_corners` at the pairs (0, 1) and (0, 3),
two turns out of the direction East. -/
theorem get_pipe_char_turn_corners_witness :
    valid_turn 0 1 ∧ valid_turn 0 3 ∧
    get_pipe_char 0 1 ∈ ["┌", "┐", "└", "┘"] ∧
    (get_pipe_char 0 1 = get_pipe_char 0 3 → (0 : Int) = 0 ∧ (1 : Int) = 3) :=
  ⟨by decide, by decide,
   (get_pipe_char_turn_corners 0 1 0 3 (by decide) (by decide)).1,
   (get_pipe_char_turn_corners 0 1 0 3 (by decide) (by decide)).2.2 (Or.inl rfl)⟩

/-- C5: the code against the corner the specification asks for, on the eight
valid turn pairs.  They agree on the four pairs that start horizontally and
differ on the four pairs that start vertically. -/
theorem get_pipe_char_corner_mismatch :
    (some (get_pipe_char 0 1) = spec_corner 0 1 ∧ some (get_pipe_char 0 3) = spec_corner 0 3 ∧
     some (get_pipe_char 2 1) = spec_corner 2 1 ∧ some (get_pipe_char 2 3) = spec_corner 2 3) ∧
    (get_pipe_char 1 0 = "┌" ∧ spec_corner 1 0 = some "└") ∧
    (get_pipe_char 1 2 = "┐" ∧ spec_corner 1 2 = some "┘") ∧
    (get_pipe_char 3 0 = "└" ∧ spec_corner 3 0 = some "┌") ∧
    (get_pipe_char 3 2 = "┘" ∧ spec_corner 3 2 = some "┐") := by
  decide

/-! ## Fill detection -/

theorem screen_filled_row_eq_true (w : World) (y : Int) (n : Nat) :
    ∀ x : Int, screen_filled_row w y x n = true ↔
      ∀ k : Nat, k < n → w.screen y (x + k) ≠ none := by
  induction n with
  | zero => intro x; simp [screen_filled_row]
  | succ n ih =>
    intro x
    simp only [screen_filled_row]
    by_cases hx : w.screen y x = none
    · simp only [hx, if_true]
      constructor
      · intro h; exact absurd h (by decide)
      · intro h
        have := h 0 (Nat.succ_pos n)
        simp [hx] at this
    · simp only [hx, if_false, ih]
      constructor
      · intro h k hk
        cases k with
        | zero => simpa using hx
        | succ k =>
          have := h k (by omega)
          have e : x + 1 + (k : Int) = x + ((k + 1 : Nat) : Int) := by push_cast; ring
          rwa [e] at this
      · intro h k hk
        have := h (k + 1) (by omega)
        have e : x + 1 + (k : Int) = x + ((k + 1 : Nat) : Int) := by push_cast; ring
        rwa [e]

theorem screen_filled_rows_zero_or_one (w : World) (n : Nat) :
    ∀ y : Int, screen_filled_rows w y n = 1 ∨ screen_filled_rows w y n = 0 := by
  induction n with
  | zero => intro y; simp [screen_filled_rows]
  | succ n ih =>
    intro y
    simp only [screen_filled_rows]
    split
    · exact ih _
    · exact Or.inr rfl

theorem screen_filled_rows_eq_one (w : World) (n : Nat) :
    ∀ y : Int, screen_filled_rows w y n = 1 ↔
      ∀ j : Nat, j < n → screen_filled_row w (y + j) 0 w.term_width.toNat = true := by
  induction n with
  | zero => intro y; simp [screen_filled_rows]
  | succ n ih =>
    intro y
    simp only [screen_filled_rows]
    by_cases hy : screen_filled_row w y 0 w.term_width.toNat = true
    · rw [if_pos hy, ih]
      constructor
      · intro h j hj
        cases j with
        | zero => simpa using hy
        | succ j =>
          have := h j (by omega)
          have e : y + 1 + (j : Int) = y + ((j + 1 : Nat) : Int) := by push_cast; ring
          rwa [e] at this
      · intro h j hj
        have := h (j + 1) (by omega)
        have e : y + 1 + (j : Int) = y + ((j + 1 : Nat) : Int) := by push_cast; ring
        rwa [e]
    · rw [if_neg hy]
      constructor
      · intro h; exact absurd h (by decide)
      · intro h
        have := h 0 (Nat.succ_pos n)
        simp at this
        exact absurd this hy

/-- The result of `screen_filled` in terms of the cells of the viewport. -/
theorem screen_filled_eq_one_iff (w : World) :
    screen_filled w = 1 ↔
      ∀ x y : Int, 0 ≤ x → x < w.term_width → 0 ≤ y → y < w.term_height →
        w.screen y x ≠ none := by
  unfold screen_filled
  rw [screen_filled_rows_eq_one]
  constructor
  · intro h x y hx0 hx hy0 hy
    have h1 := h y.toNat (by omega)
    rw [screen_filled_row_eq_true] at h1
    have h2 := h1 x.toNat (by omega)
    have ex : (0 : Int) + (x.toNat : Int) = x := by omega
    have ey : (0 : Int) + (y.toNat : Int) = y := by omega
    rwa [ex, ey] at h2
  · intro h j hj
    rw [screen_filled_row_eq_true]
    intro k hk
    exact h _ _ (by omega) (by omega) (by omega) (by omega)

/-- The function `screen_filled` returns 0 exactly when some cell of the
viewport is empty. -/
theorem screen_filled_eq_zero_iff (w : World) :
    screen_filled w = 0 ↔
      ¬ ∀ x y : Int, 0 ≤ x → x < w.term_width → 0 ≤ y → y < w.term_height →
        w.screen y x ≠ none := by
  rw [← screen_filled_eq_one_iff]
  rcases screen_filled_rows_zero_or_one w w.term_height.toNat 0 with h | h
  · simp [screen_filled, h]
  · simp [screen_filled, h]

/-- C2: `screen_filled` returns 1 exactly when every cell of the active
viewport is non-empty and 0 otherwise, and two buffers that agree on the
cells of the viewport give the same result. -/
theorem screen_filled_spec (w : World)
    (hW : 0 ≤ w.term_width ∧ w.term_width ≤ MAX_WIDTH)
    (hH : 0 ≤ w.term_height ∧ w.term_height ≤ MAX_HEIGHT) :
    (screen_filled w = 1 ↔
      ∀ x y : Int, 0 ≤ x → x < w.term_width → 0 ≤ y → y < w.term_height →
        w.screen y x ≠ none) ∧
    (screen_filled w = 0 ↔
      ¬ ∀ x y : Int, 0 ≤ x → x < w.term_width → 0 ≤ y → y < w.term_height →
        w.screen y x ≠ none) ∧
    (∀ w' : World, w'.term_width = w.term_width → w'.term_height = w.term_height →
      (∀ x y : Int, 0 ≤ x → x < w.term_width → 0 ≤ y → y < w.term_height →
        w'.screen y x = w.screen y x) →
      screen_filled w' = screen_filled w) := by
  have _ := hW
  have _ := hH
  refine ⟨screen_filled_eq_one_iff w, screen_filled_eq_zero_iff w, ?_⟩
  · intro w' hw hh hag
    have key : screen_filled w' = 1 ↔ screen_filled w = 1 := by
      rw [screen_filled_eq_one_iff, screen_filled_eq_one_iff, hw, hh]
      constructor
      · intro h x y a b c d
        rw [← hag x y a b c d]; exact h x y a b c d
      · intro h x y a b c d
        rw [hag x y a b c d]; exact h x y a b c d
    rcases screen_filled_rows_zero_or_one w w.term_height.toNat 0 with h | h <;>
      rcases screen_filled_rows_zero_or_one w' w'.term_height.toNat 0 with h' | h' <;>
      simp only [screen_filled] at key ⊢ <;> simp_all

/-- Witness of `screen_filled_spec`: the 2 x 2 viewport with four occupied cells. -/
theorem screen_filled_spec_witness :
    screen_filled world_full = 1 ∧
    (screen_filled world_full = 1 ↔
      ∀ x y : Int, 0 ≤ x → x < world_full.term_width → 0 ≤ y → y < world_full.term_height →
        world_full.screen y x ≠ none) ∧
    (∀ w' : World, w'.term_width = world_full.term_width →
      w'.term_height = world_full.term_height →
      (∀ x y : Int, 0 ≤ x → x < world_full.term_width → 0 ≤ y → y < world_full.term_height →
        w'.screen y x = world_full.screen y x) →
      screen_filled w' = screen_filled world_full) :=
  ⟨by decide,
   (screen_filled_spec world_full ⟨by decide, by decide⟩ ⟨by decide, by decide⟩).1,
   (screen_filled_spec world_full ⟨by decide, by decide⟩ ⟨by decide, by decide⟩).2.2⟩

/-! ## The stepper and the buffer -/

theorem update_pipe_isSome (w : World) (p : Pipe)
    (hw : w.term_width ≠ 4) (hh : w.term_height ≠ 4) :
    (update_pipe w p).isSome = true := by
  unfold update_pipe
  apply respawn_check_isSome <;> simpa

/-- C1: a call of `update_pipe` leaves every cell that was occupied before
the call with the same glyph and the same colour index.  The call returns
whenever the respawn cannot divide by zero. -/
theorem update_pipe_write_once (w : World) (p : Pipe) :
    (w.term_width ≠ 4 → w.term_height ≠ 4 → (update_pipe w p).isSome = true) ∧
    ∀ (w' : World) (p' : Pipe), update_pipe w p = some (w', p') →
      ∀ y x : Int, w.screen y x ≠ none →
        w'.screen y x = w.screen y x ∧ w'.color_map y x = w.color_map y x := by
  refine ⟨update_pipe_isSome w p, ?_⟩
  intro w' p' h y x hocc
  unfold update_pipe at h
  obtain ⟨hs, hc⟩ := respawn_check_buffer _ _ _ _ h
  have h1 := commit_trailing_occupied w p y x hocc
  have h2 := commit_leading_occupied (commit_trailing w p) (advance p) y x
    (by rw [h1.1]; exact hocc)
  rw [hs, hc, turn_decision_screen, turn_decision_color_map, h2.1, h2.2, h1.1, h1.2]
  exact ⟨rfl, rfl⟩

/-- Witness of `update_pipe_write_once`: a pipe stepping onto an occupied cell. -/
theorem update_pipe_write_once_witness :
    (update_pipe world_occupied pipe_east).isSome = true ∧
    ∀ (w' : World) (p' : Pipe), update_pipe world_occupied pipe_east = some (w', p') →
      p'.pos = { x := 5, y := 2 } ∧ w'.screen 2 5 = some "│" ∧ w'.color_map 2 5 = 3 := by
  refine ⟨(update_pipe_write_once world_occupied pipe_east).1 (by decide) (by decide), ?_⟩
  intro w' p' h
  have h1 := (update_pipe_write_once world_occupied pipe_east).2 w' p' h 2 5 (by decide)
  have h2 : (update_pipe world_occupied pipe_east).map (fun r => r.2.pos)
      = some { x := 5, y := 2 } := by decide
  rw [h] at h2
  refine ⟨by simpa using h2, ?_, ?_⟩
  · rw [h1.1]; rfl
  · rw [h1.2]; rfl

/-! ## Respawn containment -/

/-- C6: in a viewport larger than twice the border padding in both
dimensions both remainders of `get_random_start` have a positive divisor, the
function returns, the point lies inside the margin on both axes and the
direction is one of 0..3. -/
theorem get_random_start_contained (w : World)
    (hw : w.term_width > 2 * BORDER_PADDING) (hh : w.term_height > 2 * BORDER_PADDING) :
    0 < (w.term_width - BORDER_PADDING) - BORDER_PADDING ∧
    0 < (w.term_height - BORDER_PADDING) - BORDER_PADDING ∧
    ∃ (pt : Point) (d : Int) (w' : World), get_random_start w = some (pt, d, w') ∧
      BORDER_PADDING ≤ pt.x ∧ pt.x < w.term_width - BORDER_PADDING ∧
      BORDER_PADDING ≤ pt.y ∧ pt.y < w.term_height - BORDER_PADDING ∧
      0 ≤ d ∧ d ≤ 3 :=
  get_random_start_bounds w hw hh

/-- Witness of `get_random_start_contained` in the 10 x 5 viewport. -/
theorem get_random_start_contained_witness :
    ∃ (pt : Point) (d : Int) (w' : World), get_random_start world_10x5 = some (pt, d, w') ∧
      2 ≤ pt.x ∧ pt.x < 8 ∧ 2 ≤ pt.y ∧ pt.y < 3 ∧ 0 ≤ d ∧ d ≤ 3 :=
  (get_random_start_contained world_10x5 (by decide) (by decide)).2.2

/-! ## Ticks that do not respawn -/

@[simp] theorem advance_dir (p : Pipe) : (advance p).dir = p.dir := by
  unfold advance; split_ifs <;> rfl

@[simp] theorem advance_steps_since_turn (p : Pipe) :
    (advance p).steps_since_turn = p.steps_since_turn := by
  unfold advance; split_ifs <;> rfl

@[simp] theorem advance_color_id (p : Pipe) : (advance p).color_id = p.color_id := by
  unfold advance; split_ifs <;> rfl

@[simp] theorem turn_decision_pos (w : World) (p : Pipe) :
    (turn_decision w p).2.pos = p.pos := by
  simp only [turn_decision]; split_ifs <;> rfl

theorem at_border_congr (w w' : World) (pos : Point)
    (hw : w'.term_width = w.term_width) (hh : w'.term_height = w.term_height) :
    at_border w' pos ↔ at_border w pos := by
  unfold at_border; rw [hw, hh]

/-- The condition `update_pipe` tests at line 186 is the border condition on
the advanced position in the state before the call. -/
theorem update_pipe_border (w : World) (p : Pipe) :
    at_border
        (turn_decision (commit_leading (commit_trailing w p) (advance p))
          (update_anchor (advance p))).1
        (turn_decision (commit_leading (commit_trailing w p) (advance p))
          (update_anchor (advance p))).2.pos ↔
      at_border w (advance p).pos := by
  rw [turn_decision_pos]
  exact at_border_congr _ _ _ (by simp) (by simp)

/-- A call of `update_pipe` that does not respawn. -/
theorem update_pipe_of_not_border (w : World) (p : Pipe)
    (h : ¬ at_border w (advance p).pos) :
    update_pipe w p =
      some (turn_decision (commit_leading (commit_trailing w p) (advance p))
        (update_anchor (advance p))) := by
  unfold update_pipe
  simp only []
  unfold respawn_check
  rw [if_neg (fun hb => h ((update_pipe_border w p).mp hb))]

/-- The turn decision while the timer is below `TURN_DELAY`. -/
theorem turn_decision_early (w : World) (p : Pipe) (h : p.steps_since_turn < TURN_DELAY) :
    turn_decision w p = (w, { p with steps_since_turn := p.steps_since_turn + 1 }) := by
  simp only [turn_decision]
  rw [if_neg (not_le.mpr h)]

/-- The timer after a call of `update_pipe` that turns the pipe. -/
theorem update_pipe_turn_timer (w : World) (p : Pipe) (w' : World) (p' : Pipe)
    (h : update_pipe w p = some (w', p')) (ht : turns w p) :
    p'.steps_since_turn = 0 := by
  unfold update_pipe at h
  simp only [] at h
  have hs : (turn_decision (commit_leading (commit_trailing w p) (advance p))
      (update_anchor (advance p))).2.steps_since_turn = 0 := by
    obtain ⟨h1, h2⟩ := ht
    simp only [turn_decision, update_anchor, advance_steps_since_turn, h1, if_true]
    rcases h2 with h2 | h2
    · rw [if_pos h2]
    · have h3 : ¬ Int.tmod (rand_val (commit_leading (commit_trailing w p) (advance p))) 6 = 0 := by
        rw [h2]; decide
      rw [if_neg h3, if_pos h2]
  unfold respawn_check at h
  split at h
  · split at h
    · exact absurd h (by simp)
    · simp only [Option.some.injEq, Prod.mk.injEq] at h
      rw [← h.2]
  · simp only [Option.some.injEq, Prod.mk.injEq] at h
    rw [← h.2]; exact hs

theorem no_respawn_keeps_dir (n : Nat) :
    ∀ (w : World) (p : Pipe), p.steps_since_turn + n ≤ TURN_DELAY →
      no_respawn n w p = true →
      ∃ (w' : World) (p' : Pipe), update_pipe_n n w p = some (w', p') ∧
        p'.dir = p.dir ∧ p'.steps_since_turn = p.steps_since_turn + n := by
  induction n with
  | zero => intro w p _ _; exact ⟨w, p, rfl, rfl, by simp⟩
  | succ n ih =>
    intro w p hs hr
    simp only [no_respawn, Bool.and_eq_true, decide_eq_true_eq] at hr
    obtain ⟨hb, hr⟩ := hr
    have hlt : (update_anchor (advance p)).steps_since_turn < TURN_DELAY := by
      simp only [update_anchor, advance_steps_since_turn]
      push_cast at hs; omega
    have hu := update_pipe_of_not_border w p hb
    rw [turn_decision_early _ _ hlt] at hu
    rw [hu] at hr
    simp only [] at hr
    obtain ⟨w', p', h1, h2, h3⟩ := ih _ _ (by
      simp only [update_anchor, advance_steps_since_turn]; push_cast at hs ⊢; omega) hr
    refine ⟨w', p', ?_, ?_, ?_⟩
    · simp only [update_pipe_n, hu]; exact h1
    · rw [h2]; simp [update_anchor]
    · rw [h3]; simp only [update_anchor, advance_steps_since_turn]; push_cast; ring

/-- C7, as stated, fails: in the 10 x 5 viewport a pipe is turned from East
to South by one call of `update_pipe`, which resets its timer to 0, and the
next call respawns it with direction West. -/
theorem turn_cadence_broken_by_respawn :
    turns world_turn pipe_ready ∧ pipe_ready.dir = 0 ∧
    (update_pipe_n 1 world_turn pipe_ready).map (fun r => (r.2.dir, r.2.steps_since_turn))
      = some (1, 0) ∧
    (update_pipe_n 2 world_turn pipe_ready).map (fun r => r.2.dir) = some 2 := by
  decide

/-- C7, amended: after a call of `update_pipe` that turns the pipe the timer
is 0, and over the next `n ≤ TURN_DELAY` calls, none of which respawns the
pipe, the direction stays what the turn made it and the timer counts the
calls. -/
theorem turn_cadence (w0 : World) (p0 : Pipe) (w : World) (p : Pipe)
    (hstep : update_pipe w0 p0 = some (w, p)) (hturn : turns w0 p0)
    (n : Nat) (hn : (n : Int) ≤ TURN_DELAY) (hr : no_respawn n w p = true) :
    p.steps_since_turn = 0 ∧
    ∃ (w' : World) (p' : Pipe), update_pipe_n n w p = some (w', p') ∧
      p'.dir = p.dir ∧ p'.steps_since_turn = n := by
  have h0 := update_pipe_turn_timer w0 p0 w p hstep hturn
  refine ⟨h0, ?_⟩
  obtain ⟨w', p', h1, h2, h3⟩ := no_respawn_keeps_dir n w p (by rw [h0]; simpa using hn) hr
  exact ⟨w', p', h1, h2, by rw [h3, h0]; simp⟩

/-- Witness of `turn_cadence`: a turn from East to South in the middle of a
20 x 20 viewport, followed by three calls that keep the direction South. -/
theorem turn_cadence_witness :
    after_turn.2.dir = 1 ∧ after_turn.2.steps_since_turn = 0 ∧
    ∃ (w' : World) (p' : Pipe), update_pipe_n 3 after_turn.1 after_turn.2 = some (w', p') ∧
      p'.dir = after_turn.2.dir ∧ p'.steps_since_turn = (3 : Nat) :=
  ⟨by decide,
   turn_cadence world_20x20 pipe_ready_mid after_turn.1 after_turn.2 rfl (by decide) 3
     (by decide) (by decide)⟩

/-! ## A freshly spawned pipe -/

/-- The pipe and the state `init_pipe` produces. -/
theorem init_pipe_spec (w w0 : World) (p0 : Pipe) (h : init_pipe w = some (w0, p0)) :
    (∃ (pt : Point) (d : Int) (w1 : World), get_random_start w = some (pt, d, w1) ∧
      p0.pos = pt ∧ p0.dir = d) ∧
    p0.from_ = p0.pos ∧ p0.prev_dir = p0.dir ∧ p0.steps_since_turn = 0 ∧
    p0.first_move = 1 ∧
    (w.rainbow_mode = 0 → p0.color_id = w.base_color_index) ∧
    (w.rainbow_mode ≠ 0 → 0 ≤ p0.color_id ∧ p0.color_id < color_count) ∧
    w0.screen = w.screen ∧ w0.color_map = w.color_map ∧
    w0.term_width = w.term_width ∧ w0.term_height = w.term_height ∧
    w0.rainbow_mode = w.rainbow_mode ∧ w0.base_color_index = w.base_color_index ∧
    w0.pipe_count = w.pipe_count ∧ w0.flicker_mode = w.flicker_mode ∧
    w0.rand_seq = w.rand_seq := by
  unfold init_pipe at h
  split at h
  · exact absurd h (by simp)
  · rename_i pt d w1 hg
    have hw1 := get_random_start_world w pt d w1 hg
    subst hw1
    split at h
    · rename_i hr
      simp only [Option.some.injEq, Prod.mk.injEq] at h
      obtain ⟨rfl, rfl⟩ := h
      refine ⟨⟨pt, d, _, hg, rfl, rfl⟩, rfl, rfl, rfl, rfl, ?_, ?_, rfl, rfl, rfl, rfl, rfl, rfl,
        rfl, rfl, rfl⟩
      · intro h0; exact absurd h0 hr
      · intro _
        exact tmod_nat_bounds _ color_count (by decide)
    · rename_i hr
      simp only [Option.some.injEq, Prod.mk.injEq] at h
      obtain ⟨rfl, rfl⟩ := h
      refine ⟨⟨pt, d, _, hg, rfl, rfl⟩, rfl, rfl, rfl, rfl, ?_, ?_, rfl, rfl, rfl, rfl, rfl, rfl,
        rfl, rfl, rfl⟩
      · intro _; rfl
      · intro h0; exact absurd h0 (by simpa using hr)

theorem init_pipe_isSome (w : World) (hw : w.term_width ≠ 4) (hh : w.term_height ≠ 4) :
    (init_pipe w).isSome = true := by
  unfold init_pipe
  rw [get_random_start_eq w hw hh]
  simp only []
  split <;> rfl

/-! ## Straight moves -/

/-- A call of `update_pipe` that writes no trailing cell, makes no turn roll
and does not respawn: the pipe moves one cell and the cell it reaches, when
empty, receives the straight glyph of its direction. -/
theorem update_pipe_straight (w : World) (p : Pipe)
    (hnt : p.first_move ≠ 0 ∨ p.prev_dir = p.dir)
    (hlt : p.steps_since_turn < TURN_DELAY)
    (hb : ¬ at_border w (advance p).pos)
    (hempty : w.screen (advance p).pos.y (advance p).pos.x = none) :
    ∃ (w' : World) (p' : Pipe), update_pipe w p = some (w', p') ∧
      p'.pos = (advance p).pos ∧ p'.from_ = (advance p).pos ∧
      p'.dir = p.dir ∧ p'.prev_dir = p.dir ∧
      p'.steps_since_turn = p.steps_since_turn + 1 ∧ p'.first_move = 0 ∧
      p'.color_id = p.color_id ∧
      w'.term_width = w.term_width ∧ w'.term_height = w.term_height ∧
      w'.screen = set2 w.screen (advance p).pos.y (advance p).pos.x
        (some (get_pipe_char p.dir p.dir)) := by
  have hu := update_pipe_of_not_border w p hb
  have hlt' : (update_anchor (advance p)).steps_since_turn < TURN_DELAY := by
    simpa [update_anchor] using hlt
  rw [turn_decision_early _ _ hlt'] at hu
  have ht : commit_trailing w p = w := by
    unfold commit_trailing
    rw [if_neg]
    rintro ⟨h1, h2, _⟩
    rcases hnt with h | h
    · exact h h1
    · exact h2 h
  rw [ht] at hu
  have hin : 0 ≤ (advance p).pos.x ∧ (advance p).pos.x < w.term_width ∧
      0 ≤ (advance p).pos.y ∧ (advance p).pos.y < w.term_height := by
    simp only [at_border, BORDER_PADDING] at hb
    omega
  have hl : commit_leading w (advance p) =
      put_cell w (advance p).pos.y (advance p).pos.x
        (get_pipe_char (advance p).dir (advance p).dir) (advance p).color_id := by
    unfold commit_leading
    rw [if_pos ⟨hin.1, hin.2.1, hin.2.2.1, hin.2.2.2, hempty⟩]
  rw [hl] at hu
  refine ⟨_, _, hu, rfl, rfl, ?_, ?_, ?_, rfl, ?_, ?_, ?_, ?_⟩
  · simp [update_anchor]
  · simp [update_anchor]
  · simp [update_anchor]
  · simp [update_anchor]
  · simp
  · simp
  · rw [put_cell_screen, advance_dir]

theorem advance_pos_east (p : Pipe) (h : p.dir = 0) :
    (advance p).pos = { x := p.pos.x + 1, y := p.pos.y } := by
  simp [advance, h]

theorem advance_pos_west (p : Pipe) (h : p.dir = 2) :
    (advance p).pos = { x := p.pos.x - 1, y := p.pos.y } := by
  simp [advance, h]

/-- Three straight moves along a row of the 10 x 5 viewport, `s` being the
step of the direction on the x axis. -/
theorem three_moves_along_row (w : World) (p : Pipe) (s : Int)
    (hadv : ∀ q : Pipe, q.dir = p.dir →
      (advance q).pos = { x := q.pos.x + s, y := q.pos.y })
    (hs : s = 1 ∨ s = -1)
    (hw : w.term_width = 10) (hh : w.term_height = 5) (hy : p.pos.y = 2)
    (hx1 : 2 ≤ p.pos.x + s ∧ p.pos.x + s ≤ 7)
    (hx3 : 2 ≤ p.pos.x + 3 * s ∧ p.pos.x + 3 * s ≤ 7)
    (hfm : p.first_move = 1) (hst : p.steps_since_turn = 0)
    (hempty : ∀ y x : Int, w.screen y x = none) :
    ∃ (w3 : World) (p3 : Pipe), update_pipe_n 3 w p = some (w3, p3) ∧
      p3.pos = { x := p.pos.x + 3 * s, y := p.pos.y } ∧ p3.dir = p.dir ∧
      ∀ y x : Int, w3.screen y x =
        if y = p.pos.y ∧ (x = p.pos.x + s ∨ x = p.pos.x + 2 * s ∨ x = p.pos.x + 3 * s)
        then some (get_pipe_char p.dir p.dir) else none := by
  -- first call
  have a1 := hadv p rfl
  obtain ⟨w1, p1, e1, hp1, _, hd1, hpd1, hs1, _, _, hw1, hh1, hsc1⟩ :=
    update_pipe_straight w p (Or.inl (by rw [hfm]; decide)) (by rw [hst]; decide)
      (by rw [a1]; simp only [at_border, BORDER_PADDING, hw, hh]; omega)
      (hempty _ _)
  rw [a1] at hp1 hsc1
  have hp1x : p1.pos.x = p.pos.x + s := by rw [hp1]
  have hp1y : p1.pos.y = p.pos.y := by rw [hp1]
  -- second call
  have a2 := hadv p1 hd1
  rw [hp1x, hp1y] at a2
  obtain ⟨w2, p2, e2, hp2, _, hd2, hpd2, hs2, _, _, hw2, hh2, hsc2⟩ :=
    update_pipe_straight w1 p1 (Or.inr (by rw [hpd1, hd1])) (by rw [hs1, hst]; decide)
      (by rw [a2]; simp only [at_border, BORDER_PADDING, hw1, hh1, hw, hh]; omega)
      (by rw [a2, hsc1]; simp only [set2, hempty]; rw [if_neg]; omega)
  rw [a2] at hp2 hsc2
  have hp2x : p2.pos.x = p.pos.x + s + s := by rw [hp2]
  have hp2y : p2.pos.y = p.pos.y := by rw [hp2]
  -- third call
  have a3 := hadv p2 (by rw [hd2, hd1])
  rw [hp2x, hp2y] at a3
  obtain ⟨w3, p3, e3, hp3, _, hd3, _, _, _, _, _, _, hsc3⟩ :=
    update_pipe_straight w2 p2 (Or.inr (by rw [hpd2, hd2])) (by rw [hs2, hs1, hst]; decide)
      (by rw [a3]; simp only [at_border, BORDER_PADDING, hw2, hh2, hw1, hh1, hw, hh]; omega)
      (by
        rw [a3, hsc2, hsc1]; simp only [set2, hempty]
        rw [if_neg (by omega), if_neg (by omega)])
  rw [a3] at hp3 hsc3
  refine ⟨w3, p3, ?_, ?_, ?_, ?_⟩
  · simp only [update_pipe_n, e1, e2, e3]
  · rw [hp3]; congr 1; ring
  · rw [hd3, hd2, hd1]
  · intro y x
    rw [hsc3, hsc2, hsc1, hd2, hd1]
    simp only [set2, hempty]
    split_ifs <;> first | rfl | (exfalso; omega)

/-- C8, as stated, fails: in the 10 x 5 viewport with an empty buffer and a
source of `rand()` whose every result is a "go straight" roll, `init_pipe`
spawns the pipe at column 4 of row 2 travelling South; the first call of
`update_pipe` respawns it, and after three calls it is at column 2 of row 2
and the three occupied cells hold one vertical and two horizontal glyphs. -/
theorem three_ticks_respawn :
    (∀ n : Nat, 2 ≤ world_10x5.rand_seq n % 6 ∧ world_10x5.rand_seq n % 6 ≤ 5) ∧
    (init_pipe world_10x5).map (fun r => (r.2.pos, r.2.dir)) = some ({ x := 4, y := 2 }, 1) ∧
    ((init_pipe world_10x5).bind (fun r => update_pipe_n 3 r.1 r.2)).map
        (fun r => (r.2.pos, r.1.screen 3 4, r.1.screen 2 3, r.1.screen 2 2))
      = some ({ x := 2, y := 2 }, some "│", some "─", some "─") := by
  refine ⟨?_, by decide, by decide⟩
  intro n
  simp only [world_10x5]
  split <;> decide

/-- In the 10 x 5 viewport with an empty buffer, a pipe that `init_pipe`
spawns travelling East at a column up to 4, or West at a column from 5 on,
is after three calls of `update_pipe` three cells further in that direction,
and the occupied cells of the buffer are exactly the three cells it went
through, each holding the horizontal glyph. -/
theorem three_ticks_in_room (w : World)
    (hw : w.term_width = 10) (hh : w.term_height = 5)
    (hempty : ∀ y x : Int, w.screen y x = none)
    (w0 : World) (p0 : Pipe) (hinit : init_pipe w = some (w0, p0))
    (hroom : (p0.dir = 0 ∧ p0.pos.x ≤ 4) ∨ (p0.dir = 2 ∧ 5 ≤ p0.pos.x)) :
    ∃ (w3 : World) (p3 : Pipe) (s : Int), update_pipe_n 3 w0 p0 = some (w3, p3) ∧
      s = (if p0.dir = 0 then 1 else -1) ∧
      p3.pos = { x := p0.pos.x + 3 * s, y := p0.pos.y } ∧
      get_pipe_char p0.dir p0.dir = "─" ∧
      ∀ y x : Int, w3.screen y x =
        if y = p0.pos.y ∧ (x = p0.pos.x + s ∨ x = p0.pos.x + 2 * s ∨ x = p0.pos.x + 3 * s)
        then some "─" else none := by
  obtain ⟨⟨pt, d, w1, hg, hpos, hdir⟩, _, _, hst, hfm, _, _, hsc, _, hw0, hh0, _⟩ :=
    init_pipe_spec w w0 p0 hinit
  obtain ⟨_, _, pt', d', w1', hg', hx0, hx1, hy0, hy1, _, _⟩ :=
    get_random_start_bounds w (by rw [hw]; decide) (by rw [hh]; decide)
  rw [hg] at hg'
  simp only [Option.some.injEq, Prod.mk.injEq] at hg'
  obtain ⟨rfl, rfl, rfl⟩ := hg'
  simp only [BORDER_PADDING, hw, hh] at hx0 hx1 hy0 hy1
  rw [← hpos] at hx0 hx1 hy0 hy1
  have hempty0 : ∀ y x : Int, w0.screen y x = none := by
    intro y x; rw [hsc]; exact hempty y x
  rcases hroom with ⟨hd, hx⟩ | ⟨hd, hx⟩
  · obtain ⟨w3, p3, e, h1, _, h3⟩ :=
      three_moves_along_row w0 p0 1
        (fun q hq => advance_pos_east q (by rw [hq, hd])) (Or.inl rfl)
        (by rw [hw0, hw]) (by rw [hh0, hh]) (by omega) (by omega) (by omega) hfm hst hempty0
    have hg0 : get_pipe_char p0.dir p0.dir = "─" := by rw [hd]; decide
    refine ⟨w3, p3, 1, e, by rw [if_pos hd], h1, hg0, ?_⟩
    intro y x; rw [h3, hg0]
  · obtain ⟨w3, p3, e, h1, _, h3⟩ :=
      three_moves_along_row w0 p0 (-1)
        (fun q hq => advance_pos_west q (by rw [hq, hd])) (Or.inr rfl)
        (by rw [hw0, hw]) (by rw [hh0, hh]) (by omega) (by omega) (by omega) hfm hst hempty0
    have hg0 : get_pipe_char p0.dir p0.dir = "─" := by rw [hd]; decide
    refine ⟨w3, p3, -1, e, by rw [if_neg (by rw [hd]; decide)], h1, hg0, ?_⟩
    intro y x; rw [h3, hg0]

/-! ## Settings are never written after start-up -/

theorem same_config_refl (w : World) : same_config w w :=
  ⟨rfl, rfl, rfl, rfl, rfl, rfl, rfl⟩

theorem same_config_trans {a b c : World} (h1 : same_config a b) (h2 : same_config b c) :
    same_config a c := by
  obtain ⟨a1, a2, a3, a4, a5, a6, a7⟩ := h1
  obtain ⟨b1, b2, b3, b4, b5, b6, b7⟩ := h2
  exact ⟨b1.trans a1, b2.trans a2, b3.trans a3, b4.trans a4, b5.trans a5, b6.trans a6,
    b7.trans a7⟩

theorem update_pipe_same_config (w : World) (p : Pipe) (w' : World) (p' : Pipe)
    (h : update_pipe w p = some (w', p')) : same_config w w' := by
  unfold update_pipe at h
  simp only [] at h
  unfold respawn_check at h
  split at h
  · split at h
    · exact absurd h (by simp)
    · rename_i pt d w1 hg
      simp only [Option.some.injEq, Prod.mk.injEq] at h
      rw [← h.1, get_random_start_world _ pt d w1 hg]
      refine ⟨?_, ?_, ?_, ?_, ?_, ?_, ?_⟩ <;> simp
  · simp only [Option.some.injEq, Prod.mk.injEq] at h
    rw [← h.1]
    refine ⟨?_, ?_, ?_, ?_, ?_, ?_, ?_⟩ <;> simp

theorem init_pipe_same_config (w w0 : World) (p0 : Pipe) (h : init_pipe w = some (w0, p0)) :
    same_config w w0 := by
  obtain ⟨_, _, _, _, _, _, _, _, _, h1, h2, h3, h4, h5, h6, h7⟩ := init_pipe_spec w w0 p0 h
  exact ⟨h1, h2, h3, h6, h4, h5, h7⟩

theorem update_pipes_same_config (n : Nat) :
    ∀ (w : World) (pipes : Nat → Pipe) (i : Nat) (w' : World) (pipes' : Nat → Pipe),
      update_pipes w pipes i n = some (w', pipes') → same_config w w' := by
  induction n with
  | zero =>
    intro w pipes i w' pipes' h
    simp only [update_pipes, Option.some.injEq, Prod.mk.injEq] at h
    rw [← h.1]; exact same_config_refl w
  | succ n ih =>
    intro w pipes i w' pipes' h
    simp only [update_pipes] at h
    split at h
    · exact absurd h (by simp)
    · rename_i w1 p1 hu
      exact same_config_trans (update_pipe_same_config _ _ _ _ hu) (ih _ _ _ _ _ h)

theorem update_pipes_isSome (n : Nat) :
    ∀ (w : World) (pipes : Nat → Pipe) (i : Nat),
      w.term_width ≠ 4 → w.term_height ≠ 4 → (update_pipes w pipes i n).isSome = true := by
  induction n with
  | zero => intro w pipes i _ _; rfl
  | succ n ih =>
    intro w pipes i hw hh
    simp only [update_pipes]
    have hs := update_pipe_isSome w (pipes i) hw hh
    cases hu : update_pipe w (pipes i) with
    | none => rw [hu] at hs; exact absurd hs (by decide)
    | some r =>
      obtain ⟨w1, p1⟩ := r
      obtain ⟨c1, c2, _⟩ := update_pipe_same_config _ _ _ _ hu
      exact ih _ _ _ (by rw [c1]; exact hw) (by rw [c2]; exact hh)

/-! ## `reset_screen` -/

theorem reset_screen_row_eq (y : Int) (n : Nat) :
    ∀ (w : World) (x : Int), reset_screen_row w y x n =
      { w with
        screen := fun y' x' => if y' = y ∧ x ≤ x' ∧ x' < x + n then none else w.screen y' x'
        color_map := fun y' x' =>
          if y' = y ∧ x ≤ x' ∧ x' < x + n then -1 else w.color_map y' x' } := by
  induction n with
  | zero =>
    intro w x
    simp only [reset_screen_row]
    have e : ∀ x' : Int, ¬ (x ≤ x' ∧ x' < x + ((0 : Nat) : Int)) := by intro x'; omega
    simp only [e, and_false, if_false]
  | succ n ih =>
    intro w x
    simp only [reset_screen_row, ih]
    congr 1
    · funext y' x'
      simp only [set2]
      by_cases hy : y' = y
      · by_cases h1 : x' = x
        · subst h1; simp [hy]
        · have : (x + 1 ≤ x' ∧ x' < x + 1 + (n : Int)) ↔ (x ≤ x' ∧ x' < x + ((n + 1 : Nat) : Int)) := by
            push_cast; omega
          simp only [hy, true_and, h1, if_false, this]
      · simp [hy]
    · funext y' x'
      simp only [set2]
      by_cases hy : y' = y
      · by_cases h1 : x' = x
        · subst h1; simp [hy]
        · have : (x + 1 ≤ x' ∧ x' < x + 1 + (n : Int)) ↔ (x ≤ x' ∧ x' < x + ((n + 1 : Nat) : Int)) := by
            push_cast; omega
          simp only [hy, true_and, h1, if_false, this]
      · simp [hy]

theorem reset_screen_rows_zero (w : World) (y : Int) : reset_screen_rows w y 0 = w := rfl

set_option maxRecDepth 100000 in
theorem reset_screen_rows_succ (w : World) (y : Int) (n : Nat) :
    reset_screen_rows w y (n + 1) =
      reset_screen_rows (reset_screen_row w y 0 MAX_WIDTH.toNat) (y + 1) n := rfl

theorem reset_screen_rows_eq (n : Nat) :
    ∀ (w : World) (y : Int), reset_screen_rows w y n =
      { w with
        screen := fun y' x' =>
          if (y ≤ y' ∧ y' < y + n) ∧ 0 ≤ x' ∧ x' < MAX_WIDTH then none else w.screen y' x'
        color_map := fun y' x' =>
          if (y ≤ y' ∧ y' < y + n) ∧ 0 ≤ x' ∧ x' < MAX_WIDTH then -1 else w.color_map y' x' } := by
  induction n with
  | zero =>
    intro w y
    rw [reset_screen_rows_zero]
    have e : ∀ y' : Int, ¬ (y ≤ y' ∧ y' < y + ((0 : Nat) : Int)) := by intro y'; omega
    simp only [e, false_and, if_false]
  | succ n ih =>
    intro w y
    rw [reset_screen_rows_succ, ih, reset_screen_row_eq]
    have hM : ((MAX_WIDTH.toNat : Nat) : Int) = MAX_WIDTH := by decide
    congr 1
    · funext y' x'
      by_cases hy : y' = y
      · subst hy
        have a : ¬ (y' + 1 ≤ y' ∧ y' < y' + 1 + (n : Int)) := by omega
        have b : (y' ≤ y' ∧ y' < y' + ((n + 1 : Nat) : Int)) := by push_cast; omega
        simp only [a, false_and, if_false, b, true_and, hM, zero_add]
      · have a : (y + 1 ≤ y' ∧ y' < y + 1 + (n : Int)) ↔ (y ≤ y' ∧ y' < y + ((n + 1 : Nat) : Int)) := by
          push_cast; omega
        simp only [a, hy, false_and, if_false]
    · funext y' x'
      by_cases hy : y' = y
      · subst hy
        have a : ¬ (y' + 1 ≤ y' ∧ y' < y' + 1 + (n : Int)) := by omega
        have b : (y' ≤ y' ∧ y' < y' + ((n + 1 : Nat) : Int)) := by push_cast; omega
        simp only [a, false_and, if_false, b, true_and, hM, zero_add]
      · have a : (y + 1 ≤ y' ∧ y' < y + 1 + (n : Int)) ↔ (y ≤ y' ∧ y' < y + ((n + 1 : Nat) : Int)) := by
          push_cast; omega
        simp only [a, hy, false_and, if_false]

/-- The state after `reset_screen`: every cell of the full extent of the
arrays is empty with colour -1, and nothing else has changed. -/
theorem reset_screen_eq (w : World) :
    reset_screen w =
      { w with
        screen := fun y x =>
          if (0 ≤ y ∧ y < MAX_HEIGHT) ∧ 0 ≤ x ∧ x < MAX_WIDTH then none else w.screen y x
        color_map := fun y x =>
          if (0 ≤ y ∧ y < MAX_HEIGHT) ∧ 0 ≤ x ∧ x < MAX_WIDTH then -1 else w.color_map y x } := by
  unfold reset_screen
  rw [reset_screen_rows_eq]
  have hM : ((MAX_HEIGHT.toNat : Nat) : Int) = MAX_HEIGHT := by decide
  simp only [hM, zero_add]

theorem reset_screen_cell (w : World) (y x : Int)
    (hy : 0 ≤ y ∧ y < MAX_HEIGHT) (hx : 0 ≤ x ∧ x < MAX_WIDTH) :
    (reset_screen w).screen y x = none ∧ (reset_screen w).color_map y x = -1 := by
  rw [reset_screen_eq]
  simp only [hy, hx, and_self, if_true]

theorem reset_screen_same_config (w : World) : same_config w (reset_screen w) := by
  rw [reset_screen_eq]; exact ⟨rfl, rfl, rfl, rfl, rfl, rfl, rfl⟩

/-! ## Rendering an empty viewport -/

theorem draw_screen_row_empty (y : Int) (n : Nat) :
    ∀ (w : World) (out : String) (x : Int),
      (∀ k : Nat, k < n → w.screen y (x + k) = none) →
      ∃ out' : String, draw_screen_row y w out x n = some (w, out') := by
  induction n with
  | zero => intro w out x _; exact ⟨out, rfl⟩
  | succ n ih =>
    intro w out x h
    have h0 : w.screen y x = none := by simpa using h 0 (Nat.succ_pos n)
    simp only [draw_screen_row, h0]
    apply ih
    intro k hk
    have := h (k + 1) (by omega)
    have e : x + 1 + (k : Int) = x + ((k + 1 : Nat) : Int) := by push_cast; ring
    rwa [e]

theorem draw_screen_rows_empty (n : Nat) :
    ∀ (w : World) (out : String) (y : Int),
      (∀ j k : Nat, j < n → k < w.term_width.toNat → w.screen (y + j) (0 + k) = none) →
      ∃ out' : String, draw_screen_rows w out y n = some (w, out') := by
  induction n with
  | zero => intro w out y _; exact ⟨out, rfl⟩
  | succ n ih =>
    intro w out y h
    obtain ⟨o1, h1⟩ := draw_screen_row_empty y w.term_width.toNat w out 0
      (fun k hk => by simpa using h 0 k (Nat.succ_pos n) hk)
    simp only [draw_screen_rows, h1]
    apply ih
    intro j k hj hk
    have := h (j + 1) k (by omega) hk
    have e : y + 1 + (j : Int) = y + ((j + 1 : Nat) : Int) := by push_cast; ring
    rwa [e]

/-- With no glyph in the viewport `draw_screen` returns and calls `rand()` not once. -/
theorem draw_screen_empty (w : World)
    (h : ∀ y x : Int, 0 ≤ x → x < w.term_width → 0 ≤ y → y < w.term_height →
      w.screen y x = none) :
    ∃ out : String, draw_screen w = some (w, out) := by
  obtain ⟨o, ho⟩ := draw_screen_rows_empty w.term_height.toNat w "\x1b[2J\x1b[H" 0
    (fun j k hj hk => h _ _ (by omega) (by omega) (by omega) (by omega))
  exact ⟨o ++ reset, by simp only [draw_screen, ho]⟩

/-! ## The 2 x 2 viewport -/

theorem get_random_start_tiny (w : World) (hw : w.term_width = 2) (hh : w.term_height = 2) :
    ∃ (pt : Point) (d : Int), get_random_start w = some (pt, d, rand_adv (rand_adv (rand_adv w))) ∧
      2 ≤ pt.x ∧ 2 ≤ pt.y := by
  refine ⟨_, _, get_random_start_eq w (by rw [hw]; decide) (by rw [hh]; decide), ?_, ?_⟩
  · have := Int.tmod_nonneg (w.term_width - 4) (Int.ofNat_nonneg
      ((rand_adv w).rand_seq (rand_adv w).rand_pos))
    simp only [rand_val]; omega
  · have := Int.tmod_nonneg (w.term_height - 4) (Int.ofNat_nonneg
      ((rand_adv (rand_adv w)).rand_seq (rand_adv (rand_adv w)).rand_pos))
    simp only [rand_val]; omega

/-- In the 2 x 2 viewport a call of `update_pipe` on a pipe spawned by
`get_random_start` writes no cell and respawns the pipe. -/
theorem update_pipe_tiny (w : World) (p : Pipe)
    (hw : w.term_width = 2) (hh : w.term_height = 2)
    (hx : 2 ≤ p.pos.x) (hy : 2 ≤ p.pos.y) (hf : p.from_ = p.pos) :
    ∃ (w' : World) (p' : Pipe), update_pipe w p = some (w', p') ∧ w'.screen = w.screen ∧
      2 ≤ p'.pos.x ∧ 2 ≤ p'.pos.y ∧ p'.from_ = p'.pos := by
  have ht : commit_trailing w p = w := by
    unfold commit_trailing
    rw [if_neg]
    rintro ⟨_, _, _, h, _⟩
    rw [hf, hw] at h; omega
  have hadv : 1 ≤ (advance p).pos.x ∧ 1 ≤ (advance p).pos.y ∧
      (2 ≤ (advance p).pos.x ∨ 2 ≤ (advance p).pos.y) := by
    unfold advance
    split_ifs <;> (try dsimp only) <;> omega
  have hl : commit_leading w (advance p) = w := by
    unfold commit_leading
    rw [if_neg]
    rintro ⟨_, h1, _, h2, _⟩
    rw [hw] at h1; rw [hh] at h2; omega
  have hb : at_border w (advance p).pos := by
    simp only [at_border, BORDER_PADDING, hw]; omega
  obtain ⟨pt, d, hg, hpx, hpy⟩ := get_random_start_tiny
    (turn_decision w (update_anchor (advance p))).1 (by simpa using hw) (by simpa using hh)
  have hu : update_pipe w p = respawn_check (turn_decision w (update_anchor (advance p))).1
      (turn_decision w (update_anchor (advance p))).2 := by
    simp only [update_pipe, ht, hl]
  have hb' : at_border (turn_decision w (update_anchor (advance p))).1
      (turn_decision w (update_anchor (advance p))).2.pos := by
    have := (update_pipe_border w p).mpr hb
    rwa [ht, hl] at this
  rw [hu]
  unfold respawn_check
  rw [if_pos hb', hg]
  exact ⟨_, _, rfl, by simp, hpx, hpy, rfl⟩

theorem init_pipe_tiny (w : World) (hw : w.term_width = 2) (hh : w.term_height = 2) :
    ∃ (w' : World) (p' : Pipe), init_pipe w = some (w', p') ∧ w'.screen = w.screen ∧
      2 ≤ p'.pos.x ∧ 2 ≤ p'.pos.y ∧ p'.from_ = p'.pos := by
  obtain ⟨pt, d, hg, hpx, hpy⟩ := get_random_start_tiny w hw hh
  unfold init_pipe
  rw [hg]
  simp only []
  split
  · exact ⟨_, _, rfl, rfl, hpx, hpy, rfl⟩
  · exact ⟨_, _, rfl, rfl, hpx, hpy, rfl⟩

theorem main_init_tiny (w : World) (pipes : Nat → Pipe)
    (hw : w.term_width = 2) (hh : w.term_height = 2) (hc : w.pipe_count = 1) :
    ∃ (w0 : World) (pipes0 : Nat → Pipe), main_init w pipes = some (w0, pipes0) ∧
      tiny_inv w0 pipes0 := by
  obtain ⟨c1, c2, _, _, _, c6, _⟩ := reset_screen_same_config w
  obtain ⟨w0, p0, hi, hs, hx, hy, hf⟩ := init_pipe_tiny (reset_screen w)
    (by rw [c1, hw]) (by rw [c2, hh])
  obtain ⟨d1, d2, _, _, _, d6, _⟩ := init_pipe_same_config _ _ _ hi
  have hn : w.pipe_count.toNat = 1 := by rw [hc]; rfl
  refine ⟨w0, Function.update pipes 0 p0, ?_, ?_⟩
  · simp only [main_init, hn, init_pipes, hi]
  · refine ⟨by rw [d1, c1, hw], by rw [d2, c2, hh], by rw [d6, c6, hc], ?_, ?_, ?_, ?_⟩
    · intro y x hx0 hx1 hy0 hy1
      rw [hs]
      exact (reset_screen_cell w y x ⟨hy0, by simp only [MAX_HEIGHT]; omega⟩
        ⟨hx0, by simp only [MAX_WIDTH]; omega⟩).1
    · simpa using hx
    · simpa using hy
    · simpa using hf

/-- In the 2 x 2 viewport the stepping of the pipe leaves the viewport empty,
`screen_filled` returns 0 and the loop does not take its reset branch. -/
theorem loop_step_tiny (w : World) (pipes : Nat → Pipe) (h : tiny_inv w pipes) :
    ∃ (w1 : World) (pipes1 : Nat → Pipe),
      update_pipes w pipes 0 w.pipe_count.toNat = some (w1, pipes1) ∧
      tiny_inv w1 pipes1 ∧ screen_filled w1 = 0 ∧ loop_step w pipes = some (w1, pipes1) := by
  obtain ⟨hw, hh, hc, he, hx, hy, hf⟩ := h
  obtain ⟨w1, p1, hu, hs, hx1, hy1, hf1⟩ := update_pipe_tiny w (pipes 0) hw hh hx hy hf
  obtain ⟨c1, c2, _, _, _, c6, _⟩ := update_pipe_same_config _ _ _ _ hu
  have hn : w.pipe_count.toNat = 1 := by rw [hc]; rfl
  have hup : update_pipes w pipes 0 w.pipe_count.toNat
      = some (w1, Function.update pipes 0 p1) := by
    simp only [hn, update_pipes, hu]
  have hinv : tiny_inv w1 (Function.update pipes 0 p1) := by
    refine ⟨by rw [c1, hw], by rw [c2, hh], by rw [c6, hc], ?_, ?_, ?_, ?_⟩
    · intro y x a b c d; rw [hs]; exact he y x a b c d
    · simpa using hx1
    · simpa using hy1
    · simpa using hf1
  have hz : screen_filled w1 = 0 := by
    rw [screen_filled_eq_zero_iff]
    intro hall
    exact hall 0 0 (le_refl _) (by rw [c1, hw]; decide) (le_refl _) (by rw [c2, hh]; decide)
      (hinv.2.2.2.1 0 0 (le_refl _) (by decide) (le_refl _) (by decide))
  refine ⟨w1, Function.update pipes 0 p1, hup, hinv, hz, ?_⟩
  simp only [loop_step, hup, hz]
  rfl

theorem loop_iteration_tiny (w : World) (pipes : Nat → Pipe) (h : tiny_inv w pipes) :
    ∃ (w1 : World) (pipes1 : Nat → Pipe),
      loop_iteration w pipes = some (w1, pipes1) ∧ tiny_inv w1 pipes1 := by
  obtain ⟨w1, pipes1, _, hinv, _, hl⟩ := loop_step_tiny w pipes h
  obtain ⟨out, hd⟩ := draw_screen_empty w1 (by
    intro y x a b c d
    rw [hinv.1] at b; rw [hinv.2.1] at d
    exact hinv.2.2.2.1 y x a b c d)
  exact ⟨w1, pipes1, by simp only [loop_iteration, hl, hd], hinv⟩

theorem loop_iterations_tiny (n : Nat) :
    ∀ (w : World) (pipes : Nat → Pipe), tiny_inv w pipes →
      ∃ (wn : World) (pipesn : Nat → Pipe),
        loop_iterations n w pipes = some (wn, pipesn) ∧ tiny_inv wn pipesn := by
  induction n with
  | zero => intro w pipes h; exact ⟨w, pipes, rfl, h⟩
  | succ n ih =>
    intro w pipes h
    obtain ⟨w1, pipes1, h1, hinv1⟩ := loop_iteration_tiny w pipes h
    obtain ⟨wn, pipesn, h2, hinv2⟩ := ih w1 pipes1 hinv1
    exact ⟨wn, pipesn, by simp only [loop_iterations, h1, h2], hinv2⟩

/-- In a 2 x 2 viewport with one pipe, after any number of iterations of the
main loop the next stepping of the pipe leaves all four cells empty and
`screen_filled` returns 0. -/
theorem tiny_loop_never_fills (w : World) (pipes : Nat → Pipe)
    (hw : w.term_width = 2) (hh : w.term_height = 2) (hc : w.pipe_count = 1) (n : Nat) :
    ∃ (w0 : World) (pipes0 : Nat → Pipe) (wn : World) (pipesn : Nat → Pipe)
      (w' : World) (pipes' : Nat → Pipe),
      main_init w pipes = some (w0, pipes0) ∧
      loop_iterations n w0 pipes0 = some (wn, pipesn) ∧
      update_pipes wn pipesn 0 wn.pipe_count.toNat = some (w', pipes') ∧
      (∀ y x : Int, 0 ≤ x → x < 2 → 0 ≤ y → y < 2 → w'.screen y x = none) ∧
      screen_filled w' = 0 ∧
      loop_step wn pipesn = some (w', pipes') := by
  obtain ⟨w0, pipes0, h0, hinv0⟩ := main_init_tiny w pipes hw hh hc
  obtain ⟨wn, pipesn, h1, hinv1⟩ := loop_iterations_tiny n w0 pipes0 hinv0
  obtain ⟨w', pipes', h2, hinv2, hz, hl⟩ := loop_step_tiny wn pipesn hinv1
  exact ⟨w0, pipes0, wn, pipesn, w', pipes', h0, h1, h2, hinv2.2.2.2.1, hz, hl⟩

/-- C9, as stated, fails: in the 2 x 2 viewport with one pipe and a source of
`rand()` whose every result is a "go straight" roll, there is no number of
iterations of the main loop after which `screen_filled` returns 1. -/
theorem tiny_viewport_fill_unreachable :
    (∀ n : Nat, world_2x2.rand_seq n % 6 = 2) ∧
    ¬ ∃ (n : Nat) (w0 : World) (pipes0 : Nat → Pipe) (wn : World) (pipesn : Nat → Pipe)
        (w' : World) (pipes' : Nat → Pipe),
        main_init world_2x2 pipes_east = some (w0, pipes0) ∧
        loop_iterations n w0 pipes0 = some (wn, pipesn) ∧
        update_pipes wn pipesn 0 wn.pipe_count.toNat = some (w', pipes') ∧
        screen_filled w' = 1 := by
  refine ⟨fun _ => rfl, ?_⟩
  rintro ⟨n, w0, pipes0, wn, pipesn, w', pipes', h0, h1, h2, h3⟩
  obtain ⟨v0, q0, vn, qn, v', q', g0, g1, g2, _, gz, _⟩ :=
    tiny_loop_never_fills world_2x2 pipes_east rfl rfl rfl n
  rw [g0] at h0
  simp only [Option.some.injEq, Prod.mk.injEq] at h0
  obtain ⟨rfl, rfl⟩ := h0
  rw [g1] at h1
  simp only [Option.some.injEq, Prod.mk.injEq] at h1
  obtain ⟨rfl, rfl⟩ := h1
  rw [g2] at h2
  simp only [Option.some.injEq, Prod.mk.injEq] at h2
  obtain ⟨rfl, rfl⟩ := h2
  rw [gz] at h3
  exact absurd h3 (by decide)

/-- C9, amended: in a 2 x 2 viewport with one pipe initialised as in `main`,
whatever `rand()` returns, every iteration of the main loop returns, and
after any number of them the stepping of the pipe leaves all four cells of
the viewport empty, `screen_filled` returns 0 and the loop does not clear the
buffer or reinitialise the pipe. -/
theorem tiny_viewport_never_filled (w : World) (pipes : Nat → Pipe)
    (hw : w.term_width = 2) (hh : w.term_height = 2) (hc : w.pipe_count = 1) (n : Nat) :
    ∃ (w0 : World) (pipes0 : Nat → Pipe) (wn : World) (pipesn : Nat → Pipe)
      (w' : World) (pipes' : Nat → Pipe),
      main_init w pipes = some (w0, pipes0) ∧
      loop_iterations n w0 pipes0 = some (wn, pipesn) ∧
      update_pipes wn pipesn 0 wn.pipe_count.toNat = some (w', pipes') ∧
      (∀ y x : Int, 0 ≤ x → x < 2 → 0 ≤ y → y < 2 → w'.screen y x = none) ∧
      screen_filled w' = 0 ∧
      loop_step wn pipesn = some (w', pipes') :=
  tiny_loop_never_fills w pipes hw hh hc n

/-- Witness of `tiny_viewport_never_filled`: the state `world_2x2` after
five iterations of the main loop. -/
theorem tiny_viewport_never_filled_witness :
    ∃ (w0 : World) (pipes0 : Nat → Pipe) (wn : World) (pipesn : Nat → Pipe)
      (w' : World) (pipes' : Nat → Pipe),
      main_init world_2x2 pipes_east = some (w0, pipes0) ∧
      loop_iterations 5 w0 pipes0 = some (wn, pipesn) ∧
      update_pipes wn pipesn 0 wn.pipe_count.toNat = some (w', pipes') ∧
      (∀ y x : Int, 0 ≤ x → x < 2 → 0 ≤ y → y < 2 → w'.screen y x = none) ∧
      screen_filled w' = 0 ∧
      loop_step wn pipesn = some (w', pipes') :=
  tiny_viewport_never_filled world_2x2 pipes_east rfl rfl rfl 5

/-! ## Reset on fill -/

theorem init_pipe_fresh (w w0 : World) (p0 : Pipe) (h : init_pipe w = some (w0, p0)) :
    fresh_pipe w p0 := by
  obtain ⟨_, h1, h2, h3, h4, h5, h6, _⟩ := init_pipe_spec w w0 p0 h
  refine ⟨h1, h2, h3, h4, h5, ?_⟩
  intro hr
  have := h6 hr
  have hc : color_count = 8 := by decide
  rw [hc] at this
  omega

theorem fresh_pipe_congr (w w' : World) (p : Pipe) (hc : same_config w w')
    (h : fresh_pipe w' p) : fresh_pipe w p := by
  obtain ⟨_, _, c3, _, c5, _, _⟩ := hc
  obtain ⟨h1, h2, h3, h4, h5, h6⟩ := h
  rw [c3, c5] at h5
  rw [c3] at h6
  exact ⟨h1, h2, h3, h4, h5, h6⟩

/-- The loop `init_pipes` leaves the buffer alone, makes each pipe of its
range fresh and leaves the other elements of the array alone. -/
theorem init_pipes_spec (n : Nat) :
    ∀ (w : World) (pipes : Nat → Pipe) (i : Nat) (w' : World) (pipes' : Nat → Pipe),
      init_pipes w pipes i n = some (w', pipes') →
      same_config w w' ∧ w'.screen = w.screen ∧ w'.color_map = w.color_map ∧
      (∀ j : Nat, i ≤ j → j < i + n → fresh_pipe w (pipes' j)) ∧
      (∀ j : Nat, j < i ∨ i + n ≤ j → pipes' j = pipes j) := by
  induction n with
  | zero =>
    intro w pipes i w' pipes' h
    simp only [init_pipes, Option.some.injEq, Prod.mk.injEq] at h
    obtain ⟨rfl, rfl⟩ := h
    exact ⟨same_config_refl w, rfl, rfl, fun j h1 h2 => absurd h2 (by omega), fun _ _ => rfl⟩
  | succ n ih =>
    intro w pipes i w' pipes' h
    simp only [init_pipes] at h
    split at h
    · exact absurd h (by simp)
    · rename_i w1 p1 hi
      obtain ⟨hc, hs, hm, hf, ho⟩ := ih _ _ _ _ _ h
      have hc1 := init_pipe_same_config _ _ _ hi
      obtain ⟨_, _, _, _, _, _, _, hs1, hm1, _⟩ := init_pipe_spec _ _ _ hi
      refine ⟨same_config_trans hc1 hc, by rw [hs, hs1], by rw [hm, hm1], ?_, ?_⟩
      · intro j h1 h2
        by_cases hj : j = i
        · subst hj
          rw [ho j (Or.inl (by omega))]
          simp only [Function.update_same]
          exact init_pipe_fresh _ _ _ hi
        · exact fresh_pipe_congr _ _ _ hc1 (hf j (by omega) (by omega))
      · intro j hj
        rw [ho j (by omega)]
        exact Function.update_noteq (by omega) _ _

theorem init_pipes_isSome (n : Nat) :
    ∀ (w : World) (pipes : Nat → Pipe) (i : Nat),
      w.term_width ≠ 4 → w.term_height ≠ 4 → (init_pipes w pipes i n).isSome = true := by
  induction n with
  | zero => intro w pipes i _ _; rfl
  | succ n ih =>
    intro w pipes i hw hh
    simp only [init_pipes]
    have hs := init_pipe_isSome w hw hh
    cases hu : init_pipe w with
    | none => rw [hu] at hs; exact absurd hs (by decide)
    | some r =>
      obtain ⟨w1, p1⟩ := r
      obtain ⟨c1, c2, _⟩ := init_pipe_same_config _ _ _ hu
      exact ih _ _ _ (by rw [c1]; exact hw) (by rw [c2]; exact hh)

/-- C10: in one iteration of the main loop, after the pipes were stepped,
when `screen_filled` returns 1 the state before the frame is drawn has every
cell of the full extent of the arrays empty with colour -1 and every pipe
below `pipe_count` fresh; when it returns 0 the state is the one the
stepping produced.  The reinitialisation returns whenever
`get_random_start` cannot divide by zero. -/
theorem loop_step_reset_on_fill (w : World) (pipes : Nat → Pipe)
    (w1 : World) (pipes1 : Nat → Pipe)
    (hstep : update_pipes w pipes 0 w.pipe_count.toNat = some (w1, pipes1)) :
    (screen_filled w1 = 1 →
      (w.term_width ≠ 4 → w.term_height ≠ 4 → (loop_step w pipes).isSome = true) ∧
      ∀ (w2 : World) (pipes2 : Nat → Pipe), loop_step w pipes = some (w2, pipes2) →
        (∀ y x : Int, 0 ≤ y → y < MAX_HEIGHT → 0 ≤ x → x < MAX_WIDTH →
          w2.screen y x = none ∧ w2.color_map y x = -1) ∧
        (∀ i : Nat, (i : Int) < w.pipe_count →
          (pipes2 i).from_ = (pipes2 i).pos ∧ (pipes2 i).prev_dir = (pipes2 i).dir ∧
          (pipes2 i).steps_since_turn = 0 ∧ (pipes2 i).first_move = 1 ∧
          (w.rainbow_mode = 0 → (pipes2 i).color_id = w.base_color_index) ∧
          (w.rainbow_mode ≠ 0 → 0 ≤ (pipes2 i).color_id ∧ (pipes2 i).color_id ≤ 7))) ∧
    (screen_filled w1 = 0 → loop_step w pipes = some (w1, pipes1)) := by
  have hc := update_pipes_same_config _ _ _ _ _ _ hstep
  constructor
  · intro hfull
    have hls : loop_step w pipes =
        init_pipes (reset_screen w1) pipes1 0 w1.pipe_count.toNat := by
      simp only [loop_step, hstep, hfull]
      rfl
    have hcr := same_config_trans hc (reset_screen_same_config w1)
    constructor
    · intro hw hh
      rw [hls]
      exact init_pipes_isSome _ _ _ _ (by rw [hcr.1]; exact hw) (by rw [hcr.2.1]; exact hh)
    · intro w2 pipes2 h2
      rw [hls] at h2
      obtain ⟨_, hs, hm, hf, _⟩ := init_pipes_spec _ _ _ _ _ _ h2
      constructor
      · intro y x hy0 hy1 hx0 hx1
        rw [hs, hm]
        exact reset_screen_cell w1 y x ⟨hy0, hy1⟩ ⟨hx0, hx1⟩
      · intro i hi
        have hfi := hf i (Nat.zero_le i) (by
          have := hc.2.2.2.2.2.1
          omega)
        exact fresh_pipe_congr _ _ _ hcr hfi
  · intro hz
    simp only [loop_step, hstep, hz]
    rfl

/-- Witness of `loop_step_reset_on_fill`: a 2 x 2 viewport whose four cells
are occupied. -/
theorem loop_step_reset_on_fill_witness :
    screen_filled after_step_full.1 = 1 ∧
    (loop_step world_full pipes_east).isSome = true ∧
    ∀ (w2 : World) (pipes2 : Nat → Pipe), loop_step world_full pipes_east = some (w2, pipes2) →
      (∀ y x : Int, 0 ≤ y → y < MAX_HEIGHT → 0 ≤ x → x < MAX_WIDTH →
        w2.screen y x = none ∧ w2.color_map y x = -1) ∧
      (∀ i : Nat, (i : Int) < world_full.pipe_count →
        (pipes2 i).from_ = (pipes2 i).pos ∧ (pipes2 i).prev_dir = (pipes2 i).dir ∧
        (pipes2 i).steps_since_turn = 0 ∧ (pipes2 i).first_move = 1 ∧
        (world_full.rainbow_mode = 0 → (pipes2 i).color_id = world_full.base_color_index) ∧
        (world_full.rainbow_mode ≠ 0 → 0 ≤ (pipes2 i).color_id ∧ (pipes2 i).color_id ≤ 7)) :=
  ⟨by decide,
   ((loop_step_reset_on_fill world_full pipes_east after_step_full.1 after_step_full.2 rfl).1
      (by decide)).1 (by decide) (by decide),
   ((loop_step_reset_on_fill world_full pipes_east after_step_full.1 after_step_full.2 rfl).1
      (by decide)).2⟩


/-! ## Writes stay inside the viewport -/

theorem commit_trailing_outside (w : World) (p : Pipe) (y x : Int)
    (h : ¬ in_viewport w y x) :
    (commit_trailing w p).screen y x = w.screen y x ∧
    (commit_trailing w p).color_map y x = w.color_map y x := by
  unfold commit_trailing
  split
  · rename_i hc
    have hne : ¬ (y = p.from_.y ∧ x = p.from_.x) := by
      rintro ⟨rfl, rfl⟩
      exact h ⟨hc.2.2.1, hc.2.2.2.1, hc.2.2.2.2.1, hc.2.2.2.2.2.1⟩
    rw [put_cell_screen, put_cell_color_map, set2_other _ _ _ _ _ _ hne,
      set2_other _ _ _ _ _ _ hne]
    exact ⟨rfl, rfl⟩
  · exact ⟨rfl, rfl⟩

theorem commit_leading_outside (w : World) (p : Pipe) (y x : Int)
    (h : ¬ in_viewport w y x) :
    (commit_leading w p).screen y x = w.screen y x ∧
    (commit_leading w p).color_map y x = w.color_map y x := by
  unfold commit_leading
  split
  · rename_i hc
    have hne : ¬ (y = p.pos.y ∧ x = p.pos.x) := by
      rintro ⟨rfl, rfl⟩
      exact h ⟨hc.1, hc.2.1, hc.2.2.1, hc.2.2.2.1⟩
    rw [put_cell_screen, put_cell_color_map, set2_other _ _ _ _ _ _ hne,
      set2_other _ _ _ _ _ _ hne]
    exact ⟨rfl, rfl⟩
  · exact ⟨rfl, rfl⟩

/-- The buffer after a call of `update_pipe` is the buffer after its two
commits. -/
theorem update_pipe_buffer (w : World) (p : Pipe) (w' : World) (p' : Pipe)
    (h : update_pipe w p = some (w', p')) :
    w'.screen = (commit_leading (commit_trailing w p) (advance p)).screen ∧
    w'.color_map = (commit_leading (commit_trailing w p) (advance p)).color_map := by
  unfold update_pipe at h
  obtain ⟨hs, hc⟩ := respawn_check_buffer _ _ _ _ h
  rw [hs, hc, turn_decision_screen, turn_decision_color_map]
  exact ⟨rfl, rfl⟩

theorem commit_trailing_accesses_inside (w : World) (p : Pipe) (a : Int × Int)
    (h : a ∈ commit_trailing_accesses w p) : in_viewport w a.1 a.2 := by
  unfold commit_trailing_accesses at h
  split at h
  · rename_i hc
    have hin : in_viewport w p.from_.y p.from_.x :=
      ⟨hc.2.2.1, hc.2.2.2.1, hc.2.2.2.2.1, hc.2.2.2.2.2⟩
    split at h
    · simp only [List.mem_cons, List.mem_singleton, List.mem_nil_iff, or_false, or_self] at h
      rw [h]; exact hin
    · simp only [List.mem_singleton] at h
      rw [h]; exact hin
  · simp at h

theorem commit_leading_accesses_inside (w : World) (p : Pipe) (a : Int × Int)
    (h : a ∈ commit_leading_accesses w p) : in_viewport w a.1 a.2 := by
  unfold commit_leading_accesses at h
  split at h
  · rename_i hc
    have hin : in_viewport w p.pos.y p.pos.x := ⟨hc.1, hc.2.1, hc.2.2.1, hc.2.2.2⟩
    split at h
    · simp only [List.mem_cons, List.mem_singleton, List.mem_nil_iff, or_false, or_self] at h
      rw [h]; exact hin
    · simp only [List.mem_singleton] at h
      rw [h]; exact hin
  · simp at h

/-! ## The stepper with its list of accesses -/

theorem commit_trailing_traced_eq (w : World) (p : Pipe) :
    commit_trailing_traced w p = (commit_trailing w p, commit_trailing_accesses w p) := by
  unfold commit_trailing_traced commit_trailing commit_trailing_accesses put_cell_traced
  by_cases h1 : p.first_move = 0 ∧ p.prev_dir ≠ p.dir ∧
      0 ≤ p.from_.x ∧ p.from_.x < w.term_width ∧
      0 ≤ p.from_.y ∧ p.from_.y < w.term_height
  · by_cases h2 : w.screen p.from_.y p.from_.x = none
    · rw [if_pos h1, if_pos h2, if_pos h1, if_pos h2,
        if_pos ⟨h1.1, h1.2.1, h1.2.2.1, h1.2.2.2.1, h1.2.2.2.2.1, h1.2.2.2.2.2, h2⟩]
    · rw [if_pos h1, if_neg h2, if_pos h1, if_neg h2, if_neg]
      rintro ⟨_, _, _, _, _, _, h3⟩
      exact h2 h3
  · rw [if_neg h1, if_neg h1, if_neg]
    rintro ⟨a, b, c, d, e, f, _⟩
    exact h1 ⟨a, b, c, d, e, f⟩

theorem commit_leading_traced_eq (w : World) (p : Pipe) :
    commit_leading_traced w p = (commit_leading w p, commit_leading_accesses w p) := by
  unfold commit_leading_traced commit_leading commit_leading_accesses put_cell_traced
  by_cases h1 : 0 ≤ p.pos.x ∧ p.pos.x < w.term_width ∧
      0 ≤ p.pos.y ∧ p.pos.y < w.term_height
  · by_cases h2 : w.screen p.pos.y p.pos.x = none
    · rw [if_pos h1, if_pos h2, if_pos h1, if_pos h2,
        if_pos ⟨h1.1, h1.2.1, h1.2.2.1, h1.2.2.2, h2⟩]
    · rw [if_pos h1, if_neg h2, if_pos h1, if_neg h2, if_neg]
      rintro ⟨_, _, _, _, h3⟩
      exact h2 h3
  · rw [if_neg h1, if_neg h1, if_neg]
    rintro ⟨a, b, c, d, _⟩
    exact h1 ⟨a, b, c, d⟩

/-- The traced stepper returns the result of `update_pipe`, and its list is
the list of the accesses of the two commits. -/
theorem update_pipe_traced_eq (w : World) (p : Pipe) :
    update_pipe_traced w p = (update_pipe w p, update_pipe_accesses w p) := by
  simp only [update_pipe_traced, update_pipe, update_pipe_accesses,
    commit_trailing_traced_eq, commit_leading_traced_eq]

/-- C11: in a viewport not larger than the arrays, a call of `update_pipe`,
whatever the position and the previous position of the pipe, changes no
cell outside the active viewport, and every access to `screen` and
`color_map` that the call makes is at an index inside the viewport, hence
inside the arrays.  The call returns whenever the respawn cannot divide by
zero. -/
theorem update_pipe_viewport_only (w : World) (p : Pipe)
    (hW : w.term_width ≤ MAX_WIDTH) (hH : w.term_height ≤ MAX_HEIGHT) :
    (update_pipe_traced w p).1 = update_pipe w p ∧
    (w.term_width ≠ 4 → w.term_height ≠ 4 → (update_pipe w p).isSome = true) ∧
    (∀ (w' : World) (p' : Pipe), update_pipe w p = some (w', p') →
      ∀ y x : Int, ¬ (0 ≤ x ∧ x < w.term_width ∧ 0 ≤ y ∧ y < w.term_height) →
        w'.screen y x = w.screen y x ∧ w'.color_map y x = w.color_map y x) ∧
    (∀ a : Int × Int, a ∈ (update_pipe_traced w p).2 →
      (0 ≤ a.2 ∧ a.2 < w.term_width ∧ 0 ≤ a.1 ∧ a.1 < w.term_height) ∧
      (0 ≤ a.1 ∧ a.1 < MAX_HEIGHT ∧ 0 ≤ a.2 ∧ a.2 < MAX_WIDTH)) := by
  refine ⟨by rw [update_pipe_traced_eq], update_pipe_isSome w p, ?_, ?_⟩
  · intro w' p' h y x hout
    obtain ⟨hs, hc⟩ := update_pipe_buffer w p w' p' h
    have h1 := commit_trailing_outside w p y x hout
    have h2 := commit_leading_outside (commit_trailing w p) (advance p) y x
      (by simpa [in_viewport] using hout)
    rw [hs, hc, h2.1, h2.2, h1.1, h1.2]
    exact ⟨rfl, rfl⟩
  · intro a ha
    rw [update_pipe_traced_eq] at ha
    have hv : 0 ≤ a.2 ∧ a.2 < w.term_width ∧ 0 ≤ a.1 ∧ a.1 < w.term_height := by
      simp only [update_pipe_accesses] at ha
      rcases List.mem_append.mp ha with h | h
      · exact commit_trailing_accesses_inside w p a h
      · have := commit_leading_accesses_inside _ _ a h
        simpa [in_viewport] using this
    exact ⟨hv, hv.2.2.1, by omega, hv.1, by omega⟩

/-- Witness of `update_pipe_viewport_only` in the 10 x 5 viewport: a pipe
whose position and previous position are outside the viewport makes no
access and leaves the cell at column 11 of row 2 empty; the pipe at column 4
of row 2 reads and writes the cell at column 5. -/
theorem update_pipe_viewport_only_witness :
    (update_pipe_traced world_10x5 pipe_outside).2 = [] ∧
    (update_pipe_traced world_10x5 pipe_east).2 = [(2, 5), (2, 5), (2, 5)] ∧
    (update_pipe world_10x5 pipe_outside).isSome = true ∧
    ∀ (w' : World) (p' : Pipe), update_pipe world_10x5 pipe_outside = some (w', p') →
      w'.screen 2 11 = none ∧ w'.color_map 2 11 = -1 := by
  refine ⟨by decide, by decide,
    (update_pipe_viewport_only world_10x5 pipe_outside (by decide) (by decide)).2.1
      (by decide) (by decide), ?_⟩
  intro w' p' h
  exact (update_pipe_viewport_only world_10x5 pipe_outside (by decide) (by decide)).2.2.1
    w' p' h 2 11 (by decide)

/-! ## One call of `update_pipe`, step by step -/

@[simp] theorem turn_decision_from (w : World) (p : Pipe) :
    (turn_decision w p).2.from_ = p.from_ := by
  simp only [turn_decision]; split_ifs <;> rfl

@[simp] theorem turn_decision_prev_dir (w : World) (p : Pipe) :
    (turn_decision w p).2.prev_dir = p.prev_dir := by
  simp only [turn_decision]; split_ifs <;> rfl

@[simp] theorem turn_decision_first_move (w : World) (p : Pipe) :
    (turn_decision w p).2.first_move = p.first_move := by
  simp only [turn_decision]; split_ifs <;> rfl

@[simp] theorem turn_decision_color_id (w : World) (p : Pipe) :
    (turn_decision w p).2.color_id = p.color_id := by
  simp only [turn_decision]; split_ifs <;> rfl

theorem respawns_iff (w : World) (p : Pipe) :
    respawns w p ↔ at_border w (advance p).pos :=
  update_pipe_border w p

/-- The result of a call of `update_pipe` that does not take the respawn
branch. -/
theorem update_pipe_of_not_respawns (w : World) (p : Pipe) (w' : World) (p' : Pipe)
    (h : update_pipe w p = some (w', p')) (hn : ¬ respawns w p) :
    (w', p') = turn_decision (commit_leading (commit_trailing w p) (advance p))
      (update_anchor (advance p)) := by
  rw [update_pipe_of_not_border w p (fun hb => hn ((respawns_iff w p).mpr hb))] at h
  exact (Option.some.inj h).symm

/-- The result of a call of `update_pipe` that takes the respawn branch. -/
theorem update_pipe_of_respawns (w : World) (p : Pipe) (w' : World) (p' : Pipe)
    (h : update_pipe w p = some (w', p')) (hr : respawns w p) :
    ∃ (pt : Point) (d : Int),
      get_random_start
        (turn_decision (commit_leading (commit_trailing w p) (advance p))
          (update_anchor (advance p))).1 = some (pt, d, w') ∧
      p' = { pos := pt, from_ := pt, dir := d, prev_dir := d, steps_since_turn := 0,
             first_move := 1, color_id := p.color_id } := by
  unfold update_pipe at h
  simp only [] at h
  unfold respawn_check at h
  unfold respawns at hr
  rw [if_pos hr] at h
  split at h
  · exact absurd h (by simp)
  · rename_i pt d w1 hg
    simp only [Option.some.injEq, Prod.mk.injEq] at h
    obtain ⟨rfl, rfl⟩ := h
    refine ⟨pt, d, hg, ?_⟩
    simp [update_anchor]

theorem advance_pos_cases (p : Pipe) :
    (p.dir = 0 → (advance p).pos = { x := p.pos.x + 1, y := p.pos.y }) ∧
    (p.dir = 1 → (advance p).pos = { x := p.pos.x, y := p.pos.y + 1 }) ∧
    (p.dir = 2 → (advance p).pos = { x := p.pos.x - 1, y := p.pos.y }) ∧
    (p.dir = 3 → (advance p).pos = { x := p.pos.x, y := p.pos.y - 1 }) := by
  refine ⟨?_, ?_, ?_, ?_⟩ <;> intro h <;> simp [advance, h]

/-- C16: after a call of `update_pipe` on a pipe with direction 0..3 that
does not respawn, the position is the old one moved one cell in the
direction the pipe had at the start of the call, the previous position is
the new position, the previous direction is that direction, the first-move
flag is 0 and the colour of the pipe is unchanged. -/
theorem update_pipe_advance_anchor (w : World) (p : Pipe) (w' : World) (p' : Pipe)
    (h : update_pipe w p = some (w', p')) (hd : 0 ≤ p.dir ∧ p.dir ≤ 3)
    (hn : ¬ respawns w p) :
    (p.dir = 0 → p'.pos = { x := p.pos.x + 1, y := p.pos.y }) ∧
    (p.dir = 1 → p'.pos = { x := p.pos.x, y := p.pos.y + 1 }) ∧
    (p.dir = 2 → p'.pos = { x := p.pos.x - 1, y := p.pos.y }) ∧
    (p.dir = 3 → p'.pos = { x := p.pos.x, y := p.pos.y - 1 }) ∧
    p'.from_ = p'.pos ∧ p'.prev_dir = p.dir ∧ p'.first_move = 0 ∧
    p'.color_id = p.color_id := by
  have _ := hd
  have e := update_pipe_of_not_respawns w p w' p' h hn
  have e2 : p' = (turn_decision (commit_leading (commit_trailing w p) (advance p))
      (update_anchor (advance p))).2 := congrArg Prod.snd e
  have hpos : p'.pos = (advance p).pos := by rw [e2]; simp [update_anchor]
  obtain ⟨a0, a1, a2, a3⟩ := advance_pos_cases p
  refine ⟨fun h0 => by rw [hpos, a0 h0], fun h0 => by rw [hpos, a1 h0],
    fun h0 => by rw [hpos, a2 h0], fun h0 => by rw [hpos, a3 h0], ?_, ?_, ?_, ?_⟩
  · rw [e2]; simp [update_anchor]
  · rw [e2]; simp [update_anchor]
  · rw [e2]; simp [update_anchor]
  · rw [e2]; simp [update_anchor]

/-- Witness of `update_pipe_advance_anchor`: the pipe at column 4 of row 2
of the 10 x 5 viewport moves East to column 5. -/
theorem update_pipe_advance_anchor_witness :
    after_east.2.pos = { x := pipe_east.pos.x + 1, y := pipe_east.pos.y } ∧
    after_east.2.from_ = after_east.2.pos ∧ after_east.2.prev_dir = pipe_east.dir ∧
    after_east.2.first_move = 0 ∧ after_east.2.color_id = pipe_east.color_id :=
  ⟨(update_pipe_advance_anchor world_10x5 pipe_east after_east.1 after_east.2 rfl
      (by decide) (by decide)).1 rfl,
   (update_pipe_advance_anchor world_10x5 pipe_east after_east.1 after_east.2 rfl
      (by decide) (by decide)).2.2.2.2⟩

/-- C17: after a call of `update_pipe` on a pipe with direction 0..3 that
does not respawn: below `TURN_DELAY` the direction stays, the timer grows by
one and `rand()` is not called for a roll; from `TURN_DELAY` on one roll
`rand() % 6` is made, 0 turns right and resets the timer, 1 turns left and
resets the timer, 2..5 keep the direction and add one to the timer. -/
theorem update_pipe_turn_decision (w : World) (p : Pipe) (w' : World) (p' : Pipe)
    (h : update_pipe w p = some (w', p')) (hd : 0 ≤ p.dir ∧ p.dir ≤ 3)
    (hn : ¬ respawns w p) :
    (p.steps_since_turn < TURN_DELAY →
      p'.dir = p.dir ∧ p'.steps_since_turn = p.steps_since_turn + 1 ∧
      w'.rand_pos = (commit_leading (commit_trailing w p) (advance p)).rand_pos) ∧
    (TURN_DELAY ≤ p.steps_since_turn →
      w'.rand_pos = (commit_leading (commit_trailing w p) (advance p)).rand_pos + 1 ∧
      (Int.tmod (rand_val (commit_leading (commit_trailing w p) (advance p))) 6 = 0 →
        p'.dir = (p.dir + 1) % 4 ∧ p'.steps_since_turn = 0) ∧
      (Int.tmod (rand_val (commit_leading (commit_trailing w p) (advance p))) 6 = 1 →
        p'.dir = (p.dir + 3) % 4 ∧ p'.steps_since_turn = 0) ∧
      (2 ≤ Int.tmod (rand_val (commit_leading (commit_trailing w p) (advance p))) 6 →
        Int.tmod (rand_val (commit_leading (commit_trailing w p) (advance p))) 6 ≤ 5 ∧
        p'.dir = p.dir ∧ p'.steps_since_turn = p.steps_since_turn + 1)) := by
  have e := update_pipe_of_not_respawns w p w' p' h hn
  have e1 : w' = (turn_decision (commit_leading (commit_trailing w p) (advance p))
      (update_anchor (advance p))).1 := congrArg Prod.fst e
  have e2 : p' = (turn_decision (commit_leading (commit_trailing w p) (advance p))
      (update_anchor (advance p))).2 := congrArg Prod.snd e
  have hs : (update_anchor (advance p)).steps_since_turn = p.steps_since_turn := by
    simp [update_anchor]
  have hdd : (update_anchor (advance p)).dir = p.dir := by simp [update_anchor]
  have hr := tmod_nat_bounds
    ((commit_leading (commit_trailing w p) (advance p)).rand_seq
      (commit_leading (commit_trailing w p) (advance p)).rand_pos) 6 (by decide)
  have hm1 : Int.tmod (p.dir + 1) 4 = (p.dir + 1) % 4 :=
    Int.tmod_eq_emod (by omega) (by decide)
  have hm3 : Int.tmod (p.dir + 3) 4 = (p.dir + 3) % 4 :=
    Int.tmod_eq_emod (by omega) (by decide)
  constructor
  · intro hlt
    have ht := turn_decision_early (commit_leading (commit_trailing w p) (advance p))
      (update_anchor (advance p)) (by rw [hs]; exact hlt)
    rw [ht] at e1 e2
    rw [e1, e2]
    exact ⟨hdd, by simp [update_anchor], rfl⟩
  · intro hge
    have hge' : TURN_DELAY ≤ (update_anchor (advance p)).steps_since_turn := by
      rw [hs]; exact hge
    refine ⟨?_, ?_, ?_, ?_⟩
    · rw [e1]
      simp only [turn_decision, if_pos hge']
      split_ifs <;> rfl
    · intro h0
      rw [e2, ← hm1]
      simp [turn_decision, hs, hge, h0, hdd]
    · intro h1
      have h0 : ¬ Int.tmod (rand_val (commit_leading (commit_trailing w p) (advance p))) 6
          = 0 := by rw [h1]; decide
      rw [e2, ← hm3]
      simp [turn_decision, hs, hge, h0, h1, hdd]
    · intro h2
      have h0 : ¬ Int.tmod (rand_val (commit_leading (commit_trailing w p) (advance p))) 6
          = 0 := by omega
      have h1 : ¬ Int.tmod (rand_val (commit_leading (commit_trailing w p) (advance p))) 6
          = 1 := by omega
      refine ⟨by simp only [rand_val]; omega, ?_⟩
      rw [e2]
      simp [turn_decision, hs, hge, h0, h1, hdd]

/-- Witness of `update_pipe_turn_decision`: in the 10 x 5 viewport a pipe
whose timer is 3 rolls 0 and turns from East to South. -/
theorem update_pipe_turn_decision_witness :
    TURN_DELAY ≤ pipe_ready.steps_since_turn ∧
    Int.tmod (rand_val (commit_leading (commit_trailing world_turn pipe_ready)
      (advance pipe_ready))) 6 = 0 ∧
    after_ready.2.dir = (pipe_ready.dir + 1) % 4 ∧ after_ready.2.steps_since_turn = 0 :=
  ⟨by decide, by decide,
   ((update_pipe_turn_decision world_turn pipe_ready after_ready.1 after_ready.2 rfl
      (by decide) (by decide)).2 (by decide)).2.1 (by decide)⟩

/-- C18: a call of `update_pipe` takes the respawn branch exactly when the
advanced position is within the border margin of an edge; the pipe it then
leaves has the position and the direction `get_random_start` returned, is
anchored there with timer 0 and first-move flag 1, so that the trailing-cell
commit of the next call writes nothing; a call that does not respawn leaves
the flag 0.  The call returns whenever `get_random_start` cannot divide by
zero. -/
theorem update_pipe_respawn (w : World) (p : Pipe) :
    (respawns w p ↔
      ((advance p).pos.x < BORDER_PADDING ∨
       (advance p).pos.x ≥ w.term_width - BORDER_PADDING ∨
       (advance p).pos.y < BORDER_PADDING ∨
       (advance p).pos.y ≥ w.term_height - BORDER_PADDING)) ∧
    (w.term_width ≠ 4 → w.term_height ≠ 4 → (update_pipe w p).isSome = true) ∧
    (∀ (w' : World) (p' : Pipe), update_pipe w p = some (w', p') →
      (respawns w p →
        (∃ (pt : Point) (d : Int),
          get_random_start
            (turn_decision (commit_leading (commit_trailing w p) (advance p))
              (update_anchor (advance p))).1 = some (pt, d, w') ∧
          p'.pos = pt ∧ p'.dir = d) ∧
        p'.from_ = p'.pos ∧ p'.prev_dir = p'.dir ∧ p'.steps_since_turn = 0 ∧
        p'.first_move = 1 ∧
        ∀ w2 : World, commit_trailing w2 p' = w2 ∧ commit_trailing_accesses w2 p' = []) ∧
      (¬ respawns w p → p'.first_move = 0)) := by
  refine ⟨respawns_iff w p, update_pipe_isSome w p, ?_⟩
  intro w' p' h
  constructor
  · intro hr
    obtain ⟨pt, d, hg, hp⟩ := update_pipe_of_respawns w p w' p' h hr
    subst hp
    refine ⟨⟨pt, d, hg, rfl, rfl⟩, rfl, rfl, rfl, rfl, ?_⟩
    intro w2
    constructor
    · unfold commit_trailing
      rw [if_neg]
      rintro ⟨h1, _⟩
      simp at h1
    · unfold commit_trailing_accesses
      rw [if_neg]
      rintro ⟨h1, _⟩
      simp at h1
  · intro hn
    have e := update_pipe_of_not_respawns w p w' p' h hn
    have e2 : p' = (turn_decision (commit_leading (commit_trailing w p) (advance p))
        (update_anchor (advance p))).2 := congrArg Prod.snd e
    rw [e2]; simp [update_anchor]

/-- Witness of `update_pipe_respawn`: in the 10 x 5 viewport a pipe at
column 7 that travels East reaches column 8, inside the margin, and is
respawned at column 4 of row 2 with direction South. -/
theorem update_pipe_respawn_witness :
    respawns world_10x5 pipe_at_margin ∧
    after_margin.2.pos = { x := 4, y := 2 } ∧ after_margin.2.dir = 1 ∧
    after_margin.2.from_ = after_margin.2.pos ∧
    after_margin.2.prev_dir = after_margin.2.dir ∧
    after_margin.2.steps_since_turn = 0 ∧ after_margin.2.first_move = 1 ∧
    ∀ w2 : World, commit_trailing w2 after_margin.2 = w2 ∧
      commit_trailing_accesses w2 after_margin.2 = [] :=
  ⟨by decide, by decide, by decide,
   (((update_pipe_respawn world_10x5 pipe_at_margin).2.2 after_margin.1 after_margin.2 rfl).1
      (by decide)).2⟩

/-! ## The leading-cell commit -/

/-- The trailing-cell commit leaves a cell other than the previous position
as it was. -/
theorem commit_trailing_other (w : World) (p : Pipe) (y x : Int)
    (h : ¬ (y = p.from_.y ∧ x = p.from_.x) ∨ p.first_move ≠ 0 ∨ p.prev_dir = p.dir) :
    (commit_trailing w p).screen y x = w.screen y x ∧
    (commit_trailing w p).color_map y x = w.color_map y x := by
  unfold commit_trailing
  split
  · rename_i hc
    have hne : ¬ (y = p.from_.y ∧ x = p.from_.x) := by
      rcases h with h | h | h
      · exact h
      · exact absurd hc.1 h
      · exact absurd h hc.2.1
    rw [put_cell_screen, put_cell_color_map, set2_other _ _ _ _ _ _ hne,
      set2_other _ _ _ _ _ _ hne]
    exact ⟨rfl, rfl⟩
  · exact ⟨rfl, rfl⟩

/-- The cell `commit_leading` writes when it is inside the viewport and empty. -/
theorem commit_leading_writes (w : World) (p : Pipe)
    (hin : in_viewport w p.pos.y p.pos.x) (hempty : w.screen p.pos.y p.pos.x = none) :
    (commit_leading w p).screen p.pos.y p.pos.x = some (get_pipe_char p.dir p.dir) ∧
    (commit_leading w p).color_map p.pos.y p.pos.x =
      (if w.rainbow_mode ≠ 0 then Int.tmod (rand_val w) color_count else p.color_id) := by
  unfold commit_leading
  rw [if_pos ⟨hin.1, hin.2.1, hin.2.2.1, hin.2.2.2, hempty⟩, put_cell_screen,
    put_cell_color_map, set2_same, set2_same]
  exact ⟨rfl, rfl⟩

/-- After a call of `update_pipe` whose advanced position is inside the
viewport and was empty before the call, and whose trailing-cell commit does
not write that cell (the previous position is another cell, or it is the
first move, or the direction did not change), the cell holds the straight
glyph of the direction, with the colour of the pipe when rainbow mode is off
and with the palette index `rand() % color_count` when it is on. -/
theorem update_pipe_commit_leading (w : World) (p : Pipe) (w' : World) (p' : Pipe)
    (h : update_pipe w p = some (w', p')) (hd : 0 ≤ p.dir ∧ p.dir ≤ 3)
    (hin : 0 ≤ (advance p).pos.x ∧ (advance p).pos.x < w.term_width ∧
      0 ≤ (advance p).pos.y ∧ (advance p).pos.y < w.term_height)
    (hempty : w.screen (advance p).pos.y (advance p).pos.x = none)
    (hfrom : p.from_ ≠ (advance p).pos ∨ p.first_move ≠ 0 ∨ p.prev_dir = p.dir) :
    w'.screen (advance p).pos.y (advance p).pos.x = some (get_pipe_char p.dir p.dir) ∧
    (w.rainbow_mode = 0 → w'.color_map (advance p).pos.y (advance p).pos.x = p.color_id) ∧
    (w.rainbow_mode ≠ 0 →
      w'.color_map (advance p).pos.y (advance p).pos.x =
        Int.tmod (rand_val (commit_trailing w p)) color_count ∧
      0 ≤ w'.color_map (advance p).pos.y (advance p).pos.x ∧
      w'.color_map (advance p).pos.y (advance p).pos.x ≤ color_count - 1) := by
  have _ := hd
  obtain ⟨hs, hc⟩ := update_pipe_buffer w p w' p' h
  have ht := commit_trailing_other w p (advance p).pos.y (advance p).pos.x (by
    rcases hfrom with h1 | h1 | h1
    · left
      rintro ⟨hy, hx⟩
      apply h1
      cases hf : p.from_
      cases ha : (advance p).pos
      rw [hf, ha] at hy hx
      simp only at hy hx
      rw [hx, hy]
    · exact Or.inr (Or.inl h1)
    · exact Or.inr (Or.inr h1))
  have hl := commit_leading_writes (commit_trailing w p) (advance p)
    (by simpa [in_viewport] using hin) (by rw [ht.1]; exact hempty)
  rw [hs, hc, hl.1, hl.2]
  simp only [advance_dir, advance_color_id, commit_trailing_rainbow_mode, true_and]
  constructor
  · intro h0; rw [if_neg (by simpa using h0)]
  · intro h0
    rw [if_pos h0]
    have hb := tmod_nat_bounds ((commit_trailing w p).rand_seq (commit_trailing w p).rand_pos)
      color_count (by decide)
    refine ⟨rfl, ?_, ?_⟩
    · exact hb.1
    · have := hb.2
      simp only [rand_val]; omega

/-! ## `draw_screen` changes nothing but the cursor of `rand()` -/

theorem draw_screen_row_world (y : Int) (n : Nat) :
    ∀ (w : World) (out : String) (x : Int) (w' : World) (out' : String),
      draw_screen_row y w out x n = some (w', out') →
      w'.screen = w.screen ∧ w'.color_map = w.color_map ∧ same_config w w' := by
  induction n with
  | zero =>
    intro w out x w' out' h
    simp only [draw_screen_row, Option.some.injEq, Prod.mk.injEq] at h
    rw [← h.1]; exact ⟨rfl, rfl, same_config_refl w⟩
  | succ n ih =>
    intro w out x w' out' h
    simp only [draw_screen_row] at h
    cases hs : w.screen y x with
    | none =>
      rw [hs] at h
      exact ih _ _ _ _ _ h
    | some g =>
      rw [hs] at h
      by_cases hf : w.flicker_mode ≠ 0
      · simp only [if_pos hf] at h
        by_cases hr : 0 ≤ Int.tmod (rand_val w) color_count ∧
            Int.tmod (rand_val w) color_count < color_count
        · rw [if_pos hr] at h
          obtain ⟨h1, h2, h3⟩ := ih _ _ _ _ _ h
          exact ⟨h1, h2, same_config_trans ⟨rfl, rfl, rfl, rfl, rfl, rfl, rfl⟩ h3⟩
        · rw [if_neg hr] at h
          exact absurd h (by simp)
      · simp only [if_neg hf] at h
        by_cases hr : 0 ≤ w.color_map y x ∧ w.color_map y x < color_count
        · rw [if_pos hr] at h
          exact ih _ _ _ _ _ h
        · rw [if_neg hr] at h
          exact absurd h (by simp)

theorem draw_screen_rows_world (n : Nat) :
    ∀ (w : World) (out : String) (y : Int) (w' : World) (out' : String),
      draw_screen_rows w out y n = some (w', out') →
      w'.screen = w.screen ∧ w'.color_map = w.color_map ∧ same_config w w' := by
  induction n with
  | zero =>
    intro w out y w' out' h
    simp only [draw_screen_rows, Option.some.injEq, Prod.mk.injEq] at h
    rw [← h.1]; exact ⟨rfl, rfl, same_config_refl w⟩
  | succ n ih =>
    intro w out y w' out' h
    simp only [draw_screen_rows] at h
    split at h
    · exact absurd h (by simp)
    · rename_i w1 out1 hr
      obtain ⟨a1, a2, a3⟩ := draw_screen_row_world _ _ _ _ _ _ _ hr
      obtain ⟨b1, b2, b3⟩ := ih _ _ _ _ _ h
      exact ⟨b1.trans a1, b2.trans a2, same_config_trans a3 b3⟩

theorem draw_screen_world (w w' : World) (out : String) (h : draw_screen w = some (w', out)) :
    w'.screen = w.screen ∧ w'.color_map = w.color_map ∧ same_config w w' := by
  unfold draw_screen at h
  split at h
  · exact absurd h (by simp)
  · rename_i w1 out1 hr
    simp only [Option.some.injEq, Prod.mk.injEq] at h
    rw [← h.1]
    exact draw_screen_rows_world _ _ _ _ _ _ hr

/-! ## Every pipe of the range of `init_pipes` comes from `init_pipe` -/

theorem init_pipes_each (n : Nat) :
    ∀ (w : World) (pipes : Nat → Pipe) (i : Nat) (w' : World) (pipes' : Nat → Pipe),
      init_pipes w pipes i n = some (w', pipes') →
      ∀ j : Nat, i ≤ j → j < i + n →
        ∃ (wa wb : World), same_config w wa ∧ wa.screen = w.screen ∧
          init_pipe wa = some (wb, pipes' j) := by
  induction n with
  | zero => intro w pipes i w' pipes' _ j h1 h2; exact absurd h2 (by omega)
  | succ n ih =>
    intro w pipes i w' pipes' h j h1 h2
    simp only [init_pipes] at h
    split at h
    · exact absurd h (by simp)
    · rename_i w1 p1 hi
      by_cases hj : j = i
      · subst hj
        obtain ⟨_, _, _, _, ho⟩ := init_pipes_spec _ _ _ _ _ _ h
        refine ⟨w, w1, same_config_refl w, rfl, ?_⟩
        rw [ho j (Or.inl (by omega))]
        simpa using hi
      · obtain ⟨wa, wb, c, s, e⟩ := ih _ _ _ _ _ h j (by omega) (by omega)
        obtain ⟨_, _, _, _, _, _, _, hs1, _⟩ := init_pipe_spec _ _ _ hi
        exact ⟨wa, wb, same_config_trans (init_pipe_same_config _ _ _ hi) c,
          by rw [s, hs1], e⟩

/-! ## Invariants of a run -/

theorem same_config_symm {a b : World} (h : same_config a b) : same_config b a := by
  obtain ⟨a1, a2, a3, a4, a5, a6, a7⟩ := h
  exact ⟨a1.symm, a2.symm, a3.symm, a4.symm, a5.symm, a6.symm, a7.symm⟩

theorem init_pipes_same_config (n : Nat) (w : World) (pipes : Nat → Pipe) (i : Nat)
    (w' : World) (pipes' : Nat → Pipe) (h : init_pipes w pipes i n = some (w', pipes')) :
    same_config w w' :=
  (init_pipes_spec n w pipes i w' pipes' h).1

/-- The settings of a run never change. -/
theorem reachable_same_config (ws w : World) (pipes : Nat → Pipe)
    (h : Reachable ws w pipes) : same_config ws w := by
  induction h with
  | init pipes0 w pipes h0 =>
    exact same_config_trans (reset_screen_same_config ws)
      (init_pipes_same_config _ _ _ _ _ _ h0)
  | step w pipes i w1 p1 _ _ hu ih =>
    exact same_config_trans ih (update_pipe_same_config _ _ _ _ hu)
  | refill w pipes w1 pipes1 _ hr ih =>
    exact same_config_trans ih (same_config_trans (reset_screen_same_config w)
      (init_pipes_same_config _ _ _ _ _ _ hr))
  | draw w pipes w1 out _ hd ih =>
    exact same_config_trans ih (draw_screen_world _ _ _ hd).2.2

theorem lt_pipe_count_iff (w : World) (i : Nat) :
    (i : Int) < w.pipe_count ↔ i < w.pipe_count.toNat := by
  omega

/-- A property of a pipe that holds for every pipe `init_pipe` makes and is
kept by every call of `update_pipe` holds for every pipe of a run. -/
theorem reachable_pipe_local (ws : World) (Q : Pipe → Prop)
    (hinit : ∀ (w w0 : World) (p0 : Pipe), same_config ws w →
      init_pipe w = some (w0, p0) → Q p0)
    (hstep : ∀ (w : World) (p : Pipe) (w' : World) (p' : Pipe), same_config ws w →
      Q p → update_pipe w p = some (w', p') → Q p')
    (w : World) (pipes : Nat → Pipe) (h : Reachable ws w pipes) :
    ∀ i : Nat, (i : Int) < w.pipe_count → Q (pipes i) := by
  induction h with
  | init pipes0 w pipes h0 =>
    intro i hi
    have hc := init_pipes_same_config _ _ _ _ _ _ h0
    have hcr := reset_screen_same_config ws
    obtain ⟨wa, wb, c, _, e⟩ := init_pipes_each _ _ _ _ _ _ h0 i (Nat.zero_le i) (by
      have := hc.2.2.2.2.2.1
      have := hcr.2.2.2.2.2.1
      omega)
    exact hinit wa wb _ (same_config_trans hcr c) e
  | step w pipes i w1 p1 hre hi hu ih =>
    intro j hj
    have hc := reachable_same_config ws w pipes hre
    have hc1 := update_pipe_same_config _ _ _ _ hu
    by_cases hji : j = i
    · subst hji
      simp only [Function.update_same]
      exact hstep w (pipes j) w1 p1 hc (ih j hi) hu
    · rw [Function.update_noteq hji]
      exact ih j (by rw [← hc1.2.2.2.2.2.1]; exact hj)
  | refill w pipes w1 pipes1 hre hr ih =>
    intro i hi
    have hc := reachable_same_config ws w pipes hre
    have hcr := reset_screen_same_config w
    have hc1 := init_pipes_same_config _ _ _ _ _ _ hr
    obtain ⟨wa, wb, c, _, e⟩ := init_pipes_each _ _ _ _ _ _ hr i (Nat.zero_le i) (by
      have := hc1.2.2.2.2.2.1
      have := hcr.2.2.2.2.2.1
      omega)
    exact hinit wa wb _ (same_config_trans hc (same_config_trans hcr c)) e
  | draw w pipes w1 out hre hd ih =>
    intro i hi
    have hc1 := (draw_screen_world _ _ _ hd).2.2
    exact ih i (by rw [← hc1.2.2.2.2.2.1]; exact hi)

/-! ## Directions of the pipes of a run -/

theorem get_random_start_dir (w : World) (pt : Point) (d : Int) (w1 : World)
    (h : get_random_start w = some (pt, d, w1)) : 0 ≤ d ∧ d ≤ 3 := by
  unfold get_random_start at h
  simp only at h
  split at h
  · exact absurd h (by simp)
  · split at h
    · exact absurd h (by simp)
    · simp only [Option.some.injEq, Prod.mk.injEq] at h
      have hb := tmod_nat_bounds (w.rand_seq w.rand_pos) 4 (by decide)
      rw [← h.2.1]
      simp only [rand_val]
      omega

theorem turn_decision_dir_cases (w : World) (p : Pipe) :
    (turn_decision w p).2.dir = p.dir ∨
    (turn_decision w p).2.dir = Int.tmod (p.dir + 1) 4 ∨
    (turn_decision w p).2.dir = Int.tmod (p.dir + 3) 4 := by
  simp only [turn_decision]
  split_ifs
  · exact Or.inr (Or.inl rfl)
  · exact Or.inr (Or.inr rfl)
  · exact Or.inl rfl
  · exact Or.inl rfl

theorem init_pipe_dirs_ok (w w0 : World) (p0 : Pipe) (h : init_pipe w = some (w0, p0)) :
    dirs_ok p0 := by
  obtain ⟨⟨pt, d, w1, hg, _, hd⟩, _, hp, _⟩ := init_pipe_spec w w0 p0 h
  have hb := get_random_start_dir w pt d w1 hg
  rw [← hd] at hb
  refine ⟨hb, by rw [hp]; exact hb, ?_⟩
  rw [hp]; omega

theorem update_pipe_dirs_ok (w : World) (p : Pipe) (w' : World) (p' : Pipe)
    (hq : dirs_ok p) (h : update_pipe w p = some (w', p')) : dirs_ok p' := by
  obtain ⟨hd, _, _⟩ := hq
  by_cases hr : respawns w p
  · obtain ⟨pt, d, hg, hp⟩ := update_pipe_of_respawns w p w' p' h hr
    have hb := get_random_start_dir _ pt d w' hg
    subst hp
    refine ⟨hb, hb, ?_⟩
    simp only []
    omega
  · have e := update_pipe_of_not_respawns w p w' p' h hr
    have e2 : p' = (turn_decision (commit_leading (commit_trailing w p) (advance p))
        (update_anchor (advance p))).2 := congrArg Prod.snd e
    have hpd : p'.prev_dir = p.dir := by rw [e2]; simp [update_anchor]
    have hc := turn_decision_dir_cases (commit_leading (commit_trailing w p) (advance p))
      (update_anchor (advance p))
    rw [← e2] at hc
    have hdd : (update_anchor (advance p)).dir = p.dir := by simp [update_anchor]
    rw [hdd] at hc
    have hm1 : Int.tmod (p.dir + 1) 4 = (p.dir + 1) % 4 :=
      Int.tmod_eq_emod (by omega) (by decide)
    have hm3 : Int.tmod (p.dir + 3) 4 = (p.dir + 3) % 4 :=
      Int.tmod_eq_emod (by omega) (by decide)
    rw [hm1, hm3] at hc
    refine ⟨?_, by rw [hpd]; exact hd, ?_⟩
    · rcases hc with hc | hc | hc <;> omega
    · rw [hpd]
      rcases hc with hc | hc | hc <;> omega

theorem reachable_dirs_ok (ws w : World) (pipes : Nat → Pipe) (h : Reachable ws w pipes)
    (i : Nat) (hi : (i : Int) < w.pipe_count) : dirs_ok (pipes i) :=
  reachable_pipe_local ws dirs_ok
    (fun w w0 p0 _ h0 => init_pipe_dirs_ok w w0 p0 h0)
    (fun w p w' p' _ hq hu => update_pipe_dirs_ok w p w' p' hq hu)
    w pipes h i hi

theorem get_pipe_char_no_fallback (f t : Int) (hf : 0 ≤ f ∧ f ≤ 3) (ht : 0 ≤ t ∧ t ≤ 3)
    (h : t ≠ (f + 2) % 4) : get_pipe_char f t ≠ "*" := by
  obtain ⟨h1, h2⟩ := hf
  obtain ⟨h3, h4⟩ := ht
  interval_cases f <;> interval_cases t <;> first | (exfalso; omega) | decide

/-! ## Positions of the pipes of a run -/

theorem init_pipe_in_interior (ws w w0 : World) (p0 : Pipe)
    (hw : ws.term_width > 4) (hh : ws.term_height > 4) (hc : same_config ws w)
    (h : init_pipe w = some (w0, p0)) : in_interior ws p0 := by
  obtain ⟨⟨pt, d, w1, hg, hpos, _⟩, _⟩ := init_pipe_spec w w0 p0 h
  obtain ⟨_, _, pt', d', w1', hg', b1, b2, b3, b4, _⟩ :=
    get_random_start_bounds w (by rw [hc.1]; simpa [BORDER_PADDING] using hw)
      (by rw [hc.2.1]; simpa [BORDER_PADDING] using hh)
  rw [hg] at hg'
  simp only [Option.some.injEq, Prod.mk.injEq] at hg'
  obtain ⟨rfl, rfl, rfl⟩ := hg'
  rw [hc.1] at b2
  rw [hc.2.1] at b4
  rw [← hpos] at b1 b2 b3 b4
  exact ⟨b1, b2, b3, b4⟩

theorem update_pipe_in_interior (ws w : World) (p : Pipe) (w' : World) (p' : Pipe)
    (hw : ws.term_width > 4) (hh : ws.term_height > 4) (hc : same_config ws w)
    (h : update_pipe w p = some (w', p')) : in_interior ws p' := by
  by_cases hr : respawns w p
  · obtain ⟨pt, d, hg, hp⟩ := update_pipe_of_respawns w p w' p' h hr
    have c1 : (turn_decision (commit_leading (commit_trailing w p) (advance p))
        (update_anchor (advance p))).1.term_width = ws.term_width := by simp [hc.1]
    have c2 : (turn_decision (commit_leading (commit_trailing w p) (advance p))
        (update_anchor (advance p))).1.term_height = ws.term_height := by simp [hc.2.1]
    obtain ⟨_, _, pt', d', w1', hg', b1, b2, b3, b4, _⟩ :=
      get_random_start_bounds _ (by rw [c1]; simpa [BORDER_PADDING] using hw)
        (by rw [c2]; simpa [BORDER_PADDING] using hh)
    rw [hg] at hg'
    simp only [Option.some.injEq, Prod.mk.injEq] at hg'
    obtain ⟨rfl, rfl, rfl⟩ := hg'
    rw [c1] at b2
    rw [c2] at b4
    subst hp
    exact ⟨b1, b2, b3, b4⟩
  · have e := update_pipe_of_not_respawns w p w' p' h hr
    have e2 : p' = (turn_decision (commit_leading (commit_trailing w p) (advance p))
        (update_anchor (advance p))).2 := congrArg Prod.snd e
    have hpos : p'.pos = (advance p).pos := by rw [e2]; simp [update_anchor]
    have hb : ¬ at_border w (advance p).pos := fun hb => hr ((respawns_iff w p).mpr hb)
    simp only [at_border, hc.1, hc.2.1] at hb
    simp only [in_interior, hpos]
    omega

theorem reachable_in_interior (ws w : World) (pipes : Nat → Pipe)
    (hw : ws.term_width > 4) (hh : ws.term_height > 4) (h : Reachable ws w pipes)
    (i : Nat) (hi : (i : Int) < w.pipe_count) : in_interior ws (pipes i) :=
  reachable_pipe_local ws (in_interior ws)
    (fun w w0 p0 hc h0 => init_pipe_in_interior ws w w0 p0 hw hh hc h0)
    (fun w p w' p' hc _ hu => update_pipe_in_interior ws w p w' p' hw hh hc hu)
    w pipes h i hi

/-! ## The first steps of a run, for the closed instances -/

theorem main_init_isSome (ws : World) (pipes : Nat → Pipe)
    (hw : ws.term_width ≠ 4) (hh : ws.term_height ≠ 4) :
    (main_init ws pipes).isSome = true := by
  unfold main_init
  have hc := reset_screen_same_config ws
  exact init_pipes_isSome _ _ _ _ (by rw [hc.1]; exact hw) (by rw [hc.2.1]; exact hh)

/-- A run in a viewport whose dimensions are not 4, with at least one pipe,
gets through the initialisation and a first call of `update_pipe`. -/
theorem run_one_step (ws : World) (pipes : Nat → Pipe)
    (hw : ws.term_width ≠ 4) (hh : ws.term_height ≠ 4) (hc : 0 < ws.pipe_count) :
    ∃ (w : World) (ps : Nat → Pipe) (w1 : World) (p1 : Pipe),
      main_init ws pipes = some (w, ps) ∧ update_pipe w (ps 0) = some (w1, p1) ∧
      Reachable ws w1 (Function.update ps 0 p1) ∧ ((0 : Nat) : Int) < w1.pipe_count := by
  have h0 := main_init_isSome ws pipes hw hh
  cases hm : main_init ws pipes with
  | none => rw [hm] at h0; exact absurd h0 (by decide)
  | some r =>
    obtain ⟨w, ps⟩ := r
    have hre : Reachable ws w ps := Reachable.init pipes w ps hm
    have c := reachable_same_config ws w ps hre
    have h1 := update_pipe_isSome w (ps 0) (by rw [c.1]; exact hw) (by rw [c.2.1]; exact hh)
    cases hu : update_pipe w (ps 0) with
    | none => rw [hu] at h1; exact absurd h1 (by decide)
    | some r1 =>
      obtain ⟨w1, p1⟩ := r1
      have hi : ((0 : Nat) : Int) < w.pipe_count := by
        rw [c.2.2.2.2.2.1]; simpa using hc
      have c1 := update_pipe_same_config _ _ _ _ hu
      exact ⟨w, ps, w1, p1, rfl, hu, Reachable.step w ps 0 w1 p1 hre hi hu,
        by rw [c1.2.2.2.2.2.1]; exact hi⟩

/-- C13: in every state of a run in a viewport larger than 4 in both
dimensions, each pipe below `pipe_count` has its direction and its previous
direction in 0..3 and its direction is not the opposite of the previous one;
the two calls of `get_pipe_char` that `update_pipe` can make on it do not
return the fallback glyph. -/
theorem fallback_unreachable (ws w : World) (pipes : Nat → Pipe)
    (hw : ws.term_width > 4) (hh : ws.term_height > 4)
    (h : Reachable ws w pipes) (i : Nat) (hi : (i : Int) < w.pipe_count) :
    (0 ≤ (pipes i).dir ∧ (pipes i).dir ≤ 3) ∧
    (0 ≤ (pipes i).prev_dir ∧ (pipes i).prev_dir ≤ 3) ∧
    (pipes i).dir ≠ ((pipes i).prev_dir + 2) % 4 ∧
    get_pipe_char (pipes i).prev_dir (pipes i).dir ≠ "*" ∧
    get_pipe_char (pipes i).dir (pipes i).dir ≠ "*" := by
  have _ := hw
  have _ := hh
  obtain ⟨h1, h2, h3⟩ := reachable_dirs_ok ws w pipes h i hi
  refine ⟨h1, h2, h3, get_pipe_char_no_fallback _ _ h2 h1 h3,
    get_pipe_char_no_fallback _ _ h1 h1 (by omega)⟩

/-- Witness of `fallback_unreachable`: the pipe of a run in the 20 x 20
viewport after the initialisation and one call of `update_pipe`. -/
theorem fallback_unreachable_witness :
    ∃ (w : World) (ps : Nat → Pipe) (w1 : World) (p1 : Pipe),
      main_init world_20x20 pipes_east = some (w, ps) ∧
      update_pipe w (ps 0) = some (w1, p1) ∧
      (0 ≤ p1.dir ∧ p1.dir ≤ 3) ∧ (0 ≤ p1.prev_dir ∧ p1.prev_dir ≤ 3) ∧
      p1.dir ≠ (p1.prev_dir + 2) % 4 ∧
      get_pipe_char p1.prev_dir p1.dir ≠ "*" ∧ get_pipe_char p1.dir p1.dir ≠ "*" := by
  obtain ⟨w, ps, w1, p1, h0, h1, hre, hc⟩ :=
    run_one_step world_20x20 pipes_east (by decide) (by decide) (by decide)
  have h := fallback_unreachable world_20x20 w1 (Function.update ps 0 p1)
    (by decide) (by decide) hre 0 hc
  simp only [Function.update_same] at h
  exact ⟨w, ps, w1, p1, h0, h1, h⟩

/-- C14: in every state of a run in a viewport larger than 4 in both
dimensions the position of each pipe below `pipe_count` is inside the
viewport; it is even inside the border margin. -/
theorem position_invariant (ws w : World) (pipes : Nat → Pipe)
    (hw : ws.term_width > 4) (hh : ws.term_height > 4)
    (h : Reachable ws w pipes) (i : Nat) (hi : (i : Int) < w.pipe_count) :
    (0 ≤ (pipes i).pos.x ∧ (pipes i).pos.x < w.term_width ∧
     0 ≤ (pipes i).pos.y ∧ (pipes i).pos.y < w.term_height) ∧
    (BORDER_PADDING ≤ (pipes i).pos.x ∧ (pipes i).pos.x < w.term_width - BORDER_PADDING ∧
     BORDER_PADDING ≤ (pipes i).pos.y ∧ (pipes i).pos.y < w.term_height - BORDER_PADDING) := by
  have c := reachable_same_config ws w pipes h
  have hin := reachable_in_interior ws w pipes hw hh h i hi
  simp only [in_interior, BORDER_PADDING] at hin
  simp only [BORDER_PADDING, c.1, c.2.1]
  omega

/-- Witness of `position_invariant`: the pipe of a run in the 20 x 20
viewport after the initialisation and one call of `update_pipe`. -/
theorem position_invariant_witness :
    ∃ (w : World) (ps : Nat → Pipe) (w1 : World) (p1 : Pipe),
      main_init world_20x20 pipes_east = some (w, ps) ∧
      update_pipe w (ps 0) = some (w1, p1) ∧
      0 ≤ p1.pos.x ∧ p1.pos.x < 20 ∧ 0 ≤ p1.pos.y ∧ p1.pos.y < 20 := by
  obtain ⟨w, ps, w1, p1, h0, h1, hre, hc⟩ :=
    run_one_step world_20x20 pipes_east (by decide) (by decide) (by decide)
  have h := (position_invariant world_20x20 w1 (Function.update ps 0 p1)
    (by decide) (by decide) hre 0 hc).1
  have c := reachable_same_config world_20x20 w1 _ hre
  simp only [Function.update_same, c.1, c.2.1] at h
  exact ⟨w, ps, w1, p1, h0, h1, h⟩

/-! ## What a commit does to one cell -/

theorem commit_trailing_cell (w : World) (p : Pipe) (y x : Int) :
    ((commit_trailing w p).screen y x = w.screen y x ∧
     (commit_trailing w p).color_map y x = w.color_map y x) ∨
    (in_viewport w y x ∧ (y = p.from_.y ∧ x = p.from_.x) ∧ p.first_move = 0 ∧
     w.screen y x = none ∧
     (commit_trailing w p).screen y x = some (get_pipe_char p.prev_dir p.dir) ∧
     (commit_trailing w p).color_map y x =
       (if w.rainbow_mode ≠ 0 then Int.tmod (rand_val w) color_count else p.color_id)) := by
  by_cases hc : p.first_move = 0 ∧ p.prev_dir ≠ p.dir ∧
      0 ≤ p.from_.x ∧ p.from_.x < w.term_width ∧
      0 ≤ p.from_.y ∧ p.from_.y < w.term_height ∧
      w.screen p.from_.y p.from_.x = none
  · by_cases he : y = p.from_.y ∧ x = p.from_.x
    · right
      obtain ⟨rfl, rfl⟩ := he
      refine ⟨⟨hc.2.2.1, hc.2.2.2.1, hc.2.2.2.2.1, hc.2.2.2.2.2.1⟩, ⟨rfl, rfl⟩, hc.1,
        hc.2.2.2.2.2.2, ?_, ?_⟩
      · unfold commit_trailing; rw [if_pos hc, put_cell_screen, set2_same]
      · unfold commit_trailing; rw [if_pos hc, put_cell_color_map, set2_same]
    · left
      unfold commit_trailing
      rw [if_pos hc, put_cell_screen, put_cell_color_map, set2_other _ _ _ _ _ _ he,
        set2_other _ _ _ _ _ _ he]
      exact ⟨rfl, rfl⟩
  · left
    unfold commit_trailing
    rw [if_neg hc]
    exact ⟨rfl, rfl⟩

theorem commit_leading_cell (w : World) (p : Pipe) (y x : Int) :
    ((commit_leading w p).screen y x = w.screen y x ∧
     (commit_leading w p).color_map y x = w.color_map y x) ∨
    (in_viewport w y x ∧ (y = p.pos.y ∧ x = p.pos.x) ∧ w.screen y x = none ∧
     (commit_leading w p).screen y x = some (get_pipe_char p.dir p.dir) ∧
     (commit_leading w p).color_map y x =
       (if w.rainbow_mode ≠ 0 then Int.tmod (rand_val w) color_count else p.color_id)) := by
  by_cases hc : 0 ≤ p.pos.x ∧ p.pos.x < w.term_width ∧
      0 ≤ p.pos.y ∧ p.pos.y < w.term_height ∧
      w.screen p.pos.y p.pos.x = none
  · by_cases he : y = p.pos.y ∧ x = p.pos.x
    · right
      obtain ⟨rfl, rfl⟩ := he
      refine ⟨⟨hc.1, hc.2.1, hc.2.2.1, hc.2.2.2.1⟩, ⟨rfl, rfl⟩, hc.2.2.2.2, ?_, ?_⟩
      · unfold commit_leading; rw [if_pos hc, put_cell_screen, set2_same]
      · unfold commit_leading; rw [if_pos hc, put_cell_color_map, set2_same]
    · left
      unfold commit_leading
      rw [if_pos hc, put_cell_screen, put_cell_color_map, set2_other _ _ _ _ _ _ he,
        set2_other _ _ _ _ _ _ he]
      exact ⟨rfl, rfl⟩
  · left
    unfold commit_leading
    rw [if_neg hc]
    exact ⟨rfl, rfl⟩

/-! ## Colours of the glyphs of a run -/

theorem write_colour_ok (w : World) (c : Int) (hc : 0 ≤ c ∧ c ≤ 7) :
    0 ≤ (if w.rainbow_mode ≠ 0 then Int.tmod (rand_val w) color_count else c) ∧
    (if w.rainbow_mode ≠ 0 then Int.tmod (rand_val w) color_count else c) ≤ color_count - 1 := by
  have h8 : color_count = 8 := by decide
  have hb := tmod_nat_bounds (w.rand_seq w.rand_pos) color_count (by decide)
  simp only [rand_val, h8] at hb ⊢
  split <;> omega

theorem buffer_colours_ok_of_cells (w w' : World)
    (h : buffer_colours_ok w)
    (hcell : ∀ y x : Int,
      (w'.screen y x = w.screen y x ∧ w'.color_map y x = w.color_map y x) ∨
      (w'.screen y x ≠ none ∧ 0 ≤ w'.color_map y x ∧ w'.color_map y x ≤ color_count - 1)) :
    buffer_colours_ok w' := by
  intro y x hb
  rcases hcell y x with ⟨h1, h2⟩ | ⟨h1, h2, h3⟩
  · rw [h1, h2]; exact h y x hb
  · refine ⟨⟨fun h0 => ?_, fun h0 => absurd h0 h1⟩, fun _ => ⟨h2, h3⟩⟩
    rw [h0] at h2
    exact absurd h2 (by decide)

theorem commit_trailing_colours_ok (w : World) (p : Pipe) (hp : color_id_ok p)
    (h : buffer_colours_ok w) : buffer_colours_ok (commit_trailing w p) := by
  apply buffer_colours_ok_of_cells w _ h
  intro y x
  rcases commit_trailing_cell w p y x with h1 | ⟨_, _, _, _, h2, h3⟩
  · exact Or.inl h1
  · right
    rw [h2, h3]
    exact ⟨by simp, write_colour_ok w p.color_id hp⟩

theorem commit_leading_colours_ok (w : World) (p : Pipe) (hp : color_id_ok p)
    (h : buffer_colours_ok w) : buffer_colours_ok (commit_leading w p) := by
  apply buffer_colours_ok_of_cells w _ h
  intro y x
  rcases commit_leading_cell w p y x with h1 | ⟨_, _, _, h2, h3⟩
  · exact Or.inl h1
  · right
    rw [h2, h3]
    exact ⟨by simp, write_colour_ok w p.color_id hp⟩

theorem buffer_colours_ok_congr (w w' : World) (hs : w'.screen = w.screen)
    (hc : w'.color_map = w.color_map) (h : buffer_colours_ok w) : buffer_colours_ok w' := by
  intro y x hb
  rw [hs, hc]; exact h y x hb

theorem update_pipe_colours_ok (w : World) (p : Pipe) (w' : World) (p' : Pipe)
    (hu : update_pipe w p = some (w', p')) (hp : color_id_ok p)
    (h : buffer_colours_ok w) : buffer_colours_ok w' := by
  obtain ⟨hs, hc⟩ := update_pipe_buffer w p w' p' hu
  apply buffer_colours_ok_congr _ _ hs hc
  apply commit_leading_colours_ok _ _ (by simpa [color_id_ok] using hp)
  exact commit_trailing_colours_ok w p hp h

theorem reset_screen_colours_ok (w : World) : buffer_colours_ok (reset_screen w) := by
  intro y x hb
  obtain ⟨h1, h2⟩ := reset_screen_cell w y x ⟨hb.1, hb.2.1⟩ ⟨hb.2.2.1, hb.2.2.2⟩
  rw [h1, h2]
  exact ⟨⟨fun _ => rfl, fun _ => rfl⟩, fun h0 => absurd rfl h0⟩

theorem update_pipe_color_id (w : World) (p : Pipe) (w' : World) (p' : Pipe)
    (h : update_pipe w p = some (w', p')) : p'.color_id = p.color_id := by
  by_cases hr : respawns w p
  · obtain ⟨pt, d, _, hp⟩ := update_pipe_of_respawns w p w' p' h hr
    rw [hp]
  · have e := update_pipe_of_not_respawns w p w' p' h hr
    have e2 : p' = (turn_decision (commit_leading (commit_trailing w p) (advance p))
        (update_anchor (advance p))).2 := congrArg Prod.snd e
    rw [e2]; simp [update_anchor]

theorem reachable_color_id_ok (ws w : World) (pipes : Nat → Pipe)
    (hb : 0 ≤ ws.base_color_index ∧ ws.base_color_index ≤ 7)
    (h : Reachable ws w pipes) (i : Nat) (hi : (i : Int) < w.pipe_count) :
    color_id_ok (pipes i) :=
  reachable_pipe_local ws color_id_ok
    (fun w w0 p0 hc h0 => by
      obtain ⟨_, _, _, _, h5, h6⟩ := fresh_pipe_congr ws w p0 hc (init_pipe_fresh w w0 p0 h0)
      by_cases hr : ws.rainbow_mode = 0
      · rw [color_id_ok, h5 hr]; exact hb
      · exact h6 hr)
    (fun w p w' p' _ hq hu => by
      rw [color_id_ok, update_pipe_color_id w p w' p' hu]; exact hq)
    w pipes h i hi

theorem reachable_colours_ok (ws w : World) (pipes : Nat → Pipe)
    (hb : 0 ≤ ws.base_color_index ∧ ws.base_color_index ≤ 7)
    (h : Reachable ws w pipes) : buffer_colours_ok w := by
  induction h with
  | init pipes0 w pipes h0 =>
    obtain ⟨_, hs, hm, _⟩ := init_pipes_spec _ _ _ _ _ _ h0
    exact buffer_colours_ok_congr _ _ hs hm (reset_screen_colours_ok ws)
  | step w pipes i w1 p1 hre hi hu ih =>
    exact update_pipe_colours_ok w (pipes i) w1 p1 hu
      (reachable_color_id_ok ws w pipes hb hre i hi) ih
  | refill w pipes w1 pipes1 _ hr _ =>
    obtain ⟨_, hs, hm, _⟩ := init_pipes_spec _ _ _ _ _ _ hr
    exact buffer_colours_ok_congr _ _ hs hm (reset_screen_colours_ok w)
  | draw w pipes w1 out _ hd ih =>
    obtain ⟨hs, hm, _⟩ := draw_screen_world _ _ _ hd
    exact buffer_colours_ok_congr _ _ hs hm ih

/-! ## The colour lookup of `draw_screen` -/

theorem draw_screen_row_isSome (y : Int) (n : Nat) :
    ∀ (w : World) (out : String) (x : Int),
      (∀ k : Nat, k < n → w.screen y (x + k) ≠ none →
        0 ≤ w.color_map y (x + k) ∧ w.color_map y (x + k) ≤ color_count - 1) →
      (draw_screen_row y w out x n).isSome = true := by
  induction n with
  | zero => intro w out x _; rfl
  | succ n ih =>
    intro w out x h
    have hrest : ∀ w1 : World, w1.screen = w.screen → w1.color_map = w.color_map →
        ∀ k : Nat, k < n → w1.screen y (x + 1 + k) ≠ none →
          0 ≤ w1.color_map y (x + 1 + k) ∧ w1.color_map y (x + 1 + k) ≤ color_count - 1 := by
      intro w1 hs hc k hk
      rw [hs, hc]
      have e : x + 1 + (k : Int) = x + ((k + 1 : Nat) : Int) := by push_cast; ring
      rw [e]
      exact h (k + 1) (by omega)
    simp only [draw_screen_row]
    cases hs : w.screen y x with
    | none => exact ih _ _ _ (hrest w rfl rfl)
    | some g =>
      simp only []
      have h0 := h 0 (Nat.succ_pos n)
      simp only [Nat.cast_zero, add_zero, hs] at h0
      have h0' := h0 (by simp)
      by_cases hf : w.flicker_mode ≠ 0
      · simp only [if_pos hf]
        have hb := tmod_nat_bounds (w.rand_seq w.rand_pos) color_count (by decide)
        rw [if_pos (by simpa [rand_val] using hb)]
        exact ih _ _ _ (hrest (rand_adv w) rfl rfl)
      · simp only [if_neg hf]
        rw [if_pos ⟨h0'.1, by omega⟩]
        exact ih _ _ _ (hrest w rfl rfl)

theorem draw_screen_rows_isSome (n : Nat) :
    ∀ (w : World) (out : String) (y : Int),
      (∀ j k : Nat, j < n → k < w.term_width.toNat → w.screen (y + j) (0 + k) ≠ none →
        0 ≤ w.color_map (y + j) (0 + k) ∧ w.color_map (y + j) (0 + k) ≤ color_count - 1) →
      (draw_screen_rows w out y n).isSome = true := by
  induction n with
  | zero => intro w out y _; rfl
  | succ n ih =>
    intro w out y h
    have hrow := draw_screen_row_isSome y w.term_width.toNat w out 0 (fun k hk => by
      have := h 0 k (Nat.succ_pos n) hk
      simpa using this)
    simp only [draw_screen_rows]
    cases hr : draw_screen_row y w out 0 w.term_width.toNat with
    | none => rw [hr] at hrow; exact absurd hrow (by decide)
    | some r =>
      obtain ⟨w1, out1⟩ := r
      obtain ⟨hs, hc, hcfg⟩ := draw_screen_row_world _ _ _ _ _ _ _ hr
      apply ih
      intro j k hj hk
      rw [hs, hc]
      rw [hcfg.1] at hk
      have e : y + 1 + (j : Int) = y + ((j + 1 : Nat) : Int) := by push_cast; ring
      rw [e]
      exact h (j + 1) k (by omega) hk

/-- The function `draw_screen` returns when every glyph of the viewport has
a colour inside the palette. -/
theorem draw_screen_isSome (w : World)
    (h : ∀ y x : Int, in_viewport w y x → w.screen y x ≠ none →
      0 ≤ w.color_map y x ∧ w.color_map y x ≤ color_count - 1) :
    (draw_screen w).isSome = true := by
  have hr := draw_screen_rows_isSome w.term_height.toNat w "\x1b[2J\x1b[H" 0
    (fun j k hj hk => h _ _ ⟨by omega, by omega, by omega, by omega⟩)
  unfold draw_screen
  cases hd : draw_screen_rows w "\x1b[2J\x1b[H" 0 w.term_height.toNat with
  | none => rw [hd] at hr; exact absurd hr (by decide)
  | some r => rfl

/-- C12: in every state of a run started with a base colour in 0..7, each
cell of the arrays has colour -1 exactly when it has no glyph, and the
colour of a glyph is an index of the palette; when the viewport is not
larger than the arrays the colour lookups of `draw_screen` are in range and
it returns. -/
theorem colour_glyph_invariant (ws w : World) (pipes : Nat → Pipe)
    (hb : 0 ≤ ws.base_color_index ∧ ws.base_color_index ≤ 7)
    (h : Reachable ws w pipes) :
    (∀ y x : Int, 0 ≤ y → y < MAX_HEIGHT → 0 ≤ x → x < MAX_WIDTH →
      (w.color_map y x = -1 ↔ w.screen y x = none) ∧
      (w.screen y x ≠ none → 0 ≤ w.color_map y x ∧ w.color_map y x ≤ color_count - 1)) ∧
    (w.term_width ≤ MAX_WIDTH → w.term_height ≤ MAX_HEIGHT →
      (draw_screen w).isSome = true) := by
  have hok := reachable_colours_ok ws w pipes hb h
  refine ⟨fun y x h1 h2 h3 h4 => hok y x ⟨h1, h2, h3, h4⟩, ?_⟩
  intro hw hh
  apply draw_screen_isSome
  intro y x hv
  exact (hok y x ⟨hv.2.2.1, by have := hv.2.2.2; omega, hv.1, by have := hv.2.1; omega⟩).2

/-- Witness of `colour_glyph_invariant`: the state of a run in the 20 x 20
viewport after the initialisation and one call of `update_pipe`. -/
theorem colour_glyph_invariant_witness :
    ∃ (w : World) (ps : Nat → Pipe) (w1 : World) (p1 : Pipe),
      main_init world_20x20 pipes_east = some (w, ps) ∧
      update_pipe w (ps 0) = some (w1, p1) ∧
      (∀ y x : Int, 0 ≤ y → y < MAX_HEIGHT → 0 ≤ x → x < MAX_WIDTH →
        (w1.color_map y x = -1 ↔ w1.screen y x = none) ∧
        (w1.screen y x ≠ none → 0 ≤ w1.color_map y x ∧ w1.color_map y x ≤ color_count - 1)) ∧
      (draw_screen w1).isSome = true := by
  obtain ⟨w, ps, w1, p1, h0, h1, hre, _⟩ :=
    run_one_step world_20x20 pipes_east (by decide) (by decide) (by decide)
  have h := colour_glyph_invariant world_20x20 w1 (Function.update ps 0 p1)
    (by decide) hre
  have c := reachable_same_config world_20x20 w1 _ hre
  exact ⟨w, ps, w1, p1, h0, h1, h.1, h.2 (by rw [c.1]; decide) (by rw [c.2.1]; decide)⟩

/-! ## The trailing-cell commit in a run -/

theorem commit_trailing_idle (w : World) (p : Pipe)
    (h : p.first_move = 0 → in_viewport w p.from_.y p.from_.x →
      w.screen p.from_.y p.from_.x ≠ none) :
    commit_trailing w p = w := by
  unfold commit_trailing
  rw [if_neg]
  rintro ⟨h1, _, h3, h4, h5, h6, h7⟩
  exact h h1 ⟨h3, h4, h5, h6⟩ h7

theorem get_pipe_char_same (d : Int) :
    get_pipe_char d d = "─" ∨ get_pipe_char d d = "│" := by
  unfold get_pipe_char
  rw [if_pos rfl]
  split
  · exact Or.inl rfl
  · exact Or.inr rfl

theorem commit_leading_pos_occupied (w : World) (p : Pipe)
    (h : in_viewport w p.pos.y p.pos.x) :
    (commit_leading w p).screen p.pos.y p.pos.x ≠ none := by
  by_cases he : w.screen p.pos.y p.pos.x = none
  · rw [(commit_leading_writes w p h he).1]; simp
  · rw [(commit_leading_occupied w p _ _ he).1]; exact he

/-- A call of `update_pipe` empties no cell. -/
theorem update_pipe_keeps_occupied (w : World) (p : Pipe) (w' : World) (p' : Pipe)
    (hu : update_pipe w p = some (w', p')) (y x : Int) (h : w.screen y x ≠ none) :
    w'.screen y x ≠ none := by
  obtain ⟨hs, _⟩ := update_pipe_buffer w p w' p' hu
  have h1 := commit_trailing_occupied w p y x h
  have h2 := commit_leading_occupied (commit_trailing w p) (advance p) y x
    (by rw [h1.1]; exact h)
  rw [hs, h2.1, h1.1]; exact h

theorem in_viewport_congr (w w' : World) (y x : Int) (hc : same_config w w') :
    in_viewport w' y x ↔ in_viewport w y x := by
  unfold in_viewport; rw [hc.1, hc.2.1]

theorem init_pipes_anchors (w : World) (pipes : Nat → Pipe) (w' : World)
    (pipes' : Nat → Pipe)
    (h : init_pipes w pipes 0 w.pipe_count.toNat = some (w', pipes')) :
    anchors_occupied w' pipes' := by
  intro i hi h0 _
  obtain ⟨hc, _, _, hf, _⟩ := init_pipes_spec _ _ _ _ _ _ h
  have hfr := hf i (Nat.zero_le i) (by
    have := hc.2.2.2.2.2.1
    omega)
  rw [hfr.2.2.2.1] at h0
  exact absurd h0 (by decide)

theorem reachable_anchors_occupied (ws w : World) (pipes : Nat → Pipe)
    (h : Reachable ws w pipes) : anchors_occupied w pipes := by
  induction h with
  | init pipes0 w pipes h0 =>
    have hcr := reset_screen_same_config ws
    unfold main_init at h0
    rw [← hcr.2.2.2.2.2.1] at h0
    exact init_pipes_anchors _ _ _ _ h0
  | step w pipes i w1 p1 hre hi hu ih =>
    intro j hj h0 hv
    have hc1 := update_pipe_same_config _ _ _ _ hu
    by_cases hji : j = i
    · subst hji
      simp only [Function.update_same] at h0 hv ⊢
      by_cases hr : respawns w (pipes j)
      · obtain ⟨pt, d, _, hp⟩ := update_pipe_of_respawns _ _ _ _ hu hr
        rw [hp] at h0
        simp at h0
      · have e := update_pipe_of_not_respawns _ _ _ _ hu hr
        have e2 : p1 = (turn_decision (commit_leading (commit_trailing w (pipes j))
            (advance (pipes j))) (update_anchor (advance (pipes j)))).2 := congrArg Prod.snd e
        have hf : p1.from_ = (advance (pipes j)).pos := by rw [e2]; simp [update_anchor]
        obtain ⟨hs, _⟩ := update_pipe_buffer _ _ _ _ hu
        rw [hf] at hv ⊢
        rw [hs]
        apply commit_leading_pos_occupied
        have := (in_viewport_congr w w1 _ _ hc1).mp hv
        simpa [in_viewport] using this
    · rw [Function.update_noteq hji] at h0 hv ⊢
      apply update_pipe_keeps_occupied _ _ _ _ hu
      exact ih j (by rw [← hc1.2.2.2.2.2.1]; exact hj) h0
        ((in_viewport_congr w w1 _ _ hc1).mp hv)
  | refill w pipes w1 pipes1 _ hr _ =>
    have hcr := reset_screen_same_config w
    rw [← hcr.2.2.2.2.2.1] at hr
    exact init_pipes_anchors _ _ _ _ hr
  | draw w pipes w1 out _ hd ih =>
    intro j hj h0 hv
    obtain ⟨hs, _, hc⟩ := draw_screen_world _ _ _ hd
    rw [hs]
    exact ih j (by rw [← hc.2.2.2.2.2.1]; exact hj) h0 ((in_viewport_congr w w1 _ _ hc).mp hv)

/-- In a run the trailing-cell commit of `update_pipe` never writes. -/
theorem reachable_commit_trailing (ws w : World) (pipes : Nat → Pipe)
    (h : Reachable ws w pipes) (i : Nat) (hi : (i : Int) < w.pipe_count) :
    commit_trailing w (pipes i) = w :=
  commit_trailing_idle w (pipes i) (reachable_anchors_occupied ws w pipes h i hi)

theorem reset_glyphs_empty (w w' : World) (hs : w'.screen = (reset_screen w).screen)
    (y x : Int) (hb : in_buffer y x) : w'.screen y x = none := by
  rw [hs]
  exact (reset_screen_cell w y x ⟨hb.1, hb.2.1⟩ ⟨hb.2.2.1, hb.2.2.2⟩).1

/-- The cells of the buffer after a call of `update_pipe` in a run: each is
as before, or is the advanced position, was empty and holds the straight
glyph of the direction of the pipe. -/
theorem reachable_step_cell (ws w : World) (pipes : Nat → Pipe)
    (h : Reachable ws w pipes) (i : Nat) (hi : (i : Int) < w.pipe_count)
    (w1 : World) (p1 : Pipe) (hu : update_pipe w (pipes i) = some (w1, p1)) (y x : Int) :
    w1.screen y x = w.screen y x ∨
    ((y = (advance (pipes i)).pos.y ∧ x = (advance (pipes i)).pos.x) ∧
      w1.screen y x = some (get_pipe_char (pipes i).dir (pipes i).dir)) := by
  obtain ⟨hs, _⟩ := update_pipe_buffer _ _ _ _ hu
  rw [hs, reachable_commit_trailing ws w pipes h i hi]
  rcases commit_leading_cell w (advance (pipes i)) y x with h1 | ⟨_, h2, _, h3, _⟩
  · exact Or.inl h1.1
  · right
    rw [advance_dir] at h3
    exact ⟨h2, h3⟩

theorem reachable_glyphs_straight (ws w : World) (pipes : Nat → Pipe)
    (h : Reachable ws w pipes) : glyphs_straight w := by
  induction h with
  | init pipes0 w pipes h0 =>
    intro y x hb ho
    obtain ⟨_, hs, _⟩ := init_pipes_spec _ _ _ _ _ _ h0
    exact absurd (reset_glyphs_empty ws w hs y x hb) ho
  | step w pipes i w1 p1 hre hi hu ih =>
    intro y x hb ho
    rcases reachable_step_cell ws w pipes hre i hi w1 p1 hu y x with h1 | ⟨_, h2⟩
    · rw [h1] at ho ⊢
      exact ih y x hb ho
    · rw [h2]
      rcases get_pipe_char_same (pipes i).dir with h3 | h3
      · exact Or.inl (by rw [h3])
      · exact Or.inr (by rw [h3])
  | refill w pipes w1 pipes1 _ hr _ =>
    intro y x hb ho
    obtain ⟨_, hs, _⟩ := init_pipes_spec _ _ _ _ _ _ hr
    exact absurd (reset_glyphs_empty w w1 hs y x hb) ho
  | draw w pipes w1 out _ hd ih =>
    intro y x hb ho
    obtain ⟨hs, _, _⟩ := draw_screen_world _ _ _ hd
    rw [hs] at ho ⊢
    exact ih y x hb ho

/-- C19: in every state of a run, for each pipe below `pipe_count` that has
first-move flag 0 and a previous position inside the viewport, the cell at
the previous position holds a glyph; so the condition that guards the
trailing-cell write is false, the trailing-cell commit of a call of
`update_pipe` on the pipe writes nothing, and every glyph of the arrays is
one of the two straight glyphs. -/
theorem trailing_commit_never_fires (ws w : World) (pipes : Nat → Pipe)
    (h : Reachable ws w pipes) :
    (∀ i : Nat, (i : Int) < w.pipe_count →
      ((pipes i).first_move = 0 →
        (0 ≤ (pipes i).from_.x ∧ (pipes i).from_.x < w.term_width ∧
         0 ≤ (pipes i).from_.y ∧ (pipes i).from_.y < w.term_height) →
        w.screen (pipes i).from_.y (pipes i).from_.x ≠ none) ∧
      ¬ ((pipes i).first_move = 0 ∧ (pipes i).prev_dir ≠ (pipes i).dir ∧
         0 ≤ (pipes i).from_.x ∧ (pipes i).from_.x < w.term_width ∧
         0 ≤ (pipes i).from_.y ∧ (pipes i).from_.y < w.term_height ∧
         w.screen (pipes i).from_.y (pipes i).from_.x = none) ∧
      commit_trailing w (pipes i) = w) ∧
    (∀ y x : Int, 0 ≤ y → y < MAX_HEIGHT → 0 ≤ x → x < MAX_WIDTH →
      w.screen y x ≠ none → w.screen y x = some "─" ∨ w.screen y x = some "│") := by
  constructor
  · intro i hi
    have ha := reachable_anchors_occupied ws w pipes h i hi
    refine ⟨fun h0 hv => ha h0 hv, ?_, reachable_commit_trailing ws w pipes h i hi⟩
    rintro ⟨h1, _, h3, h4, h5, h6, h7⟩
    exact ha h1 ⟨h3, h4, h5, h6⟩ h7
  · intro y x h1 h2 h3 h4 ho
    exact reachable_glyphs_straight ws w pipes h y x ⟨h1, h2, h3, h4⟩ ho

/-- Witness of `trailing_commit_never_fires`: the state of a run in the
20 x 20 viewport after the initialisation and one call of `update_pipe`. -/
theorem trailing_commit_never_fires_witness :
    ∃ (w : World) (ps : Nat → Pipe) (w1 : World) (p1 : Pipe),
      main_init world_20x20 pipes_east = some (w, ps) ∧
      update_pipe w (ps 0) = some (w1, p1) ∧
      commit_trailing w1 p1 = w1 ∧
      (∀ y x : Int, 0 ≤ y → y < MAX_HEIGHT → 0 ≤ x → x < MAX_WIDTH →
        w1.screen y x ≠ none → w1.screen y x = some "─" ∨ w1.screen y x = some "│") := by
  obtain ⟨w, ps, w1, p1, h0, h1, hre, hc⟩ :=
    run_one_step world_20x20 pipes_east (by decide) (by decide) (by decide)
  have h := trailing_commit_never_fires world_20x20 w1 (Function.update ps 0 p1) hre
  have h2 := (h.1 0 hc).2.2
  simp only [Function.update_same] at h2
  exact ⟨w, ps, w1, p1, h0, h1, h2, h.2⟩

/-! ## The screen is never filled -/

theorem advance_near (p : Pipe) :
    p.pos.x - 1 ≤ (advance p).pos.x ∧ (advance p).pos.x ≤ p.pos.x + 1 ∧
    p.pos.y - 1 ≤ (advance p).pos.y ∧ (advance p).pos.y ≤ p.pos.y + 1 := by
  unfold advance
  split_ifs <;> (try dsimp only) <;> omega

theorem reachable_glyphs_inside (ws w : World) (pipes : Nat → Pipe)
    (hw : ws.term_width > 4) (hh : ws.term_height > 4)
    (h : Reachable ws w pipes) : glyphs_inside ws w := by
  induction h with
  | init pipes0 w pipes h0 =>
    intro y x hb ho
    obtain ⟨_, hs, _⟩ := init_pipes_spec _ _ _ _ _ _ h0
    exact absurd (reset_glyphs_empty ws w hs y x hb) ho
  | step w pipes i w1 p1 hre hi hu ih =>
    intro y x hb ho
    rcases reachable_step_cell ws w pipes hre i hi w1 p1 hu y x with h1 | ⟨⟨hy, hx⟩, _⟩
    · rw [h1] at ho
      exact ih y x hb ho
    · have hin := reachable_in_interior ws w pipes hw hh hre i hi
      have hn := advance_near (pipes i)
      simp only [in_interior, BORDER_PADDING] at hin
      omega
  | refill w pipes w1 pipes1 _ hr _ =>
    intro y x hb ho
    obtain ⟨_, hs, _⟩ := init_pipes_spec _ _ _ _ _ _ hr
    exact absurd (reset_glyphs_empty w w1 hs y x hb) ho
  | draw w pipes w1 out _ hd ih =>
    intro y x hb ho
    obtain ⟨hs, _, _⟩ := draw_screen_world _ _ _ hd
    rw [hs] at ho
    exact ih y x hb ho

theorem reachable_not_filled (ws w : World) (pipes : Nat → Pipe)
    (hw : ws.term_width > 4) (hh : ws.term_height > 4)
    (h : Reachable ws w pipes) : screen_filled w = 0 := by
  have c := reachable_same_config ws w pipes h
  rw [screen_filled_eq_zero_iff]
  intro hall
  have ho := hall 0 0 (le_refl _) (by rw [c.1]; omega) (le_refl _) (by rw [c.2.1]; omega)
  have := reachable_glyphs_inside ws w pipes hw hh h 0 0
    ⟨by decide, by decide, by decide, by decide⟩ ho
  omega

/-- The states the loop of lines 257-259 goes through are states of the run. -/
theorem update_pipes_reachable (ws : World) (n : Nat) :
    ∀ (w : World) (pipes : Nat → Pipe) (i : Nat) (w1 : World) (pipes1 : Nat → Pipe),
      Reachable ws w pipes → i + n ≤ w.pipe_count.toNat →
      update_pipes w pipes i n = some (w1, pipes1) → Reachable ws w1 pipes1 := by
  induction n with
  | zero =>
    intro w pipes i w1 pipes1 hre _ hu
    simp only [update_pipes, Option.some.injEq, Prod.mk.injEq] at hu
    obtain ⟨rfl, rfl⟩ := hu
    exact hre
  | succ n ih =>
    intro w pipes i w1 pipes1 hre hn hu
    simp only [update_pipes] at hu
    split at hu
    · exact absurd hu (by simp)
    · rename_i w2 p2 h2
      have hc := update_pipe_same_config _ _ _ _ h2
      exact ih _ _ _ _ _
        (Reachable.step w pipes i w2 p2 hre ((lt_pipe_count_iff w i).mpr (by omega)) h2)
        (by rw [hc.2.2.2.2.2.1]; omega) hu

theorem loop_step_reachable (ws w : World) (pipes : Nat → Pipe) (w1 : World)
    (pipes1 : Nat → Pipe) (hre : Reachable ws w pipes)
    (h : loop_step w pipes = some (w1, pipes1)) : Reachable ws w1 pipes1 := by
  unfold loop_step at h
  split at h
  · exact absurd h (by simp)
  · rename_i w2 pipes2 hu
    have hre2 := update_pipes_reachable ws _ w pipes 0 w2 pipes2 hre (by omega) hu
    split at h
    · exact Reachable.refill w2 pipes2 w1 pipes1 hre2 h
    · simp only [Option.some.injEq, Prod.mk.injEq] at h
      obtain ⟨rfl, rfl⟩ := h
      exact hre2

theorem loop_iteration_reachable (ws w : World) (pipes : Nat → Pipe) (w1 : World)
    (pipes1 : Nat → Pipe) (hre : Reachable ws w pipes)
    (h : loop_iteration w pipes = some (w1, pipes1)) : Reachable ws w1 pipes1 := by
  unfold loop_iteration at h
  split at h
  · exact absurd h (by simp)
  · rename_i w2 pipes2 hl
    have hre2 := loop_step_reachable ws w pipes w2 pipes2 hre hl
    split at h
    · exact absurd h (by simp)
    · rename_i w3 out hd
      simp only [Option.some.injEq, Prod.mk.injEq] at h
      obtain ⟨rfl, rfl⟩ := h
      exact Reachable.draw w2 pipes2 w3 out hre2 hd

/-- The state after any number of iterations of the loop of `main` is a
state of the run. -/
theorem loop_iterations_reachable (ws : World) (n : Nat) :
    ∀ (w : World) (pipes : Nat → Pipe) (w1 : World) (pipes1 : Nat → Pipe),
      Reachable ws w pipes → loop_iterations n w pipes = some (w1, pipes1) →
      Reachable ws w1 pipes1 := by
  induction n with
  | zero =>
    intro w pipes w1 pipes1 hre h
    simp only [loop_iterations, Option.some.injEq, Prod.mk.injEq] at h
    obtain ⟨rfl, rfl⟩ := h
    exact hre
  | succ n ih =>
    intro w pipes w1 pipes1 hre h
    simp only [loop_iterations] at h
    split at h
    · exact absurd h (by simp)
    · rename_i w2 pipes2 hl
      exact ih _ _ _ _ (loop_iteration_reachable ws w pipes w2 pipes2 hre hl) h

/-- C20: in a viewport larger than 4 and not larger than the arrays in both
dimensions, in every state of a run every glyph is at least one cell away
from the edges of the viewport, `screen_filled` returns 0, and an iteration
of the main loop that starts there finds `screen_filled` 0 after stepping
the pipes and does not take its reset branch. -/
theorem screen_never_filled (ws w : World) (pipes : Nat → Pipe)
    (hw : 4 < ws.term_width ∧ ws.term_width ≤ MAX_WIDTH)
    (hh : 4 < ws.term_height ∧ ws.term_height ≤ MAX_HEIGHT)
    (h : Reachable ws w pipes) :
    (∀ y x : Int, 0 ≤ y → y < MAX_HEIGHT → 0 ≤ x → x < MAX_WIDTH → w.screen y x ≠ none →
      1 ≤ x ∧ x ≤ w.term_width - 2 ∧ 1 ≤ y ∧ y ≤ w.term_height - 2) ∧
    (∀ y x : Int, 0 ≤ x → x < w.term_width → 0 ≤ y → y < w.term_height →
      (x = 0 ∨ x = w.term_width - 1 ∨ y = 0 ∨ y = w.term_height - 1) →
      w.screen y x = none) ∧
    screen_filled w = 0 ∧
    (∀ (w1 : World) (pipes1 : Nat → Pipe),
      update_pipes w pipes 0 w.pipe_count.toNat = some (w1, pipes1) →
      screen_filled w1 = 0 ∧ loop_step w pipes = some (w1, pipes1)) := by
  have c := reachable_same_config ws w pipes h
  have hg := reachable_glyphs_inside ws w pipes hw.1 hh.1 h
  refine ⟨?_, ?_, reachable_not_filled ws w pipes hw.1 hh.1 h, ?_⟩
  · intro y x h1 h2 h3 h4 ho
    have := hg y x ⟨h1, h2, h3, h4⟩ ho
    rw [c.1, c.2.1]; exact this
  · intro y x hx0 hx1 hy0 hy1 hedge
    by_contra ho
    have hb : in_buffer y x := by
      have := hw.2
      have := hh.2
      rw [c.1] at hx1
      rw [c.2.1] at hy1
      exact ⟨hy0, by omega, hx0, by omega⟩
    have := hg y x hb ho
    rw [c.1, c.2.1] at hedge
    omega
  · intro w1 pipes1 hu
    have hre1 := update_pipes_reachable ws _ w pipes 0 w1 pipes1 h (by omega) hu
    have hz := reachable_not_filled ws w1 pipes1 hw.1 hh.1 hre1
    refine ⟨hz, ?_⟩
    simp only [loop_step, hu, hz]
    rfl

/-- Witness of `screen_never_filled`: the state of a run in the 20 x 20
viewport after the initialisation and one call of `update_pipe`. -/
theorem screen_never_filled_witness :
    ∃ (w : World) (ps : Nat → Pipe) (w1 : World) (p1 : Pipe),
      main_init world_20x20 pipes_east = some (w, ps) ∧
      update_pipe w (ps 0) = some (w1, p1) ∧
      (∀ y x : Int, 0 ≤ y → y < MAX_HEIGHT → 0 ≤ x → x < MAX_WIDTH → w1.screen y x ≠ none →
        1 ≤ x ∧ x ≤ w1.term_width - 2 ∧ 1 ≤ y ∧ y ≤ w1.term_height - 2) ∧
      screen_filled w1 = 0 := by
  obtain ⟨w, ps, w1, p1, h0, h1, hre, _⟩ :=
    run_one_step world_20x20 pipes_east (by decide) (by decide) (by decide)
  have h := screen_never_filled world_20x20 w1 (Function.update ps 0 p1)
    ⟨by decide, by decide⟩ ⟨by decide, by decide⟩ hre
  exact ⟨w, ps, w1, p1, h0, h1, h.1, h.2.2.1⟩

/-! ## The previous position in a run -/

/-- In every state of a run the previous position of each pipe below
`pipe_count` is its position, so it is never the cell the pipe advances to. -/
theorem reachable_from_eq_pos (ws w : World) (pipes : Nat → Pipe)
    (h : Reachable ws w pipes) (i : Nat) (hi : (i : Int) < w.pipe_count) :
    (pipes i).from_ = (pipes i).pos :=
  reachable_pipe_local ws (fun p => p.from_ = p.pos)
    (fun w w0 p0 _ h0 => (init_pipe_spec w w0 p0 h0).2.1)
    (fun w p w' p' _ _ hu => by
      by_cases hr : respawns w p
      · obtain ⟨pt, d, _, hp⟩ := update_pipe_of_respawns w p w' p' hu hr
        rw [hp]
      · have e := update_pipe_of_not_respawns w p w' p' hu hr
        have e2 : p' = (turn_decision (commit_leading (commit_trailing w p) (advance p))
            (update_anchor (advance p))).2 := congrArg Prod.snd e
        rw [e2]; simp [update_anchor])
    w pipes h i hi

/-! ## The leading-cell commit in a run -/

/-- A run in a viewport larger than 4 and not larger than the arrays, with at
least one pipe, gets through the initialisation; the first call of
`update_pipe` returns, and the cell its pipe advances to is inside the
viewport and empty. -/
theorem run_first_call (ws : World) (pipes : Nat → Pipe)
    (hw : 4 < ws.term_width ∧ ws.term_width ≤ MAX_WIDTH)
    (hh : 4 < ws.term_height ∧ ws.term_height ≤ MAX_HEIGHT) (hc : 0 < ws.pipe_count) :
    ∃ (w : World) (ps : Nat → Pipe) (w1 : World) (p1 : Pipe),
      main_init ws pipes = some (w, ps) ∧ Reachable ws w ps ∧
      ((0 : Nat) : Int) < w.pipe_count ∧ update_pipe w (ps 0) = some (w1, p1) ∧
      (0 ≤ (ps 0).dir ∧ (ps 0).dir ≤ 3) ∧
      (0 ≤ (advance (ps 0)).pos.x ∧ (advance (ps 0)).pos.x < w.term_width ∧
       0 ≤ (advance (ps 0)).pos.y ∧ (advance (ps 0)).pos.y < w.term_height) ∧
      w.screen (advance (ps 0)).pos.y (advance (ps 0)).pos.x = none := by
  have h0 := main_init_isSome ws pipes (by omega) (by omega)
  cases hm : main_init ws pipes with
  | none => rw [hm] at h0; exact absurd h0 (by decide)
  | some r =>
    obtain ⟨w, ps⟩ := r
    have hre : Reachable ws w ps := Reachable.init pipes w ps hm
    have c := reachable_same_config ws w ps hre
    have hi : ((0 : Nat) : Int) < w.pipe_count := by
      rw [c.2.2.2.2.2.1]; simpa using hc
    have h1 := update_pipe_isSome w (ps 0) (by rw [c.1]; omega) (by rw [c.2.1]; omega)
    cases hu : update_pipe w (ps 0) with
    | none => rw [hu] at h1; exact absurd h1 (by decide)
    | some r1 =>
      obtain ⟨w1, p1⟩ := r1
      have hd := (reachable_dirs_ok ws w ps hre 0 hi).1
      have hin := reachable_in_interior ws w ps hw.1 hh.1 hre 0 hi
      have hn := advance_near (ps 0)
      simp only [in_interior, BORDER_PADDING] at hin
      have hM1 : MAX_WIDTH = 512 := rfl
      have hM2 : MAX_HEIGHT = 256 := rfl
      have hw2 := hw.2
      have hh2 := hh.2
      rw [hM1] at hw2
      rw [hM2] at hh2
      obtain ⟨_, hs, _⟩ := init_pipes_spec _ _ _ _ _ _ hm
      refine ⟨w, ps, w1, p1, rfl, hre, hi, hu, hd, ?_, ?_⟩
      · rw [c.1, c.2.1]; omega
      · exact reset_glyphs_empty ws w hs _ _
          ⟨by omega, by rw [hM2]; omega, by omega, by rw [hM1]; omega⟩

/-- A call of `update_pipe` that does not respawn, with the timer below
`TURN_DELAY`: the pipe is at the advanced position with the same direction. -/
theorem update_pipe_early_step (w : World) (p : Pipe)
    (hb : ¬ at_border w (advance p).pos) (hlt : p.steps_since_turn < TURN_DELAY) :
    ∃ (w1 : World) (p1 : Pipe), update_pipe w p = some (w1, p1) ∧
      p1.pos = (advance p).pos ∧ p1.dir = p.dir ∧
      p1.steps_since_turn = p.steps_since_turn + 1 ∧
      w1.term_width = w.term_width ∧ w1.term_height = w.term_height := by
  have hu := update_pipe_of_not_border w p hb
  have hlt2 : (update_anchor (advance p)).steps_since_turn < TURN_DELAY := by
    simpa [update_anchor] using hlt
  rw [turn_decision_early _ _ hlt2] at hu
  refine ⟨_, _, hu, rfl, ?_, ?_, ?_, ?_⟩
  · simp [update_anchor]
  · simp [update_anchor]
  · simp
  · simp

theorem update_pipe_n_isSome (n : Nat) :
    ∀ (w : World) (p : Pipe), w.term_width ≠ 4 → w.term_height ≠ 4 →
      (update_pipe_n n w p).isSome = true := by
  induction n with
  | zero => intro w p _ _; rfl
  | succ n ih =>
    intro w p hw hh
    have h1 := update_pipe_isSome w p hw hh
    simp only [update_pipe_n]
    cases hu : update_pipe w p with
    | none => rw [hu] at h1; exact absurd h1 (by decide)
    | some r =>
      obtain ⟨w1, p1⟩ := r
      obtain ⟨c1, c2, _⟩ := update_pipe_same_config _ _ _ _ hu
      exact ih w1 p1 (by rw [c1]; exact hw) (by rw [c2]; exact hh)

/-- In the 10 x 5 viewport three calls of `update_pipe` on a freshly spawned
pipe of row 2, none of which respawns it, need the pipe to travel East from
a column up to 4 or West from a column from 5 on. -/
theorem three_ticks_need_room (w : World) (p : Pipe)
    (hw : w.term_width = 10) (hh : w.term_height = 5)
    (hy : p.pos.y = 2) (hd : 0 ≤ p.dir ∧ p.dir ≤ 3) (hst : p.steps_since_turn = 0)
    (h : no_respawn 3 w p = true) :
    (p.dir = 0 ∧ p.pos.x ≤ 4) ∨ (p.dir = 2 ∧ 5 ≤ p.pos.x) := by
  simp only [no_respawn, Bool.and_eq_true, decide_eq_true_eq] at h
  obtain ⟨hb1, h⟩ := h
  obtain ⟨w1, p1, e1, hp1, hd1, hs1, hw1, hh1⟩ :=
    update_pipe_early_step w p hb1 (by rw [hst]; decide)
  rw [e1] at h
  simp only [Bool.and_eq_true, decide_eq_true_eq] at h
  obtain ⟨hb2, h⟩ := h
  obtain ⟨w2, p2, e2, hp2, hd2, hs2, hw2, hh2⟩ :=
    update_pipe_early_step w1 p1 hb2 (by rw [hs1, hst]; decide)
  rw [e2] at h
  simp only [Bool.and_eq_true, decide_eq_true_eq] at h
  obtain ⟨hb3, _⟩ := h
  obtain ⟨a0, a1, a2, a3⟩ := advance_pos_cases p
  obtain ⟨b0, b1, b2, b3⟩ := advance_pos_cases p1
  obtain ⟨c0, c1, c2, c3⟩ := advance_pos_cases p2
  simp only [at_border, BORDER_PADDING, hw, hh, hw1, hh1, hw2, hh2] at hb1 hb2 hb3
  have hcases : p.dir = 0 ∨ p.dir = 1 ∨ p.dir = 2 ∨ p.dir = 3 := by omega
  rcases hcases with h0 | h0 | h0 | h0
  · left
    rw [a0 h0] at hp1 hb1
    rw [b0 (by rw [hd1, h0]), hp1] at hp2 hb2
    rw [c0 (by rw [hd2, hd1, h0]), hp2] at hb3
    simp only at hb3
    exact ⟨h0, by omega⟩
  · exfalso
    rw [a1 h0] at hb1
    simp only at hb1
    omega
  · right
    rw [a2 h0] at hp1 hb1
    rw [b2 (by rw [hd1, h0]), hp1] at hp2 hb2
    rw [c2 (by rw [hd2, hd1, h0]), hp2] at hb3
    simp only at hb3
    exact ⟨h0, by omega⟩
  · exfalso
    rw [a3 h0] at hb1
    simp only at hb1
    omega

/-- C8, amended: in the 10 x 5 viewport with an empty buffer, a pipe that
`init_pipe` spawns travelling East at a column up to 4, or West at a column
from 5 on, is after three calls of `update_pipe` three cells further in that
direction, and the occupied cells of the buffer are exactly the three cells
it went through, each holding the horizontal glyph; for every other spawn
the three calls return and one of them respawns the pipe. -/
theorem three_ticks_straight (w : World)
    (hw : w.term_width = 10) (hh : w.term_height = 5)
    (hempty : ∀ y x : Int, w.screen y x = none)
    (w0 : World) (p0 : Pipe) (hinit : init_pipe w = some (w0, p0)) :
    ((p0.dir = 0 ∧ p0.pos.x ≤ 4) ∨ (p0.dir = 2 ∧ 5 ≤ p0.pos.x) →
      ∃ (w3 : World) (p3 : Pipe) (s : Int), update_pipe_n 3 w0 p0 = some (w3, p3) ∧
        s = (if p0.dir = 0 then 1 else -1) ∧
        p3.pos = { x := p0.pos.x + 3 * s, y := p0.pos.y } ∧
        get_pipe_char p0.dir p0.dir = "─" ∧
        ∀ y x : Int, w3.screen y x =
          if y = p0.pos.y ∧ (x = p0.pos.x + s ∨ x = p0.pos.x + 2 * s ∨ x = p0.pos.x + 3 * s)
          then some "─" else none) ∧
    (¬ ((p0.dir = 0 ∧ p0.pos.x ≤ 4) ∨ (p0.dir = 2 ∧ 5 ≤ p0.pos.x)) →
      (update_pipe_n 3 w0 p0).isSome = true ∧ no_respawn 3 w0 p0 = false) := by
  constructor
  · intro hroom
    exact three_ticks_in_room w hw hh hempty w0 p0 hinit hroom
  · intro hno
    obtain ⟨⟨pt, d, w1, hg, hpos, hdir⟩, _, _, hst, _, _, _, _, _, hw0, hh0, _⟩ :=
      init_pipe_spec w w0 p0 hinit
    obtain ⟨_, _, pt', d', w1', hg', _, _, hy0, hy1, hd0, hd1⟩ :=
      get_random_start_bounds w (by rw [hw]; decide) (by rw [hh]; decide)
    rw [hg] at hg'
    simp only [Option.some.injEq, Prod.mk.injEq] at hg'
    obtain ⟨rfl, rfl, rfl⟩ := hg'
    simp only [BORDER_PADDING, hh] at hy0 hy1
    rw [← hpos] at hy0 hy1
    rw [← hdir] at hd0 hd1
    refine ⟨update_pipe_n_isSome 3 w0 p0 (by rw [hw0, hw]; decide) (by rw [hh0, hh]; decide), ?_⟩
    cases hnr : no_respawn 3 w0 p0 with
    | false => rfl
    | true =>
      exact absurd (three_ticks_need_room w0 p0 (by rw [hw0, hw]) (by rw [hh0, hh])
        (by omega) ⟨hd0, hd1⟩ hst hnr) hno

/-- Witness of `three_ticks_straight`: the pipe spawned in `world_turn`, at
column 4 of row 2 travelling East, is at column 7 after three calls; the
pipe spawned in `world_10x5`, at column 4 of row 2 travelling South, is
respawned within three calls. -/
theorem three_ticks_straight_witness :
    (spawned_east.2.pos = { x := 4, y := 2 } ∧ spawned_east.2.dir = 0 ∧
     ∃ (w3 : World) (p3 : Pipe) (s : Int),
      update_pipe_n 3 spawned_east.1 spawned_east.2 = some (w3, p3) ∧
      s = (if spawned_east.2.dir = 0 then 1 else -1) ∧
      p3.pos = { x := spawned_east.2.pos.x + 3 * s, y := spawned_east.2.pos.y } ∧
      get_pipe_char spawned_east.2.dir spawned_east.2.dir = "─" ∧
      ∀ y x : Int, w3.screen y x =
        if y = spawned_east.2.pos.y ∧
          (x = spawned_east.2.pos.x + s ∨ x = spawned_east.2.pos.x + 2 * s ∨
            x = spawned_east.2.pos.x + 3 * s)
        then some "─" else none) ∧
    (spawned_south.2.pos = { x := 4, y := 2 } ∧ spawned_south.2.dir = 1 ∧
     (update_pipe_n 3 spawned_south.1 spawned_south.2).isSome = true ∧
     no_respawn 3 spawned_south.1 spawned_south.2 = false) :=
  ⟨⟨by decide, by decide,
    (three_ticks_straight world_turn rfl rfl (fun _ _ => rfl) spawned_east.1 spawned_east.2
      rfl).1 (Or.inl (by decide))⟩,
   ⟨by decide, by decide,
    (three_ticks_straight world_10x5 rfl rfl (fun _ _ => rfl) spawned_south.1 spawned_south.2
      rfl).2 (by decide)⟩⟩

end SimplePipes
